import Mathlib

/-!
# World identity, pointer registry and progress engine (src/lib/world/world.h)

A shallow embedding of `madness::uniqueidT` and of `madness::World` (the
registry, the user state, the deferred list, the list of active worlds,
`poll_all`, `run_tasks`, `await`, the serialisation of a `World*`), of the
timers of `molresponse/timer.cc`, of the serialisation of `std::array`
(`madness/world/array_addons.h`), of `transpose`
(`molresponse/TDHF_Basic_Operators2.cc`) and of `ResponseParameters`
(`molresponse/response_parameters.h`), followed by theorems about them.

Conventions of the embedding

* `unsigned long` is a 64-bit unsigned integer: a `Nat` reduced modulo
  `2^64` wherever the source does arithmetic on it (`obj_id++`, `idbase++`).
* A pointer (`T*`, `void*`, `World*`) is its address, a `Nat`; the null
  pointer is address `0`.
* `hash_map<K,V,H>` (GNU extension) is a finite map with unique keys.  It is
  embedded as an association list; `find` returns the entry of a key,
  `insert` adds an entry only when the key has none (it never overwrites),
  `erase` removes the entry of a key.  Iteration order is never observed by
  the code embedded here.
* A failed `MADNESS_ASSERT` ends the computation: fallible operations return
  `Option`, `none` standing for the assertion failure.
* The interfaces that a `World` refers to (`am`, `taskq`, `gop`, `mpi`) are
  objects of their own, allocated by the factories; their code is in other
  headers, and what `world.h` calls in them is a parameter (`Collaborators`).
* A loop that may not end (`await`) takes a fuel, the number of evaluations of
  its condition that it may make.
* An exception, a failed check and an operation without defined result end
  the computation with a value of `Except`.
* The base class of `ResponseParameters` and the ground-state parameters are
  in headers that are not among the sources: what `response_parameters.h`
  calls in them is a parameter (`QCCalculationParametersBase`,
  `GroundParameters`), and the theorems state the laws they assume of it.
-/

namespace madness

/-! ## Machine integers and pointers -/

/-- Number of values of an `unsigned long`. -/
def ULONG_RANGE : Nat := 2 ^ 64

/-- An address; `T*`, `void*` and `World*` values are all addresses. -/
abbrev Ptr := Nat

/-- The null pointer (the literal `0` returned by the lookups). -/
def NULL : Ptr := 0

/-- Value of `sizeof(void *)` on the LP64 targets of the library. -/
def sizeof_void_ptr : Nat := 8

/-! ## hash_map -/

/-- A `hash_map<K,V,...>`: entries in some order, at most one per key when
    built through `insert`. -/
abbrev hash_map (K V : Type) := List (K × V)

namespace hash_map

variable {K V : Type} [DecidableEq K]

/-- Body of `hash_map::find`: the value stored under `k`, `none` for `end()`. -/
def find : hash_map K V → K → Option V
  | [], _ => none
  | (k', v) :: rest, k => if k' = k then some v else find rest k

/-- Body of `hash_map::insert`: adds the pair unless the key already has an entry. -/
def insert (m : hash_map K V) (kv : K × V) : hash_map K V :=
  match find m kv.1 with
  | some _ => m
  | none => kv :: m

/-- Body of `hash_map::erase(key)`: removes what is stored under `k`. -/
def erase : hash_map K V → K → hash_map K V
  | [], _ => []
  | (k', v) :: rest, k => if k' = k then erase rest k else (k', v) :: erase rest k

/-- Body of `hash_map::size`. -/
def size (m : hash_map K V) : Nat := m.length

end hash_map

/-! ## uniqueidT -/

/-- The class `uniqueidT`: a pair of `unsigned long`. -/
structure uniqueidT where
  worldid : Nat
  objid : Nat
  deriving DecidableEq, Repr

namespace uniqueidT

/-- The public default constructor `uniqueidT()`. -/
def default_constructed : uniqueidT := { worldid := 0, objid := 0 }

/-- The member `operator==`. -/
def operator_eq (a other : uniqueidT) : Bool :=
  a.objid == other.objid && a.worldid == other.worldid

/-- The member `operator()` used as the hash of an id. -/
def hash (id : uniqueidT) : Nat := id.objid

/-- The member `operator bool`. -/
def operator_bool (a : uniqueidT) : Bool := a.objid != 0

/-- The member `get_world_id`. -/
def get_world_id (a : uniqueidT) : Nat := a.worldid

/-- The member `get_obj_id`. -/
def get_obj_id (a : uniqueidT) : Nat := a.objid

end uniqueidT

/-! ## World -/

/-- A shared-ownership handle `SharedPtr<DeferredCleanupInterface>`, named by
    the address of the object it owns. -/
abbrev Handle := Nat

/-- The data members of `World` that the registry, the user-state slot and the
    deferred list use. -/
structure World where
  map_id_to_ptr : hash_map uniqueidT Ptr
  map_ptr_to_id : hash_map Ptr uniqueidT
  _id : Nat
  obj_id : Nat
  user_state : Ptr
  deferred : List Handle
  deriving DecidableEq, Repr

/-- Modelled from the spec: the macro `MADNESS_ASSERT` of `world/worldexc.h`,
    which is not among the sources; a violated condition is "reported via a
    fatal assertion that aborts the process group", here `none`. -/
def MADNESS_ASSERT (cond : Bool) : Option Unit :=
  if cond then some () else none

namespace World

/-- State of a world when the constructor `World(comm)` has run its member
    initialisers and `world_assign_id` has stored `id` in `_id`. -/
def construct (id : Nat) : World :=
  { map_id_to_ptr := []
    map_ptr_to_id := []
    _id := id
    obj_id := 1
    user_state := 0
    deferred := [] }

/-- The member `id()`. -/
def id (w : World) : Nat := w._id

/-- The member `unique_obj_id`: `return uniqueidT(_id,obj_id++);`. -/
def unique_obj_id (w : World) : uniqueidT × World :=
  ({ worldid := w._id, objid := w.obj_id },
   { w with obj_id := (w.obj_id + 1) % ULONG_RANGE })

/-- The member `ptr_from_id`. -/
def ptr_from_id (w : World) (id : uniqueidT) : Ptr :=
  match hash_map.find w.map_id_to_ptr id with
  | none => 0
  | some second => second

/-- The function-local static `invalidid(0,0)` of `id_from_ptr`. -/
def invalidid : uniqueidT := { worldid := 0, objid := 0 }

/-- The member `id_from_ptr`. -/
def id_from_ptr (w : World) (ptr : Ptr) : uniqueidT :=
  match hash_map.find w.map_ptr_to_id ptr with
  | none => invalidid
  | some second => second

/-- The member template `register_ptr<T>`; `sizeofTptr` is `sizeof(T*)` of the
    instantiation. -/
def register_ptr (sizeofTptr : Nat) (w : World) (ptr : Ptr) : Option (uniqueidT × World) := do
  MADNESS_ASSERT (sizeofTptr == sizeof_void_ptr)
  let (id, w1) := unique_obj_id w
  let w2 := { w1 with map_id_to_ptr := hash_map.insert w1.map_id_to_ptr (id, ptr) }
  let w3 := { w2 with map_ptr_to_id := hash_map.insert w2.map_ptr_to_id (ptr, id) }
  pure (id, w3)

/-- The member template `unregister_ptr(T* ptr)`. -/
def unregister_ptr (w : World) (ptr : Ptr) : World :=
  let id := id_from_ptr w ptr
  let w1 := { w with map_id_to_ptr := hash_map.erase w.map_id_to_ptr id }
  { w1 with map_ptr_to_id := hash_map.erase w1.map_ptr_to_id ptr }

/-- The member template `unregister_ptr(uniqueidT id)`:
    `unregister_ptr(ptr_from_id<T>(id))`. -/
def unregister_ptr_id (w : World) (id : uniqueidT) : World :=
  unregister_ptr w (ptr_from_id w id)

/-- The member `set_user_state`. -/
def set_user_state (w : World) (state : Ptr) : World :=
  { w with user_state := state }

/-- The member `get_user_state`. -/
def get_user_state (w : World) : Ptr := w.user_state

/-- The member `clear_user_state`. -/
def clear_user_state (w : World) : World := set_user_state w 0

/-- The member `deferred_cleanup`: `deferred.push_back(item)`. -/
def deferred_cleanup (w : World) (item : Handle) : World :=
  { w with deferred := w.deferred ++ [item] }

/-- The static member `world_from_id`, over the static list `worlds` and the
    memory `mem` in which the listed `World*` are dereferenced. -/
def world_from_id (mem : Ptr → World) : List Ptr → Nat → Ptr
  | [], _ => 0
  | it :: rest, id =>
      if it != 0 && (mem it)._id == id then it else world_from_id mem rest id

end World

/-! ## Sequences of calls on one world -/

/-- A call of one of the public members of `World` that act on a single world. -/
inductive Op where
  | unique_obj_id
  | register_ptr (sizeofTptr : Nat) (ptr : Ptr)
  | unregister_ptr (ptr : Ptr)
  | unregister_ptr_id (id : uniqueidT)
  | ptr_from_id (id : uniqueidT)
  | id_from_ptr (ptr : Ptr)
  | set_user_state (state : Ptr)
  | get_user_state
  | clear_user_state
  | deferred_cleanup (item : Handle)
  deriving DecidableEq, Repr

/-- What a call hands back to its caller. -/
inductive Ret where
  | void
  | id (k : uniqueidT)
  | ptr (p : Ptr)
  deriving DecidableEq, Repr

/-- One call: the value returned and the world afterwards; `none` when an
    assertion of the callee fails. -/
def call (w : World) : Op → Option (Ret × World)
  | .unique_obj_id => some (.id (w.unique_obj_id).1, (w.unique_obj_id).2)
  | .register_ptr s p => (w.register_ptr s p).map (fun r => (.id r.1, r.2))
  | .unregister_ptr p => some (.void, w.unregister_ptr p)
  | .unregister_ptr_id k => some (.void, w.unregister_ptr_id k)
  | .ptr_from_id k => some (.ptr (w.ptr_from_id k), w)
  | .id_from_ptr p => some (.id (w.id_from_ptr p), w)
  | .set_user_state s => some (.void, w.set_user_state s)
  | .get_user_state => some (.ptr w.get_user_state, w)
  | .clear_user_state => some (.void, w.clear_user_state)
  | .deferred_cleanup h => some (.void, w.deferred_cleanup h)

/-- A sequence of calls in program order: the calls with their results, and
    the final world; `none` when one of the calls fails an assertion. -/
def run (w : World) : List Op → Option (List (Op × Ret) × World)
  | [] => some ([], w)
  | op :: ops =>
      match call w op with
      | none => none
      | some (r, w1) =>
          match run w1 ops with
          | none => none
          | some (tr, w2) => some ((op, r) :: tr, w2)

/-- Whether a call draws an id from the object-id counter. -/
def Op.allocates : Op → Bool
  | .unique_obj_id => true
  | .register_ptr _ _ => true
  | _ => false

/-- Number of calls of a sequence that draw an id from the counter. -/
def allocs (ops : List Op) : Nat := (ops.filter Op.allocates).length

/-- Whether every `register_ptr` call of the sequence is made on a pointer
    that has no entry in the pointer map at the time of the call. -/
def registers_only_unregistered (w : World) : List Op → Bool
  | [] => true
  | op :: ops =>
      (match op with
        | .register_ptr _ p => (hash_map.find w.map_ptr_to_id p).isNone
        | _ => true) &&
      (match call w op with
        | none => true
        | some (_, w1) => registers_only_unregistered w1 ops)

/-! ## Invariants of the registry -/

/-- Every id that has an entry in the id map carries the id of this world and
    an object id from 1 up to, and excluding, `n`. -/
def id_keys_below (w : World) (n : Nat) : Prop :=
  ∀ k p, hash_map.find w.map_id_to_ptr k = some p →
    k.worldid = w._id ∧ 1 ≤ k.objid ∧ k.objid < n

/-- The registry agrees with the registrations `hist` made so far: an entry
    `k -> q` of the id map comes from a registration of `q` that returned
    `k` and has its mirror `q -> k` in the pointer map; all ids handed out are
    below the counter, and no id was handed out for two pointers. -/
def registry_consistent (w : World) (hist : List (Ptr × uniqueidT)) : Prop :=
  (∀ k q, hash_map.find w.map_id_to_ptr k = some q →
      hash_map.find w.map_ptr_to_id q = some k ∧ (q, k) ∈ hist) ∧
  (∀ q k, (q, k) ∈ hist → k.objid < w.obj_id) ∧
  (∀ q q1 k, (q, k) ∈ hist → (q1, k) ∈ hist → q = q1)

/-! ## World ids -/

/-- Largest value of an `int` plus one. -/
def INT_RANGE : Nat := 2 ^ 31

/-- Modelled from the spec: the value of the static `World::idbase` of every
    process before its first world.  The definition of the static (world.cc)
    is not among the sources; the "rank-partitioned counter" starts at 0, the
    value `world_assign_id` tests for before it sets the base of a process. -/
def idbase_initial : Nat → Nat := fun _ => 0

/-- One process of a communicator at the time it constructs its `World`:
    its rank in `MPI::COMM_WORLD` and the indeterminate content of the
    uninitialised member `_id`. -/
structure Member where
  comm_world_rank : Nat
  uninitialised_id : Nat
  deriving DecidableEq, Repr

/-- The processes of a communicator: the one with rank 0 in it, then those
    with rank 1, 2, ... -/
structure Group where
  root : Member
  others : List Member
  deriving DecidableEq, Repr

/-- The members of a group in rank order. -/
def Group.members (g : Group) : List Member := g.root :: g.others

/-- The part of `world_assign_id` that one process runs before the
    broadcast.  `comm_world_rank` is `MPI::COMM_WORLD.Get_rank()`,
    `world_rank` is `world->mpi.rank()`; the pair is (`World::idbase`,
    `world->_id`).  The product `rank*10000` is a product of `int`, exact
    when below `INT_RANGE`, and is converted to `unsigned long` on
    assignment. -/
def world_assign_id_local (comm_world_rank world_rank : Nat) (idbase _id : Nat) : Nat × Nat :=
  let idbase1 :=
    if idbase == 0 && comm_world_rank != 0 then (comm_world_rank * 10000) % ULONG_RANGE
    else idbase
  if world_rank == 0 then ((idbase1 + 1) % ULONG_RANGE, idbase1) else (idbase1, _id)

/-- Modelled from the spec: `gop.broadcast(value)` of `world/worldgop.h`, which
    is not among the sources: "after the call, every process observes the same
    value, sourced from root", the root being rank 0 of the group. -/
def broadcast (values : List Nat) : List Nat :=
  values.map (fun _ => values.headD 0)

/-- Every member of a group, starting with the one of rank `world_rank`, runs
    the local part of `world_assign_id` on the `idbase` of its own process. -/
def assign_locals (idbase : Nat → Nat) : List Member → Nat → (Nat → Nat) × List Nat
  | [], _ => (idbase, [])
  | m :: ms, world_rank =>
      let r := world_assign_id_local m.comm_world_rank world_rank
                 (idbase m.comm_world_rank) m.uninitialised_id
      let rest := assign_locals (Function.update idbase m.comm_world_rank r.1) ms (world_rank + 1)
      (rest.1, r.2 :: rest.2)

/-- The collective `world_assign_id` run by the members of group `g`: the
    `idbase` of every process afterwards and the `_id` of every member.  Each
    member touches the `idbase` of its own process only; the closing
    `gop.barrier()` changes none of these values. -/
def world_assign_id (idbase : Nat → Nat) (g : Group) : (Nat → Nat) × List Nat :=
  let r := assign_locals idbase g.members 0
  (r.1, broadcast r.2)

/-- Worlds constructed one after the other over the given groups: the `_id`
    held by the members of each.  A process constructs its worlds in program
    order and a construction is collective, so the constructions of a program
    can be listed in an order that every process agrees with. -/
def construct_worlds (idbase : Nat → Nat) : List Group → List (List Nat)
  | [] => []
  | g :: gs =>
      let r := world_assign_id idbase g
      r.2 :: construct_worlds r.1 gs

/-- The id of each of the worlds constructed over the given groups (the `_id`
    of the member of rank 0). -/
def world_ids (idbase : Nat → Nat) (gs : List Group) : List Nat :=
  (construct_worlds idbase gs).map (fun ids => ids.headD 0)

/-- Number of groups whose rank-0 process has rank `r` in `MPI::COMM_WORLD`. -/
def rooted_at (r : Nat) (gs : List Group) : Nat :=
  (gs.filter (fun g => g.root.comm_world_rank == r)).length

/-- The ids that rank partitioning intends for the worlds over the groups
    `gs`, when `c r` worlds rooted at rank `r` exist already: `10000*r + k`
    for the `k`-th world, counted from 0, rooted at rank `r`. -/
def partitioned_ids (c : Nat → Nat) : List Group → List Nat
  | [] => []
  | g :: gs =>
      (10000 * g.root.comm_world_rank + c g.root.comm_world_rank) ::
        partitioned_ids
          (Function.update c g.root.comm_world_rank (c g.root.comm_world_rank + 1)) gs

/-- The counters `idbase` of the processes agree with the numbers `c r` of
    worlds rooted at each rank `r`: the counter of a process is still 0 and no
    world is rooted there, or it is `10000*r + c r`. -/
def idbase_counts (idbase c : Nat → Nat) : Prop :=
  ∀ r, (idbase r = 0 ∧ c r = 0) ∨ idbase r = 10000 * r + c r

/-! ## The process: statics of World, world objects and collaborators -/

/-- Number of values of a `uint64_t`. -/
def UINT64_RANGE : Nat := 2 ^ 64

/-- The private member `do_deferred_cleanup`.  Its `print` writes a line to
    standard output and changes no data. -/
def World.do_deferred_cleanup (w : World) : Bool × World :=
  if w.deferred.isEmpty then (false, w) else (true, { w with deferred := [] })

/-- Modelled from the spec: the collaborators of `world.h` whose code is not
    among the sources (`worldam.h`, `worldtask.h`, `worldtime.h`, the interface
    factories).  What `world.h` calls in them is a parameter acting on the
    state `S` of the collaborators: `world->am.poll()` ("delivered and
    executed via cooperative polling"), `world->taskq.run_next_ready_task()`
    ("executes exactly one ready task if any exist, else returns false"),
    `cycle_count()`, and the creation and deletion of the interface objects
    of a world. -/
structure Collaborators (S : Type) where
  am_poll : Ptr → S → S
  run_next_ready_task : Ptr → S → Bool × S
  cycle_count : S → Nat × S
  create_interfaces : Ptr → S → S
  delete_interfaces : Ptr → S → S

/-- An entry of the record of calls: an evaluation of the probe of `await`
    with its result, a call of `poll_all` with its argument, a call of the
    `poll` of the AM interface of a world, a call of `run_tasks`, a call of
    `run_next_ready_task` on the task queue of a world with its result. -/
inductive Called where
  | probe (result : Bool)
  | poll_all (working : Bool)
  | am_poll (world : Ptr)
  | run_tasks
  | run_next_ready_task (world : Ptr) (ran : Bool)
  deriving DecidableEq, Repr

/-- A process: the static members `worlds`, `idbase`, `poll_delay` and
    `last_poll` of `World`, the `World` objects by address, the state of the
    collaborators, and the record of the calls made so far (kept for the
    statements only; no code reads it). -/
structure Process (S : Type) where
  worlds : List Ptr
  idbase : Nat
  poll_delay : Nat
  last_poll : Nat
  mem : Ptr → World
  ext : S
  calls : List Called

/-- The function `world_do_poll`. -/
def world_do_poll {S : Type} (E : Collaborators S) (world : Ptr) (p : Process S) : Process S :=
  if world != 0 then
    { p with ext := E.am_poll world p.ext, calls := p.calls ++ [Called.am_poll world] }
  else p

/-- The static member `poll_all`.  The right operand of `&&` reads the cycle
    counter only when `working` holds; `last_poll+poll_delay` is a sum of
    `uint64_t`. -/
def World.poll_all {S : Type} (E : Collaborators S) (working : Bool) (p : Process S) :
    Process S :=
  let p0 := { p with calls := p.calls ++ [Called.poll_all working] }
  let test : Bool × Process S :=
    if working then
      (decide ((E.cycle_count p0.ext).1 < (p0.last_poll + p0.poll_delay) % UINT64_RANGE),
       { p0 with ext := (E.cycle_count p0.ext).2 })
    else (false, p0)
  if test.1 then test.2
  else
    let p1 := test.2.worlds.foldl (fun q world => world_do_poll E world q) test.2
    { p1 with ext := (E.cycle_count p1.ext).2, last_poll := (E.cycle_count p1.ext).1 }

/-- The function `world_do_run_task`; the pair is the process and `*status`.
    In `*status || world->taskq.run_next_ready_task()` the right operand is
    evaluated only when `*status` is false. -/
def world_do_run_task {S : Type} (E : Collaborators S) (world : Ptr)
    (ps : Process S × Bool) : Process S × Bool :=
  if world != 0 then
    if ps.2 then (ps.1, true)
    else
      ({ ps.1 with
          ext := (E.run_next_ready_task world ps.1.ext).2
          calls := ps.1.calls ++
            [Called.run_next_ready_task world (E.run_next_ready_task world ps.1.ext).1] },
       (E.run_next_ready_task world ps.1.ext).1)
  else ps

/-- The private static member `run_tasks`. -/
def World.run_tasks {S : Type} (E : Collaborators S) (p : Process S) : Bool × Process S :=
  let p0 := { p with calls := p.calls ++ [Called.run_tasks] }
  let r := p0.worlds.foldl (fun acc world => world_do_run_task E world acc) (p0, false)
  (r.2, r.1)

/-- An evaluation `probe()` of the probe of `await`: its result and the
    process afterwards.  The probe acts on the state of the collaborators
    (`MpiRequestTester` tests a request of the transport). -/
def evaluate_probe {S : Type} (probe : S → Bool × S) (p : Process S) : Bool × Process S :=
  ((probe p.ext).1,
   { p with ext := (probe p.ext).2, calls := p.calls ++ [Called.probe (probe p.ext).1] })

/-- The body of the loop of `await`, entered after an evaluation of the probe
    that failed: `poll_all(working)`, then `working = run_tasks()`.  The pair
    is the variable `working` and the process. -/
def World.await_pass {S : Type} (E : Collaborators S) (probe : S → Bool × S)
    (wp : Bool × Process S) : Bool × Process S :=
  World.run_tasks E (World.poll_all E wp.1 (evaluate_probe probe wp.2).2)

/-- The loop of `await`: `fuel` bounds the number of evaluations of the
    probe, `working` is the local variable of that name; `none` when the fuel
    does not suffice. -/
def World.await_loop {S : Type} (E : Collaborators S) (probe : S → Bool × S) :
    Nat → Bool → Process S → Option (Process S)
  | 0, _, _ => none
  | fuel + 1, working, p =>
      if (evaluate_probe probe p).1 then some (evaluate_probe probe p).2
      else
        World.await_loop E probe fuel (World.await_pass E probe (working, p)).1
          (World.await_pass E probe (working, p)).2

/-- The static member template `await(const Probe& probe)`. -/
def World.await {S : Type} (E : Collaborators S) (probe : S → Bool × S) (fuel : Nat)
    (p : Process S) : Option (Process S) :=
  World.await_loop E probe fuel false p

/-- The loop `for (int i=0; i<32; i++) World::poll_all();` of the constructor,
    with `n` iterations to go. -/
def poll_all_times {S : Type} (E : Collaborators S) : Nat → Process S → Process S
  | 0, p => p
  | n + 1, p => poll_all_times E n (World.poll_all E false p)

/-- The constructor `World(comm)` run for the object at address `this`.
    `uninitialised_id` is the indeterminate content of `_id`,
    `comm_world_rank` and `world_rank` the ranks of the process in
    `MPI::COMM_WORLD` and in `comm`, `broadcast_id` the value that
    `gop.broadcast` delivers on a process that is not rank 0 of `comm`.  The
    closing `print` changes no data. -/
def World.constructor {S : Type} (E : Collaborators S) (this : Ptr)
    (uninitialised_id comm_world_rank world_rank broadcast_id : Nat) (p : Process S) :
    Process S :=
  let w0 : World :=
    { map_id_to_ptr := [], map_ptr_to_id := [], _id := uninitialised_id, obj_id := 1,
      user_state := 0, deferred := [] }
  let p1 := { p with mem := Function.update p.mem this w0
                     ext := E.create_interfaces this p.ext }
  let p2 := { p1 with worlds := p1.worlds ++ [this] }
  let a := world_assign_id_local comm_world_rank world_rank p2.idbase (p2.mem this)._id
  let id := if world_rank == 0 then a.2 else broadcast_id
  let p3 := { p2 with idbase := a.1
                      mem := Function.update p2.mem this { (p2.mem this) with _id := id } }
  let ins := (E.cycle_count p3.ext).1
  let p4 := poll_all_times E 32 { p3 with ext := (E.cycle_count p3.ext).2 }
  let poll_delay := (((E.cycle_count p4.ext).1 + UINT64_RANGE - ins % UINT64_RANGE)
                      % UINT64_RANGE) / 32
  { p4 with ext := (E.cycle_count p4.ext).2, poll_delay := (poll_delay * 8) % UINT64_RANGE }

/-- The destructor `~World()` run for the object at address `this`:
    `worlds.remove(this)`, `do_deferred_cleanup()`, then the deletion of the
    interface objects. -/
def World.destructor {S : Type} (E : Collaborators S) (this : Ptr) (p : Process S) :
    Process S :=
  let p1 := { p with worlds := p.worlds.filter (fun x => x != this) }
  let p2 := { p1 with
    mem := Function.update p1.mem this (World.do_deferred_cleanup (p1.mem this)).2 }
  { p2 with ext := E.delete_interfaces this p2.ext }

/-! ## Sequences of events of a process -/

/-- Something a program does with the worlds of a process: it constructs a
    world, destroys one, calls a member of one, or calls one of the static
    members `poll_all`, `world_from_id`, `run_tasks`. -/
inductive Event where
  | construct (this : Ptr) (uninitialised_id comm_world_rank world_rank broadcast_id : Nat)
  | destroy (this : Ptr)
  | member (this : Ptr) (op : Op)
  | poll_all (working : Bool)
  | world_from_id (id : Nat)
  | run_tasks
  deriving DecidableEq, Repr

/-- Whether an event begins or ends the lifetime of a world. -/
def Event.is_lifecycle : Event → Bool
  | .construct _ _ _ _ _ => true
  | .destroy _ => true
  | _ => false

/-- One event; `none` when an assertion of the member called fails. -/
def Process.step {S : Type} (E : Collaborators S) (p : Process S) : Event → Option (Process S)
  | .construct this u c r b => some (World.constructor E this u c r b p)
  | .destroy this => some (World.destructor E this p)
  | .member this op =>
      match call (p.mem this) op with
      | none => none
      | some (_, w1) => some { p with mem := Function.update p.mem this w1 }
  | .poll_all working => some (World.poll_all E working p)
  | .world_from_id _ => some p
  | .run_tasks => some (World.run_tasks E p).2

/-- A sequence of events in program order. -/
def Process.run {S : Type} (E : Collaborators S) (p : Process S) :
    List Event → Option (Process S)
  | [] => some p
  | e :: es =>
      match Process.step E p e with
      | none => none
      | some p1 => Process.run E p1 es

/-- The addresses at which a `World` object is within its lifetime after a
    sequence of events: those of the worlds constructed and not destroyed
    since. -/
def live_after (live : Ptr → Bool) : List Event → Ptr → Bool
  | [] => live
  | .construct this _ _ _ _ :: es => live_after (Function.update live this true) es
  | .destroy this :: es => live_after (Function.update live this false) es
  | _ :: es => live_after live es

/-- Whether every world of the sequence is constructed at an address at which
    no world is within its lifetime (two objects of a type never share an
    address while both exist). -/
def lifetimes_ok (live : Ptr → Bool) : List Event → Bool
  | [] => true
  | .construct this _ _ _ _ :: es =>
      !(live this) && lifetimes_ok (Function.update live this true) es
  | .destroy this :: es => lifetimes_ok (Function.update live this false) es
  | _ :: es => lifetimes_ok live es

/-! ## Serialisation of a World pointer -/

/-- Modelled from the spec: an archive of `world/worldser.h`, which is not
    among the sources, "a serialization mechanism that can encode/decode a
    World reference as its universe-wide id": the values written, in order;
    `ar & x` writes `x` behind them when storing and reads the first one when
    loading. -/
abbrev Archive := List Nat

/-- Modelled from the spec: `ar & x` of a storing archive. -/
def Archive.write (ar : Archive) (x : Nat) : Archive := ar ++ [x]

/-- Modelled from the spec: `ar & x` of a loading archive; `none` when nothing
    is left to read. -/
def Archive.read : Archive → Option (Nat × Archive)
  | [] => none
  | x :: rest => some (x, rest)

namespace archive

/-- The member `store` of `ArchiveStoreImpl<Archive,World*>`. -/
def store (mem : Ptr → World) (ar : Archive) (wptr : Ptr) : Archive :=
  ar.write (mem wptr).id

/-- The member `load` of `ArchiveLoadImpl<Archive,World*>`: the pointer left in
    `wptr` and the rest of the archive. -/
def load (mem : Ptr → World) (worlds : List Ptr) (ar : Archive) : Option (Ptr × Archive) := do
  let (id, ar1) ← ar.read
  let wptr := World.world_from_id mem worlds id
  MADNESS_ASSERT (wptr != 0)
  pure (wptr, ar1)

end archive

/-! ## Shapes of records of calls -/

/-- Whether an entry of the record is an evaluation of the probe or a call
    that `await` makes itself. -/
def Called.by_await : Called → Bool
  | .probe _ => true
  | .poll_all _ => true
  | .run_tasks => true
  | _ => false

/-- The evaluations and calls that `await` makes itself when the probe fails
    once for each entry of `workings` and then succeeds: a failed evaluation,
    one `poll_all` with the entry as argument and one `run_tasks` for each
    entry, then the successful evaluation. -/
def await_calls : List Bool → List Called
  | [] => [Called.probe true]
  | working :: rest =>
      Called.probe false :: Called.poll_all working :: Called.run_tasks :: await_calls rest

/-- Modelled from the spec: task queues that hold a number of ready tasks for
    each world, with a `run_next_ready_task` that "executes exactly one ready
    task if any exist, else returns false"; a cycle counter that reads the
    state as it is; AM interfaces without messages. -/
def ready_task_counts : Collaborators (Ptr → Nat) :=
  { am_poll := fun _ s => s
    run_next_ready_task := fun world s =>
      if s world = 0 then (false, s) else (true, Function.update s world (s world - 1))
    cycle_count := fun s => (0, s)
    create_interfaces := fun _ s => s
    delete_interfaces := fun _ s => s }

/-- Modelled from the spec: collaborators reduced to a cycle counter that
    advances by one on every reading; no messages and no tasks. -/
def ticking_clock : Collaborators Nat :=
  { am_poll := fun _ s => s
    run_next_ready_task := fun _ s => (false, s)
    cycle_count := fun s => (s % UINT64_RANGE, s + 1)
    create_interfaces := fun _ s => s
    delete_interfaces := fun _ s => s }

/-- Modelled from the spec: a process before its first world, "a process-wide
    list of active worlds" that is empty; the definitions of the statics
    (world.cc) are not among the sources, `poll_delay` and `last_poll` are
    taken as 0 here. -/
def Process.start {S : Type} (mem : Ptr → World) (ext : S) : Process S :=
  { worlds := [], idbase := 0, poll_delay := 0, last_poll := 0, mem := mem, ext := ext,
    calls := [] }

/-! ## Timers (src/apps/molresponse/timer.cc) -/

namespace molresponse

/-- The vectors `ttt` and `sss` (declared in `molresponse/timer.h`), the last
    entry of a list being the back of the vector.  `T` is the type of the
    readings of `wall_time()` and `cpu_time()`. -/
structure Timers (T : Type) where
  ttt : List T
  sss : List T
  deriving DecidableEq, Repr

/-- The vectors before the first call: empty. -/
def Timers.start (T : Type) : Timers T := { ttt := [], sss := [] }

/-- How a call can end without returning: a failed `MADNESS_CHECK`, or
    `back()`/`pop_back()` on an empty vector, which has no defined result. -/
inductive TimerError where
  | check_failed
  | pop_of_empty
  deriving DecidableEq, Repr

/-- Modelled from the spec: the macro `MADNESS_CHECK` (`madness_exception.h`,
    not among the sources), an invariant violation "reported via a fatal
    assertion". -/
def MADNESS_CHECK (cond : Bool) : Except TimerError Unit :=
  if cond then .ok () else .error TimerError.check_failed

/-- The function `pop`: the back of the vector and the vector without it. -/
def pop {T : Type} (v : List T) : Except TimerError (T × List T) :=
  match v.getLast? with
  | none => .error TimerError.pop_of_empty
  | some x => .ok (x, v.dropLast)

/-- The function `start_timer`; `wall` and `cpu` are what `wall_time()` and
    `cpu_time()` return.  The fence before the readings touches neither
    vector. -/
def start_timer {T : Type} (wall cpu : T) (t : Timers T) : Timers T :=
  { ttt := t.ttt ++ [wall], sss := t.sss ++ [cpu] }

/-- The function `end_timer`: the two readings it pops (those it subtracts from
    the current times for the line it prints) and the vectors afterwards. -/
def end_timer {T : Type} (t : Timers T) : Except TimerError ((T × T) × Timers T) := do
  MADNESS_CHECK (decide (t.ttt.length > 0))
  let w ← pop t.ttt
  let c ← pop t.sss
  pure ((w.1, c.1), { ttt := w.2, sss := c.2 })

/-- A call of one of the two timer functions. -/
inductive TimerCall (T : Type) where
  | start_timer (wall cpu : T)
  | end_timer
  deriving DecidableEq, Repr

/-- A sequence of calls in program order; a call of `end_timer` that does not
    return leaves the vectors as they are, and the program goes on. -/
def timer_run {T : Type} (t : Timers T) : List (TimerCall T) → Timers T
  | [] => t
  | .start_timer wall cpu :: rest => timer_run (start_timer wall cpu t) rest
  | .end_timer :: rest =>
      match end_timer t with
      | .ok r => timer_run r.2 rest
      | .error _ => timer_run t rest

/-- The readings of the calls of `start_timer` that no later `end_timer` has
    been paired with, oldest first, each `end_timer` being paired with the
    most recent of them. -/
def unmatched_starts {T : Type} (acc : List (T × T)) : List (TimerCall T) → List (T × T)
  | [] => acc
  | .start_timer wall cpu :: rest => unmatched_starts (acc ++ [(wall, cpu)]) rest
  | .end_timer :: rest => unmatched_starts acc.dropLast rest

end molresponse

/-! ## Serialisation of std::array (src/madness/world/array_addons.h) -/

namespace archive

/-- The member `store` of `ArchiveStoreImpl<Archive, std::array<T,N>>`: the
    loop `ar & (*it)` over the elements; `store_elem` is `ar & x` for an
    element on a storing archive. -/
def store_array {T : Type} (store_elem : Archive → T → Archive) (ar : Archive) :
    List T → Archive
  | [] => ar
  | x :: rest => store_array store_elem (store_elem ar x) rest

/-- The member `load` of `ArchiveLoadImpl<Archive, std::array<T,N>>`: the loop
    `ar & (*it)` over the `n` elements of the array; `load_elem` is `ar & x`
    for an element on a loading archive. -/
def load_array {T : Type} (load_elem : Archive → Option (T × Archive)) :
    Nat → Archive → Option (List T × Archive)
  | 0, ar => some ([], ar)
  | n + 1, ar =>
      match load_elem ar with
      | none => none
      | some (x, ar1) =>
          match load_array load_elem n ar1 with
          | none => none
          | some (xs, ar2) => some (x :: xs, ar2)

end archive

/-! ## transpose (src/apps/molresponse/TDHF_Basic_Operators2.cc) -/

/-- Modelled from the spec: the class `response_space`, which is not among the
    sources (the spec leaves the numerics to external collaborators): rows of
    functions.  As `apply` uses it, `response_space(world, num_states,
    num_orbitals)` holds `num_states` rows of `num_orbitals` functions. -/
abbrev response_space (F : Type) := List (List F)

/-- Modelled from the spec: the constructor `response_space(world, num_states,
    num_orbitals)`, `zero` being a default-constructed function. -/
def response_space.zeros {F : Type} (zero : F) (num_states num_orbitals : Nat) :
    response_space F :=
  List.replicate num_states (List.replicate num_orbitals zero)

/-- How `transpose` can end without a container: a failed `MADNESS_ASSERT`,
    or an index outside a container, which has no defined result. -/
inductive TransposeError where
  | assertion
  | out_of_bounds
  deriving DecidableEq, Repr

/-- The read `f[i][j]`. -/
def response_space.read {F : Type} (f : response_space F) (i j : Nat) :
    Except TransposeError F :=
  match f[i]? with
  | none => .error TransposeError.out_of_bounds
  | some row =>
      match row[j]? with
      | none => .error TransposeError.out_of_bounds
      | some x => .ok x

/-- The assignment `g[j][i] = x`. -/
def response_space.assign {F : Type} (g : response_space F) (j i : Nat) (x : F) :
    Except TransposeError (response_space F) :=
  match g[j]? with
  | none => .error TransposeError.out_of_bounds
  | some row =>
      if i < row.length then .ok (g.set j (row.set i x))
      else .error TransposeError.out_of_bounds

/-- The inner loop of `transpose`, `for (j = ...; j < n; j++) g[j][i] = f[i][j]`,
    with `count` iterations to go. -/
def transpose_inner {F : Type} (f : response_space F) (i : Nat) :
    Nat → Nat → response_space F → Except TransposeError (response_space F)
  | 0, _, g => .ok g
  | count + 1, j, g => do
      let x ← f.read i j
      let g1 ← g.assign j i x
      transpose_inner f i count (j + 1) g1

/-- The outer loop of `transpose`, `for (i = ...; i < m; i++)`, with `count`
    iterations to go. -/
def transpose_outer {F : Type} (f : response_space F) (n : Nat) :
    Nat → Nat → response_space F → Except TransposeError (response_space F)
  | 0, _, g => .ok g
  | count + 1, i, g => do
      let g1 ← transpose_inner f i n 0 g
      transpose_outer f n count (i + 1) g1

/-- The function `transpose`. -/
def transpose {F : Type} (zero : F) (f : response_space F) :
    Except TransposeError (response_space F) :=
  if f.length > 0 then
    if (f.headD []).length > 0 then
      let m := f.length
      let n := (f.headD []).length
      let g := response_space.zeros zero m n
      transpose_outer f n m 0 g
    else .error TransposeError.assertion
  else .error TransposeError.assertion

/-- The two maps of the registry mirror each other: `k -> p` is an entry of
    the id map exactly when `p -> k` is an entry of the pointer map; neither
    map has two entries under one key, and both have the same size. -/
def registry_inverse (w : World) : Prop :=
  (∀ k p, hash_map.find w.map_id_to_ptr k = some p ↔
      hash_map.find w.map_ptr_to_id p = some k) ∧
  (w.map_id_to_ptr.map Prod.fst).Nodup ∧
  (w.map_ptr_to_id.map Prod.fst).Nodup ∧
  hash_map.size w.map_id_to_ptr = hash_map.size w.map_ptr_to_id

/-- Of the ids `ids` of the worlds constructed over the groups `gs`, those of
    the worlds whose rank-0 process has rank `r` in `MPI::COMM_WORLD`, in the
    order of construction. -/
def ids_rooted_at (r : Nat) : List Nat → List Group → List Nat
  | x :: xs, g :: gs =>
      if g.root.comm_world_rank == r then x :: ids_rooted_at r xs gs
      else ids_rooted_at r xs gs
  | _, _ => []

/-! ## ResponseParameters (src/apps/molresponse/response_parameters.h) -/

/-- A value of type `double`, written as the decimal `mantissa * 10^exponent`
    (`3.e-4` is `3 * 10^-4`).  The code embedded here stores and returns
    doubles and never computes with them. -/
structure double where
  mantissa : Int
  exponent : Int
  deriving DecidableEq, Repr

/-- The number that a decimal denotes. -/
def double.value (d : double) : Rat := d.mantissa * (10 : Rat) ^ d.exponent

/-- A value of one of the types at which `response_parameters.h` instantiates
    `initialize`, `get` and `set_derived_value`. -/
inductive Value where
  | string (s : String)
  | size_t (n : Nat)
  | int (z : Int)
  | bool (b : Bool)
  | double (x : double)
  | vector_int (v : List Int)
  | vector_double (v : List double)
  deriving DecidableEq, Repr

/-- Modelled from the spec: the base class `QCCalculationParametersBase`
    (chem/QCCalculationParametersBase.h), which is not among the sources; the
    spec leaves "input-parameter parsing" to "external collaborators".  What
    `response_parameters.h` calls in it is a parameter acting on the state `P`
    of the base-class part of a parameter object: the state `start` in which
    the constructor of a derived class finds it, `initialize<T>(key, value,
    comment)` (the field `init_parameter`), `read(world, inputfile, tag)`,
    `get<T>(key)` at the types `T`
    of the accessors embedded here, and `set_derived_value<T>(key, value)`.
    `E` is what a call that does not return throws. -/
structure QCCalculationParametersBase (P E : Type) where
  start : P
  init_parameter : String → Value → P → P
  read : String → String → P → Except E P
  get_string : String → P → Except E String
  get_size_t : String → P → Except E Nat
  get_bool : String → P → Except E Bool
  get_double : String → P → Except E double
  set_derived_value : String → Value → P → Except E P

/-- Modelled from the spec: what the getters of a `GroundParameters` object
    (molresponse/ground_parameters.h, not among the sources; part of the
    "external collaborators") return once its `read` has returned; `natom` is
    `molecule().natom()`. -/
structure GroundParameters where
  n_orbitals : Nat
  is_spinrestricted : Bool
  get_L : double
  get_k : Int
  get_xc : String
  natom : Nat
  deriving DecidableEq, Repr

/-- How `read_and_set_derived_values` can end without returning: an exception
    of a collaborator, the `std::out_of_range` of `std::string::at`, a
    `MADNESS_EXCEPTION(msg, value)`, or an operation without defined result
    (signed overflow, an index beyond the end of a string). -/
inductive ParametersError (E : Type) where
  | collaborator (e : E)
  | out_of_range
  | madness_exception (msg : String) (value : Int)
  | undefined_behaviour
  deriving DecidableEq, Repr

namespace ResponseParameters

/-- The calls of `initialize` made by the constructor `ResponseParameters()`,
    in order: key and default value (the comment of a parameter is left out). -/
def initial_parameters : List (String × Value) :=
  [("archive", .string "restartdata"),
   ("nwchem", .string ""),
   ("states", .size_t 1),
   ("print_level", .int 3),
   ("tda", .bool false),
   ("plot", .bool false),
   ("plot_range", .bool false),
   ("plot_data", .vector_int [0]),
   ("plot_cell", .vector_double []),
   ("plot_L", .double { mantissa := -1, exponent := 0 }),
   ("plot_pts", .size_t 201),
   ("plot_all_orbitals", .bool false),
   ("maxiter", .size_t 25),
   ("dconv", .double { mantissa := 3, exponent := -4 }),
   ("dconv_set", .bool false),
   ("guess_xyz", .bool false),
   ("small", .double { mantissa := 1, exponent := 10 }),
   ("protocol_data", .vector_double [{ mantissa := 1, exponent := -4 },
                                     { mantissa := 1, exponent := -6 }]),
   ("larger_subspace", .size_t 0),
   ("k", .int 7),
   ("random", .bool false),
   ("store_potential", .bool true),
   ("e_range", .bool false),
   ("e_range_lo", .double { mantissa := 0, exponent := 0 }),
   ("e_range_hi", .double { mantissa := 1, exponent := 0 }),
   ("plot_initial", .bool false),
   ("restart", .bool false),
   ("restart_file", .string ""),
   ("kain", .bool false),
   ("maxrotn", .double { mantissa := 1, exponent := 0 }),
   ("maxsub", .size_t 10),
   ("xc", .string "hf"),
   ("save", .bool false),
   ("save_file", .string ""),
   ("save_density", .bool false),
   ("save_density_file", .string ""),
   ("load_density", .bool false),
   ("load_density_file", .string ""),
   ("guess_max_iter", .size_t 5),
   ("property", .bool false),
   ("response_type", .string "excited_state"),
   ("dipole", .bool false),
   ("nuclear", .bool false),
   ("order2", .bool false),
   ("order3", .bool false),
   ("d2_types", .string ""),
   ("omega", .double { mantissa := 0, exponent := 0 }),
   ("l", .double { mantissa := 20, exponent := 0 }),
   ("num_orbitals", .size_t 0),
   ("spinrestricted", .bool true)]

variable {P E : Type}

/-- The constructor `ResponseParameters()`. -/
def constructor (B : QCCalculationParametersBase P E) : P :=
  initial_parameters.foldl (fun p kv => B.init_parameter kv.1 kv.2 p) B.start

/-- The accessor `archive()`. -/
def archive (B : QCCalculationParametersBase P E) (p : P) : Except E String :=
  B.get_string "archive" p

/-- The accessor `n_states()`. -/
def n_states (B : QCCalculationParametersBase P E) (p : P) : Except E Nat :=
  B.get_size_t "states" p

/-- The accessor `num_orbitals()`: `return get<size_t>("states");`. -/
def num_orbitals (B : QCCalculationParametersBase P E) (p : P) : Except E Nat :=
  B.get_size_t "states" p

/-- The accessor `dconv()`. -/
def dconv (B : QCCalculationParametersBase P E) (p : P) : Except E double :=
  B.get_double "dconv" p

/-- The accessor `dipole()`. -/
def dipole (B : QCCalculationParametersBase P E) (p : P) : Except E Bool :=
  B.get_bool "dipole" p

/-- The accessor `nuclear()`. -/
def nuclear (B : QCCalculationParametersBase P E) (p : P) : Except E Bool :=
  B.get_bool "nuclear" p

/-- The accessor `order2()`. -/
def order2 (B : QCCalculationParametersBase P E) (p : P) : Except E Bool :=
  B.get_bool "order2" p

/-- The accessor `order3()`. -/
def order3 (B : QCCalculationParametersBase P E) (p : P) : Except E Bool :=
  B.get_bool "order3" p

/-- The accessor `d2_types()`. -/
def d2_types (B : QCCalculationParametersBase P E) (p : P) : Except E String :=
  B.get_string "d2_types" p

/-- The convenience getter `econv()`. -/
def econv (B : QCCalculationParametersBase P E) (p : P) : Except E double :=
  B.get_double "econv" p

/-- A call into a collaborator from `read_and_set_derived_values`: what it
    throws passes through. -/
def from_collaborator {α : Type} : Except E α → Except (ParametersError E) α
  | .ok a => .ok a
  | .error e => .error (ParametersError.collaborator e)

/-- The member `at` of `std::string`: the character at `pos`, and
    `std::out_of_range` when `pos` is not below the size. -/
def string_at (s : String) (pos : Nat) : Except (ParametersError E) Char :=
  match s.toList[pos]? with
  | some c => .ok c
  | none => .error ParametersError.out_of_range

/-- The member `operator[]` of `std::string`: the character at `pos`, the
    null character when `pos` is the size, nothing defined beyond. -/
def string_index (s : String) (pos : Nat) : Except (ParametersError E) Char :=
  match s.toList[pos]? with
  | some c => .ok c
  | none =>
      if pos = s.length then .ok (Char.ofNat 0) else .error ParametersError.undefined_behaviour

/-- Conversion of a `size_t` to `int` (the `push_back` of `3 * natom()` into a
    `vector<int>`): the value modulo 2^32, in two's complement. -/
def size_t_to_int (x : Nat) : Int :=
  if x % 2 ^ 32 < 2 ^ 31 then ((x % 2 ^ 32 : Nat) : Int) else ((x % 2 ^ 32 : Nat) : Int) - 2 ^ 32

/-- Conversion of an `int` to `size_t`: the value modulo 2^64. -/
def int_to_size_t (z : Int) : Nat := (z % (2 : Int) ^ 64).toNat

/-- The functor `std::multiplies<>` on two `int`: the product, which is
    defined when it is an `int`. -/
def multiplies (a b : Int) : Except (ParametersError E) Int :=
  if -(2 : Int) ^ 31 ≤ a * b ∧ a * b < (2 : Int) ^ 31 then .ok (a * b)
  else .error ParametersError.undefined_behaviour

/-- The call `std::accumulate(first, last, init, std::multiplies<>())` on a
    `vector<int>` with an `int` as `init`. -/
def accumulate : List Int → Int → Except (ParametersError E) Int
  | [], init => .ok init
  | x :: rest, init =>
      match multiplies init x with
      | .ok acc => accumulate rest acc
      | .error e => .error e

/-- The body of the loops over `i` in `read_and_set_derived_values`, `c`
    being the character `d2_types().at(i)` or `d2_types()[i]`.  `natom()` is
    declared in chem/molecule.h, which is not among the sources; its result
    is taken to be a `size_t`, which for `3*natom < 2^31` gives what an `int`
    gives. -/
def nstates_push_back (natom : Nat) (c : Char) (nstates : List Int) :
    Except (ParametersError E) (List Int) :=
  if c == 'd' then .ok (nstates ++ [3])
  else if c == 'n' then .ok (nstates ++ [size_t_to_int ((3 * natom) % ULONG_RANGE)])
  else .error (ParametersError.madness_exception "not a valid response state " 0)

/-- The loops `for (size_t i = ...; i < 2; i++)` and `... i < 3 ...` of
    `read_and_set_derived_values`, with `count` iterations to go.  `d2_types`
    is what the accessor `d2_types()` returns on the object, which the loop
    does not change; `index` is `string_at` in the first loop and
    `string_index` in the second. -/
def nstates_loop (d2_types : Except E String)
    (index : String → Nat → Except (ParametersError E) Char) (natom : Nat) :
    Nat → Nat → List Int → Except (ParametersError E) (List Int)
  | 0, _, nstates => .ok nstates
  | count + 1, i, nstates =>
      match from_collaborator d2_types with
      | .error e => .error e
      | .ok s =>
          match index s i with
          | .error e => .error e
          | .ok c =>
              match nstates_push_back natom c nstates with
              | .error e => .error e
              | .ok nstates1 => nstates_loop d2_types index natom count (i + 1) nstates1

/-- The statements of `read_and_set_derived_values` under the comment
    `// Ground state params`. -/
def set_ground_state_params (B : QCCalculationParametersBase P E) (g_params : GroundParameters)
    (p : P) : Except (ParametersError E) P := do
  let p1 ← from_collaborator (B.set_derived_value "num_orbitals" (.size_t g_params.n_orbitals) p)
  let p2 ← from_collaborator
    (B.set_derived_value "spinrestricted" (.bool g_params.is_spinrestricted) p1)
  let p3 ← from_collaborator (B.set_derived_value "l" (.double g_params.get_L) p2)
  let p4 ← from_collaborator (B.set_derived_value "k" (.int g_params.get_k) p3)
  from_collaborator (B.set_derived_value "xc" (.string g_params.get_xc) p4)

/-- The branch `else if (order2())` (with `count = 2` and `string_at`) and the
    branch `else if (order3())` (with `count = 3` and `string_index`) of
    `read_and_set_derived_values`, `name` being "order2" or "order3". -/
def set_states_of_order (B : QCCalculationParametersBase P E) (name : String) (count : Nat)
    (index : String → Nat → Except (ParametersError E) Char) (natom : Nat) (p : P) :
    Except (ParametersError E) P := do
  let p1 ← from_collaborator (B.set_derived_value "response_type" (.string name) p)
  let nstates ← nstates_loop (d2_types B p1) index natom count 0 []
  let states ← accumulate nstates 1
  from_collaborator (B.set_derived_value "states" (.size_t (int_to_size_t states)) p1)

/-- The statement `if (dipole()) ... else if (nuclear()) ... else if
    (order2()) ... else if (order3()) ...` of `read_and_set_derived_values`,
    `natom` being `molecule.natom()`. -/
def set_states (B : QCCalculationParametersBase P E) (natom : Nat) (p : P) :
    Except (ParametersError E) P := do
  let is_dipole ← from_collaborator (dipole B p)
  if is_dipole then
    let p1 ← from_collaborator (B.set_derived_value "states" (.size_t 3) p)
    from_collaborator (B.set_derived_value "response_type" (.string "dipole") p1)
  else
    let is_nuclear ← from_collaborator (nuclear B p)
    if is_nuclear then
      let p1 ← from_collaborator
        (B.set_derived_value "states" (.size_t ((3 * natom) % ULONG_RANGE)) p)
      from_collaborator (B.set_derived_value "response_type" (.string "nuclear") p1)
    else
      let is_order2 ← from_collaborator (order2 B p)
      if is_order2 then set_states_of_order B "order2" 2 string_at natom p
      else
        let is_order3 ← from_collaborator (order3 B p)
        if is_order3 then set_states_of_order B "order3" 3 string_index natom p
        else pure p

/-- The member `read_and_set_derived_values(world, inputfile, tag)` on the
    parameter object `p`.  `g_params_read` is `GroundParameters::read` on a
    new `GroundParameters` object, given the name of the archive;
    `print_params` writes to standard output and changes no data. -/
def read_and_set_derived_values (B : QCCalculationParametersBase P E)
    (g_params_read : String → Except E GroundParameters) (inputfile tag : String) (p : P) :
    Except (ParametersError E) P := do
  let p1 ← from_collaborator (B.read inputfile tag p)
  let ground_file ← from_collaborator (archive B p1)
  let g_params ← from_collaborator (g_params_read ground_file)
  let p2 ← set_ground_state_params B g_params p1
  set_states B g_params.natom p2

end ResponseParameters

/-- Law of a parameter container: `set_derived_value` on one key leaves what
    the getters return for every other key. -/
def QCCalculationParametersBase.frames {P E : Type} (B : QCCalculationParametersBase P E) :
    Prop :=
  ∀ (k k1 : String) (v : Value) (p p1 : P), k ≠ k1 → B.set_derived_value k v p = .ok p1 →
    B.get_string k1 p1 = B.get_string k1 p ∧ B.get_size_t k1 p1 = B.get_size_t k1 p ∧
    B.get_bool k1 p1 = B.get_bool k1 p ∧ B.get_double k1 p1 = B.get_double k1 p

/-- Law of a parameter container: a `size_t` given to `set_derived_value` is
    what `get<size_t>` returns for the key afterwards. -/
def QCCalculationParametersBase.stores {P E : Type} (B : QCCalculationParametersBase P E) :
    Prop :=
  ∀ (k : String) (n : Nat) (p p1 : P), B.set_derived_value k (.size_t n) p = .ok p1 →
    B.get_size_t k p1 = .ok n

/-- Law of a parameter container: `initialize` on one key leaves what
    `get<double>` returns for every other key, and a `double` given to
    `initialize` is what `get<double>` returns for the key afterwards. -/
def QCCalculationParametersBase.inits {P E : Type}
    (B : QCCalculationParametersBase P E) : Prop :=
  (∀ (k k1 : String) (v : Value) (p : P), k ≠ k1 →
    B.get_double k1 (B.init_parameter k v p) = B.get_double k1 p) ∧
  (∀ (k : String) (x : double) (p : P), B.get_double k (B.init_parameter k (.double x) p) = .ok x)

/-! ## A parameter container for examples -/

/-- What the getters and setters of `parameter_list` throw. -/
inductive parameter_error where
  | unknown_parameter (key : String)
  | wrong_type (key : String)
  | no_input (inputfile tag : String)
  deriving DecidableEq, Repr

/-- Modelled from the spec: a parameter container for examples (the spec
    leaves "input-parameter parsing" to "external collaborators"): the keys
    with their values, the latest entry of a key first.  `initialize` and
    `read` add an entry, `read` for every `key value` line of the block of
    the input file that `files` holds under the tag, whether or not the key
    was initialised; `set_derived_value` adds an entry for a key that has
    one; a getter returns the value of the latest entry of the key. -/
def parameter_list (files : String → String → Option (List (String × Value))) :
    QCCalculationParametersBase (List (String × Value)) parameter_error :=
  { start := []
    init_parameter := fun key v p => (key, v) :: p
    read := fun inputfile tag p =>
      match files inputfile tag with
      | none => .error (parameter_error.no_input inputfile tag)
      | some block => .ok (block.reverse ++ p)
    get_string := fun key p =>
      match p.lookup key with
      | some (.string s) => .ok s
      | some _ => .error (parameter_error.wrong_type key)
      | none => .error (parameter_error.unknown_parameter key)
    get_size_t := fun key p =>
      match p.lookup key with
      | some (.size_t n) => .ok n
      | some _ => .error (parameter_error.wrong_type key)
      | none => .error (parameter_error.unknown_parameter key)
    get_bool := fun key p =>
      match p.lookup key with
      | some (.bool b) => .ok b
      | some _ => .error (parameter_error.wrong_type key)
      | none => .error (parameter_error.unknown_parameter key)
    get_double := fun key p =>
      match p.lookup key with
      | some (.double x) => .ok x
      | some _ => .error (parameter_error.wrong_type key)
      | none => .error (parameter_error.unknown_parameter key)
    set_derived_value := fun key v p =>
      match p.lookup key with
      | some _ => .ok ((key, v) :: p)
      | none => .error (parameter_error.unknown_parameter key) }

/-- The input file `input1` of the test `test_derived` (molresponse2.cc): the
    block `mp3` with the lines `econv 1.e-4` and `maxiter 12`, the line with
    `dconv` being a comment. -/
def test_derived_files (inputfile tag : String) : Option (List (String × Value)) :=
  if inputfile = "input1" ∧ tag = "mp3" then
    some [("econv", .double { mantissa := 1, exponent := -4 }), ("maxiter", .size_t 12)]
  else none

/-- Input files for examples: the block `response` of every file holds the
    given lines. -/
def files_with (block : List (String × Value)) (_inputfile tag : String) :
    Option (List (String × Value)) :=
  if tag = "response" then some block else none

/-- A ground-state calculation for examples: 5 orbitals, spin restricted, box
    size 20, polynomial order 7, `hf`, and a molecule of `natom` atoms,
    whatever the archive. -/
def ground_example (natom : Nat) (_archive : String) :
    Except parameter_error GroundParameters :=
  .ok { n_orbitals := 5, is_spinrestricted := true,
        get_L := { mantissa := 20, exponent := 0 }, get_k := 7, get_xc := "hf",
        natom := natom }

/-- The counters `idbase` of the processes agree with the numbers `c r` of
    worlds rooted at each rank `r` wherever the next id `10000*r + c r` is
    still an `unsigned long`: there the counter of a process is still 0 and no
    world is rooted on it, or it is `10000*r + c r`. -/
def idbase_counts_while (idbase c : Nat → Nat) : Prop :=
  ∀ r, 10000 * r + c r < ULONG_RANGE → (idbase r = 0 ∧ c r = 0) ∨ idbase r = 10000 * r + c r

/-- Modelled from the spec: a second parameter container for examples (the
    spec leaves "input-parameter parsing" to "external collaborators"), in
    which a value read from the input takes precedence over a derived one, as
    the test `test_derived` expects of `dconv` when it leaves `dconv` out of
    its input for it to be derived.  An entry holds a key, a value and the
    precedence of the value: 0 for the default given to `initialize`, 1 for
    a derived value, 2 for a value read from the input.  `set_derived_value`
    adds an entry for a key whose latest entry has precedence 0 or 1 and
    returns without a change for a key whose latest entry has precedence 2;
    a getter returns the value of the latest entry of the key. -/
def precedence_list (files : String → String → Option (List (String × Value))) :
    QCCalculationParametersBase (List (String × Value × Nat)) parameter_error :=
  { start := []
    init_parameter := fun key v p => (key, v, 0) :: p
    read := fun inputfile tag p =>
      match files inputfile tag with
      | none => .error (parameter_error.no_input inputfile tag)
      | some block => .ok ((block.map (fun kv => (kv.1, kv.2, 2))).reverse ++ p)
    get_string := fun key p =>
      match p.lookup key with
      | some (.string s, _) => .ok s
      | some _ => .error (parameter_error.wrong_type key)
      | none => .error (parameter_error.unknown_parameter key)
    get_size_t := fun key p =>
      match p.lookup key with
      | some (.size_t n, _) => .ok n
      | some _ => .error (parameter_error.wrong_type key)
      | none => .error (parameter_error.unknown_parameter key)
    get_bool := fun key p =>
      match p.lookup key with
      | some (.bool b, _) => .ok b
      | some _ => .error (parameter_error.wrong_type key)
      | none => .error (parameter_error.unknown_parameter key)
    get_double := fun key p =>
      match p.lookup key with
      | some (.double x, _) => .ok x
      | some _ => .error (parameter_error.wrong_type key)
      | none => .error (parameter_error.unknown_parameter key)
    set_derived_value := fun key v p =>
      match p.lookup key with
      | some (_, precedence) => if precedence ≤ 1 then .ok ((key, v, 1) :: p) else .ok p
      | none => .error (parameter_error.unknown_parameter key) }

end madness

/-! # Theorems -/

namespace madness

/-! ## Facts about hash_map -/

namespace hash_map

variable {K V : Type} [DecidableEq K]

theorem find_cons (k' : K) (v : V) (rest : hash_map K V) (k : K) :
    find ((k', v) :: rest) k = if k' = k then some v else find rest k := rfl

theorem erase_cons (k' : K) (v : V) (rest : hash_map K V) (k : K) :
    erase ((k', v) :: rest) k = if k' = k then erase rest k else (k', v) :: erase rest k := rfl

theorem find_insert_self (m : hash_map K V) (k : K) (v : V) (h : find m k = none) :
    find (insert m (k, v)) k = some v := by
  simp [insert, h, find_cons]

theorem insert_of_find_some (m : hash_map K V) (k : K) (v v0 : V) (h : find m k = some v0) :
    insert m (k, v) = m := by
  simp [insert, h]

theorem find_insert_of_ne (m : hash_map K V) (k k' : K) (v : V) (h : k ≠ k') :
    find (insert m (k, v)) k' = find m k' := by
  unfold insert
  cases hf : find m (k, v).1 with
  | none => simp [find_cons, h]
  | some v0 => simp

/-- An entry, once present, survives every later `insert`. -/
theorem find_insert_of_find_some (m : hash_map K V) (kv : K × V) (k : K) (v : V)
    (h : find m k = some v) : find (insert m kv) k = some v := by
  obtain ⟨k1, v1⟩ := kv
  by_cases hk : k1 = k
  · subst hk
    rw [insert_of_find_some m k1 v1 v h]
    exact h
  · rw [find_insert_of_ne m k1 k v1 hk]
    exact h

theorem find_insert (m : hash_map K V) (k k' : K) (v : V) :
    find (insert m (k, v)) k' =
      if k = k' then (match find m k with | some v0 => some v0 | none => some v)
      else find m k' := by
  by_cases hk : k = k'
  · subst hk
    cases hf : find m k with
    | none => simp [find_insert_self m k v hf]
    | some v0 => simp [insert_of_find_some m k v v0 hf, hf]
  · simp [hk, find_insert_of_ne m k k' v hk]

theorem find_erase_self (m : hash_map K V) (k : K) : find (erase m k) k = none := by
  induction m with
  | nil => rfl
  | cons e rest ih =>
    obtain ⟨k1, v1⟩ := e
    by_cases hk : k1 = k
    · simp [erase_cons, hk, ih]
    · simp [erase_cons, hk, find_cons, ih]

theorem find_erase_of_ne (m : hash_map K V) (k k' : K) (h : k ≠ k') :
    find (erase m k) k' = find m k' := by
  induction m with
  | nil => rfl
  | cons e rest ih =>
    obtain ⟨k1, v1⟩ := e
    by_cases hk : k1 = k
    · subst hk
      simp [erase_cons, find_cons, h, ih]
    · rw [erase_cons, if_neg hk, find_cons, find_cons, ih]

theorem erase_of_find_none (m : hash_map K V) (k : K) (h : find m k = none) :
    erase m k = m := by
  induction m with
  | nil => rfl
  | cons e rest ih =>
    obtain ⟨k1, v1⟩ := e
    by_cases hk : k1 = k
    · simp [find_cons, hk] at h
    · simp only [find_cons, hk, if_false] at h
      simp [erase_cons, hk, ih h]

theorem find_erase_eq_some {m : hash_map K V} {x k : K} {v : V}
    (h : find (erase m x) k = some v) : x ≠ k ∧ find m k = some v := by
  by_cases hx : x = k
  · subst hx
    rw [find_erase_self] at h
    simp at h
  · rw [find_erase_of_ne m x k hx] at h
    exact ⟨hx, h⟩

theorem find_insert_eq_some {m : hash_map K V} {x k : K} {v0 v : V}
    (h : find (insert m (x, v0)) k = some v) :
    find m k = some v ∨ (x = k ∧ v0 = v ∧ find m k = none) := by
  rw [find_insert] at h
  by_cases hx : x = k
  · subst hx
    simp only [if_true] at h
    cases hf : find m x with
    | none =>
      simp only [hf, Option.some.injEq] at h
      exact Or.inr ⟨rfl, h, rfl⟩
    | some v1 =>
      simp only [hf, Option.some.injEq] at h
      exact Or.inl (by rw [h])
  · simp only [hx, if_false] at h
    exact Or.inl h

end hash_map

/-! ## Facts about the registry operations -/

namespace World

/-- The world `register_ptr` leaves behind when its assertion holds. -/
theorem register_ptr_eq (s : Nat) (w : World) (p : Ptr) :
    register_ptr s w p =
      if s = sizeof_void_ptr then
        some ({ worldid := w._id, objid := w.obj_id },
              { w with
                map_id_to_ptr :=
                  hash_map.insert w.map_id_to_ptr ({ worldid := w._id, objid := w.obj_id }, p)
                map_ptr_to_id :=
                  hash_map.insert w.map_ptr_to_id (p, { worldid := w._id, objid := w.obj_id })
                obj_id := (w.obj_id + 1) % ULONG_RANGE })
      else none := by
  by_cases h : s = sizeof_void_ptr
  · simp [register_ptr, MADNESS_ASSERT, unique_obj_id, h]
  · simp [register_ptr, MADNESS_ASSERT, h]

theorem register_ptr_isSome (s : Nat) (w : World) (p : Ptr) :
    (register_ptr s w p).isSome = true ↔ s = sizeof_void_ptr := by
  rw [register_ptr_eq]
  by_cases h : s = sizeof_void_ptr <;> simp [h]

theorem world_from_id_cons (mem : Ptr → World) (it : Ptr) (rest : List Ptr) (id : Nat) :
    world_from_id mem (it :: rest) id =
      if it != 0 && (mem it)._id == id then it else world_from_id mem rest id := rfl

end World

/-! ## Facts about sequences of calls -/

theorem run_cons (w : World) (op : Op) (ops : List Op) :
    run w (op :: ops) =
      match call w op with
      | none => none
      | some (r, w1) =>
          match run w1 ops with
          | none => none
          | some (tr, w2) => some ((op, r) :: tr, w2) := rfl

theorem run_cons_eq_some {w w2 : World} {op : Op} {ops : List Op} {tr : List (Op × Ret)}
    (h : run w (op :: ops) = some (tr, w2)) :
    ∃ r w1 tr1, call w op = some (r, w1) ∧ run w1 ops = some (tr1, w2) ∧
      tr = (op, r) :: tr1 := by
  unfold run at h
  cases hc : call w op with
  | none => simp [hc] at h
  | some rw1 =>
    obtain ⟨r, w1⟩ := rw1
    cases hr : run w1 ops with
    | none => simp [hc, hr] at h
    | some trw2 =>
      obtain ⟨tr1, w3⟩ := trw2
      simp only [hc, hr, Option.some.injEq, Prod.mk.injEq] at h
      obtain ⟨h1, h2⟩ := h
      refine ⟨r, w1, tr1, rfl, ?_, h1.symm⟩
      rw [hr, h2]

theorem run_cons_of_some {w w1 w2 : World} {op : Op} {ops : List Op} {r : Ret}
    {tr1 : List (Op × Ret)} (hc : call w op = some (r, w1))
    (hr : run w1 ops = some (tr1, w2)) :
    run w (op :: ops) = some ((op, r) :: tr1, w2) := by
  simp [run, hc, hr]

theorem allocs_cons (op : Op) (ops : List Op) :
    allocs (op :: ops) = (if op.allocates then 1 else 0) + allocs ops := by
  unfold allocs
  by_cases h : op.allocates = true
  · simp [List.filter_cons, h, Nat.add_comm]
  · simp [List.filter_cons, h]

/-- A call of `register_ptr` that returns keeps every entry of the id map. -/
theorem find_id_after_register {s : Nat} {w w1 : World} {q : Ptr} {k1 : uniqueidT}
    (h : w.register_ptr s q = some (k1, w1)) (k : uniqueidT) (p : Ptr)
    (hk : hash_map.find w.map_id_to_ptr k = some p) :
    hash_map.find w1.map_id_to_ptr k = some p := by
  rw [World.register_ptr_eq] at h
  by_cases hs : s = sizeof_void_ptr
  · simp only [hs, if_true, Option.some.injEq, Prod.mk.injEq] at h
    obtain ⟨_, h2⟩ := h
    subst h2
    exact hash_map.find_insert_of_find_some _ _ _ _ hk
  · simp [hs] at h

/-- Calls of `register_ptr` that return keep every entry of the id map. -/
theorem find_id_after_registers (k : uniqueidT) (p : Ptr) (ops : List Op)
    (hops : ∀ op ∈ ops, ∃ s1 q, op = Op.register_ptr s1 q) (w1 w2 : World)
    (tr : List (Op × Ret)) (hfind : hash_map.find w1.map_id_to_ptr k = some p)
    (hrun : run w1 ops = some (tr, w2)) :
    hash_map.find w2.map_id_to_ptr k = some p := by
  induction ops generalizing w1 tr with
  | nil =>
    simp only [run, Option.some.injEq, Prod.mk.injEq] at hrun
    obtain ⟨_, h2⟩ := hrun
    subst h2
    exact hfind
  | cons op ops ih =>
    obtain ⟨r, w3, tr1, hc, hr, _⟩ := run_cons_eq_some hrun
    obtain ⟨s1, q, hop⟩ := hops op (List.mem_cons_self _ _)
    subst hop
    simp only [call] at hc
    cases hq : w1.register_ptr s1 q with
    | none => simp [hq] at hc
    | some kw =>
      obtain ⟨k1, w4⟩ := kw
      simp only [hq, Option.map_some', Option.some.injEq, Prod.mk.injEq] at hc
      obtain ⟨_, h2⟩ := hc
      subst h2
      have hfind3 := find_id_after_register hq k p hfind
      exact ih (fun o ho => hops o (List.mem_cons_of_mem _ ho)) w4 tr1 hfind3 hr

/-- Counter after `n` calls of `unique_obj_id`; nothing else changes. -/
theorem run_replicate_unique_obj_id (n : Nat) (w : World) (hw : w.obj_id < ULONG_RANGE) :
    (run w (List.replicate n Op.unique_obj_id)).map Prod.snd =
      some { w with obj_id := (w.obj_id + n) % ULONG_RANGE } := by
  induction n generalizing w with
  | zero =>
    simp [run, Nat.mod_eq_of_lt hw]
  | succ n ih =>
    have hlt : (w.obj_id + 1) % ULONG_RANGE < ULONG_RANGE :=
      Nat.mod_lt _ (by decide)
    have ih1 := ih { w with obj_id := (w.obj_id + 1) % ULONG_RANGE } hlt
    rw [List.replicate_succ]
    cases hr : run { w with obj_id := (w.obj_id + 1) % ULONG_RANGE }
        (List.replicate n Op.unique_obj_id) with
    | none => simp [hr] at ih1
    | some trw =>
      obtain ⟨tr, w2⟩ := trw
      simp only [hr, Option.map_some', Option.some.injEq] at ih1
      have hc : call w Op.unique_obj_id =
          some (.id (w.unique_obj_id).1, { w with obj_id := (w.obj_id + 1) % ULONG_RANGE }) := rfl
      rw [run_cons_of_some hc hr]
      simp only [Option.map_some', Option.some.injEq]
      rw [ih1]
      have : ((w.obj_id + 1) % ULONG_RANGE + n) % ULONG_RANGE =
          (w.obj_id + (n + 1)) % ULONG_RANGE := by
        rw [Nat.add_mod, Nat.mod_mod, ← Nat.add_mod]
        congr 1
        omega
      simp [this]

/-- What a call does to the counter and to the world id. -/
theorem call_counter {w w1 : World} {op : Op} {r : Ret} (h : call w op = some (r, w1)) :
    w1._id = w._id ∧
    w1.obj_id = if op.allocates then (w.obj_id + 1) % ULONG_RANGE else w.obj_id := by
  cases op with
  | register_ptr s q =>
    simp only [call, World.register_ptr_eq] at h
    by_cases hs : s = sizeof_void_ptr
    · simp only [hs, if_true, Option.map_some', Option.some.injEq, Prod.mk.injEq] at h
      obtain ⟨_, h2⟩ := h
      subst h2
      simp [Op.allocates]
    · simp [hs] at h
  | _ =>
    simp only [call, Option.some.injEq, Prod.mk.injEq] at h
    obtain ⟨_, h2⟩ := h
    subst h2
    simp [Op.allocates, World.unique_obj_id, World.unregister_ptr, World.unregister_ptr_id,
      World.set_user_state, World.clear_user_state, World.deferred_cleanup]

/-- While the counter does not wrap, it counts the ids drawn. -/
theorem run_counter {w w2 : World} {ops : List Op} {tr : List (Op × Ret)}
    (h : run w ops = some (tr, w2)) (hb : w.obj_id + allocs ops < ULONG_RANGE) :
    w2._id = w._id ∧ w2.obj_id = w.obj_id + allocs ops := by
  induction ops generalizing w tr with
  | nil =>
    simp only [run, Option.some.injEq, Prod.mk.injEq] at h
    obtain ⟨_, h2⟩ := h
    subst h2
    simp [allocs]
  | cons op ops ih =>
    obtain ⟨r, w1, tr1, hc, hr, _⟩ := run_cons_eq_some h
    obtain ⟨hid, hobj⟩ := call_counter hc
    rw [allocs_cons] at hb
    rw [allocs_cons]
    cases ha : op.allocates with
    | true =>
      simp only [ha, if_true] at hb hobj
      have h1 : w1.obj_id = w.obj_id + 1 := by
        rw [hobj]
        exact Nat.mod_eq_of_lt (by omega)
      have := ih hr (by omega)
      simp only [if_true]
      constructor
      · rw [this.1, hid]
      · rw [this.2, h1]
        omega
    | false =>
      simp only [ha, Bool.false_eq_true, if_false] at hb hobj
      have := ih hr (by omega)
      simp only [Bool.false_eq_true, if_false]
      constructor
      · rw [this.1, hid]
      · rw [this.2, hobj]
        omega

/-- The entries of the id map after a call are those before it, less the
    erased one, plus the one a `register_ptr` adds under the id it returns. -/
theorem call_id_map {w w1 : World} {op : Op} {r : Ret} (h : call w op = some (r, w1))
    {k : uniqueidT} {p : Ptr} (hk : hash_map.find w1.map_id_to_ptr k = some p) :
    hash_map.find w.map_id_to_ptr k = some p ∨
      (op.allocates = true ∧ k = { worldid := w._id, objid := w.obj_id }) := by
  cases op with
  | register_ptr s q =>
    simp only [call, World.register_ptr_eq] at h
    by_cases hs : s = sizeof_void_ptr
    · simp only [hs, if_true, Option.map_some', Option.some.injEq, Prod.mk.injEq] at h
      obtain ⟨_, h2⟩ := h
      subst h2
      rcases hash_map.find_insert_eq_some hk with h1 | ⟨h1, _, _⟩
      · exact Or.inl h1
      · exact Or.inr ⟨rfl, h1.symm⟩
    · simp [hs] at h
  | unregister_ptr q =>
    simp only [call, Option.some.injEq, Prod.mk.injEq] at h
    obtain ⟨_, h2⟩ := h
    subst h2
    exact Or.inl (hash_map.find_erase_eq_some hk).2
  | unregister_ptr_id q =>
    simp only [call, Option.some.injEq, Prod.mk.injEq] at h
    obtain ⟨_, h2⟩ := h
    subst h2
    exact Or.inl (hash_map.find_erase_eq_some hk).2
  | _ =>
    simp only [call, Option.some.injEq, Prod.mk.injEq] at h
    obtain ⟨_, h2⟩ := h
    subst h2
    exact Or.inl hk

/-- While the counter does not wrap, the ids in the id map stay below it. -/
theorem run_id_keys_below {w w2 : World} {ops : List Op} {tr : List (Op × Ret)}
    (h : run w ops = some (tr, w2)) (hb : w.obj_id + allocs ops < ULONG_RANGE)
    (h1 : 1 ≤ w.obj_id) (hinv : id_keys_below w w.obj_id) :
    id_keys_below w2 w2.obj_id := by
  induction ops generalizing w tr with
  | nil =>
    simp only [run, Option.some.injEq, Prod.mk.injEq] at h
    obtain ⟨_, h2⟩ := h
    subst h2
    exact hinv
  | cons op ops ih =>
    obtain ⟨r, w1, tr1, hc, hr, _⟩ := run_cons_eq_some h
    obtain ⟨hid, hobj⟩ := call_counter hc
    rw [allocs_cons] at hb
    have hstep : w.obj_id ≤ w1.obj_id ∧ (op.allocates = true → w1.obj_id = w.obj_id + 1) := by
      cases ha : op.allocates with
      | true =>
        simp only [ha, if_true] at hb hobj
        have : w1.obj_id = w.obj_id + 1 := by
          rw [hobj]
          exact Nat.mod_eq_of_lt (by omega)
        exact ⟨by omega, fun _ => this⟩
      | false =>
        simp only [ha, Bool.false_eq_true, if_false] at hobj
        exact ⟨by omega, fun hf => by simp at hf⟩
    have hb1 : w1.obj_id + allocs ops < ULONG_RANGE := by
      cases ha : op.allocates with
      | true =>
        simp only [ha, if_true] at hb
        have := hstep.2 ha
        omega
      | false =>
        simp only [ha, Bool.false_eq_true, if_false] at hb hobj
        omega
    refine ih hr hb1 (by omega) ?_
    intro k p hk
    rcases call_id_map hc hk with hold | ⟨ha, hnew⟩
    · obtain ⟨a, b, c⟩ := hinv k p hold
      exact ⟨by rw [hid]; exact a, b, by omega⟩
    · subst hnew
      have := hstep.2 ha
      exact ⟨hid.symm, h1, by simp only; omega⟩

theorem id_keys_below_construct (id : Nat) :
    id_keys_below (World.construct id) (World.construct id).obj_id := by
  intro k p hk
  simp [World.construct, hash_map.find] at hk

/-- In a world reached from a new one while the counter has not wrapped, the
    id that the counter is about to issue has no entry in the id map, and
    neither has any id with object id 0. -/
theorem next_id_fresh_of_run {id : Nat} {w : World} {ops : List Op} {tr : List (Op × Ret)}
    (h : run (World.construct id) ops = some (tr, w))
    (hb : allocs ops < ULONG_RANGE - 1) :
    hash_map.find w.map_id_to_ptr { worldid := w._id, objid := w.obj_id } = none ∧
    ∀ wid, hash_map.find w.map_id_to_ptr { worldid := wid, objid := 0 } = none := by
  have hb1 : (World.construct id).obj_id + allocs ops < ULONG_RANGE := by
    have : ULONG_RANGE = 2 ^ 64 := rfl
    simp only [World.construct]
    omega
  have hinv := run_id_keys_below h hb1 (by simp [World.construct]) (id_keys_below_construct id)
  constructor
  · cases hf : hash_map.find w.map_id_to_ptr { worldid := w._id, objid := w.obj_id } with
    | none => rfl
    | some p =>
      have := (hinv _ p hf).2.2
      simp at this
  · intro wid
    cases hf : hash_map.find w.map_id_to_ptr { worldid := wid, objid := 0 } with
    | none => rfl
    | some p =>
      have := (hinv _ p hf).2.1
      simp at this

theorem run_cons_snd (w : World) (op : Op) (ops : List Op) :
    (run w (op :: ops)).map Prod.snd =
      (call w op).bind (fun rw => (run rw.2 ops).map Prod.snd) := by
  rw [run_cons]
  cases hc : call w op with
  | none => rfl
  | some rw1 =>
    obtain ⟨r, w1⟩ := rw1
    cases hr : run w1 ops with
    | none => simp [hr]
    | some trw2 =>
      obtain ⟨tr1, w3⟩ := trw2
      simp [hr]

/-- One call followed by `n` calls of `unique_obj_id`. -/
theorem run_call_then_replicate (op : Op) (n : Nat) (w w1 : World) (r : Ret)
    (hc : call w op = some (r, w1)) (hw : w1.obj_id < ULONG_RANGE) :
    (run w (op :: List.replicate n Op.unique_obj_id)).map Prod.snd =
      some { w1 with obj_id := (w1.obj_id + n) % ULONG_RANGE } := by
  rw [run_cons_snd, hc, Option.some_bind]
  exact run_replicate_unique_obj_id n w1 hw

theorem ULONG_RANGE_eq : ULONG_RANGE = 18446744073709551616 := by decide

/-- A call that draws an id returns the pair of the world id and the counter. -/
theorem call_allocates_ret {w w1 : World} {op : Op} {r : Ret} (h : call w op = some (r, w1))
    (ha : op.allocates = true) : r = .id { worldid := w._id, objid := w.obj_id } := by
  cases op with
  | unique_obj_id =>
    simp only [call, Option.some.injEq, Prod.mk.injEq] at h
    exact h.1.symm
  | register_ptr s q =>
    simp only [call, World.register_ptr_eq] at h
    by_cases hs : s = sizeof_void_ptr
    · simp only [hs, if_true, Option.map_some', Option.some.injEq, Prod.mk.injEq] at h
      exact h.1.symm
    · simp [hs] at h
  | _ => simp [Op.allocates] at ha

/-- The counter modulo 2^64 counts the ids drawn, whatever their number. -/
theorem run_counter_mod {w w2 : World} {ops : List Op} {tr : List (Op × Ret)}
    (h : run w ops = some (tr, w2)) (hw : w.obj_id < ULONG_RANGE) :
    w2._id = w._id ∧ w2.obj_id = (w.obj_id + allocs ops) % ULONG_RANGE := by
  induction ops generalizing w tr with
  | nil =>
    simp only [run, Option.some.injEq, Prod.mk.injEq] at h
    obtain ⟨_, h2⟩ := h
    subst h2
    simp [allocs, Nat.mod_eq_of_lt hw]
  | cons op ops ih =>
    obtain ⟨r, w1, tr1, hc, hr, _⟩ := run_cons_eq_some h
    obtain ⟨hid, hobj⟩ := call_counter hc
    rw [allocs_cons]
    rw [ULONG_RANGE_eq] at hw hobj ⊢
    cases ha : op.allocates with
    | true =>
      simp only [ha, if_true] at hobj
      have := ih hr (by rw [ULONG_RANGE_eq, hobj]; omega)
      rw [ULONG_RANGE_eq] at this
      simp only [if_true]
      refine ⟨by rw [this.1, hid], ?_⟩
      rw [this.2, hobj]
      omega
    | false =>
      simp only [ha, Bool.false_eq_true, if_false] at hobj
      have := ih hr (by rw [ULONG_RANGE_eq, hobj]; exact hw)
      rw [ULONG_RANGE_eq] at this
      simp only [Bool.false_eq_true, if_false]
      refine ⟨by rw [this.1, hid], ?_⟩
      rw [this.2, hobj]
      omega

/-- While the counter does not wrap, the ids returned by the calls of a
    sequence are the counter values from the first one on. -/
theorem run_returned_ids {w w2 : World} {ops : List Op} {tr : List (Op × Ret)}
    (h : run w ops = some (tr, w2)) (hb : w.obj_id + allocs ops < ULONG_RANGE)
    {op : Op} {k : uniqueidT} (hmem : (op, Ret.id k) ∈ tr) (ha : op.allocates = true) :
    k.worldid = w._id ∧ w.obj_id ≤ k.objid ∧ k.objid < w.obj_id + allocs ops := by
  induction ops generalizing w tr with
  | nil =>
    simp only [run, Option.some.injEq, Prod.mk.injEq] at h
    obtain ⟨h1, _⟩ := h
    subst h1
    simp at hmem
  | cons op1 ops ih =>
    obtain ⟨r, w1, tr1, hc, hr, htr⟩ := run_cons_eq_some h
    obtain ⟨hid, hobj⟩ := call_counter hc
    subst htr
    rw [allocs_cons] at hb ⊢
    rcases List.mem_cons.mp hmem with hhead | htail
    · simp only [Prod.mk.injEq] at hhead
      obtain ⟨h1, h2⟩ := hhead
      subst h1
      have := call_allocates_ret hc ha
      rw [this] at h2
      simp only [Ret.id.injEq] at h2
      subst h2
      simp only [ha, if_true]
      refine ⟨?_, ?_, ?_⟩ <;> first | trivial | omega
    · cases ha1 : op1.allocates with
      | true =>
        simp only [ha1, if_true] at hb hobj ⊢
        have h1 : w1.obj_id = w.obj_id + 1 := by
          rw [hobj]
          exact Nat.mod_eq_of_lt (by omega)
        obtain ⟨a, b, c⟩ := ih hr (by omega) htail
        exact ⟨by rw [a, hid], by omega, by omega⟩
      | false =>
        simp only [ha1, Bool.false_eq_true, if_false] at hb hobj ⊢
        obtain ⟨a, b, c⟩ := ih hr (by omega) htail
        exact ⟨by rw [a, hid], by omega, by omega⟩

theorem registers_only_unregistered_cons (w : World) (op : Op) (ops : List Op) :
    registers_only_unregistered w (op :: ops) =
      ((match op with
        | .register_ptr _ p => (hash_map.find w.map_ptr_to_id p).isNone
        | _ => true) &&
      (match call w op with
        | none => true
        | some (_, w1) => registers_only_unregistered w1 ops)) := rfl

/-- `unregister_ptr` keeps the registry consistent with the registrations made. -/
theorem registry_consistent_unregister {w : World} {hist : List (Ptr × uniqueidT)}
    (hinv : registry_consistent w hist) (q : Ptr) :
    registry_consistent (w.unregister_ptr q) hist := by
  obtain ⟨hA, hB, hC⟩ := hinv
  refine ⟨?_, hB, hC⟩
  intro k1 q1 hk1
  obtain ⟨hne, hold⟩ := hash_map.find_erase_eq_some hk1
  obtain ⟨hptr, hmem⟩ := hA k1 q1 hold
  refine ⟨?_, hmem⟩
  have hq : q ≠ q1 := by
    intro heq
    subst heq
    apply hne
    simp [World.id_from_ptr, hptr]
  show hash_map.find (hash_map.erase w.map_ptr_to_id q) q1 = some k1
  rw [hash_map.find_erase_of_ne _ _ _ hq]
  exact hptr

/-- A call keeps the registry consistent with the registrations made, the one
    of the call included, when it does not wrap the counter and does not
    register a pointer that has an entry in the pointer map. -/
theorem registry_consistent_call {w w1 : World} {op : Op} {r : Ret}
    {hist : List (Ptr × uniqueidT)} (hc : call w op = some (r, w1))
    (hinv : registry_consistent w hist)
    (hb : op.allocates = true → w.obj_id + 1 < ULONG_RANGE)
    (hpre : ∀ s q, op = Op.register_ptr s q → hash_map.find w.map_ptr_to_id q = none) :
    ∃ hist1, registry_consistent w1 hist1 ∧ (∀ e ∈ hist, e ∈ hist1) ∧
      ∀ s q k, op = Op.register_ptr s q → r = Ret.id k → (q, k) ∈ hist1 := by
  cases op with
  | register_ptr s q =>
    have hq := hpre s q rfl
    have hlt := hb rfl
    simp only [call, World.register_ptr_eq] at hc
    by_cases hs : s = sizeof_void_ptr
    · simp only [hs, if_true, Option.map_some', Option.some.injEq, Prod.mk.injEq] at hc
      obtain ⟨hr, hw1⟩ := hc
      subst hr hw1
      obtain ⟨hA, hB, hC⟩ := hinv
      refine ⟨hist ++ [(q, { worldid := w._id, objid := w.obj_id })], ⟨?_, ?_, ?_⟩, ?_, ?_⟩
      · intro k1 q1 hk1
        rcases hash_map.find_insert_eq_some hk1 with hold | ⟨h1, h2, _⟩
        · obtain ⟨hptr, hmem⟩ := hA k1 q1 hold
          have hne : q ≠ q1 := by
            intro heq
            subst heq
            rw [hq] at hptr
            simp at hptr
          refine ⟨?_, List.mem_append_left _ hmem⟩
          show hash_map.find (hash_map.insert w.map_ptr_to_id _) q1 = some k1
          rw [hash_map.find_insert_of_ne _ _ _ _ hne]
          exact hptr
        · subst h1 h2
          refine ⟨?_, List.mem_append_right _ (List.mem_singleton.mpr rfl)⟩
          exact hash_map.find_insert_self _ _ _ hq
      · intro q1 k1 hmem
        have hobj : (w.obj_id + 1) % ULONG_RANGE = w.obj_id + 1 := Nat.mod_eq_of_lt hlt
        show k1.objid < (w.obj_id + 1) % ULONG_RANGE
        rw [hobj]
        rcases List.mem_append.mp hmem with h1 | h1
        · have := hB q1 k1 h1
          omega
        · rw [List.mem_singleton] at h1
          simp only [Prod.mk.injEq] at h1
          rw [h1.2]
          exact Nat.lt_succ_self _
      · intro q1 q2 k1 hm1 hm2
        rcases List.mem_append.mp hm1 with h1 | h1 <;>
          rcases List.mem_append.mp hm2 with h2 | h2
        · exact hC q1 q2 k1 h1 h2
        · rw [List.mem_singleton] at h2
          simp only [Prod.mk.injEq] at h2
          have := hB q1 k1 h1
          rw [h2.2] at this
          exact absurd this (Nat.lt_irrefl _)
        · rw [List.mem_singleton] at h1
          simp only [Prod.mk.injEq] at h1
          have := hB q2 k1 h2
          rw [h1.2] at this
          exact absurd this (Nat.lt_irrefl _)
        · rw [List.mem_singleton] at h1 h2
          simp only [Prod.mk.injEq] at h1 h2
          rw [h1.1, h2.1]
      · intro e he
        exact List.mem_append_left _ he
      · intro s1 q1 k1 hop hk
        simp only [Op.register_ptr.injEq] at hop
        simp only [Ret.id.injEq] at hk
        rw [← hop.2, ← hk]
        exact List.mem_append_right _ (List.mem_singleton.mpr rfl)
    · simp [hs] at hc
  | unique_obj_id =>
    have hlt := hb rfl
    simp only [call, Option.some.injEq, Prod.mk.injEq] at hc
    obtain ⟨_, hw1⟩ := hc
    subst hw1
    obtain ⟨hA, hB, hC⟩ := hinv
    refine ⟨hist, ⟨hA, ?_, hC⟩, fun e he => he, ?_⟩
    · intro q1 k1 hmem
      have hobj : (w.obj_id + 1) % ULONG_RANGE = w.obj_id + 1 := Nat.mod_eq_of_lt hlt
      show k1.objid < (w.obj_id + 1) % ULONG_RANGE
      rw [hobj]
      have := hB q1 k1 hmem
      omega
    · intro s q k hop
      simp at hop
  | unregister_ptr q =>
    simp only [call, Option.some.injEq, Prod.mk.injEq] at hc
    obtain ⟨_, hw1⟩ := hc
    subst hw1
    exact ⟨hist, registry_consistent_unregister hinv q, fun e he => he,
      fun s q k hop => by simp at hop⟩
  | unregister_ptr_id k0 =>
    simp only [call, Option.some.injEq, Prod.mk.injEq] at hc
    obtain ⟨_, hw1⟩ := hc
    subst hw1
    exact ⟨hist, registry_consistent_unregister hinv _, fun e he => he,
      fun s q k hop => by simp at hop⟩
  | _ =>
    simp only [call, Option.some.injEq, Prod.mk.injEq] at hc
    obtain ⟨_, hw1⟩ := hc
    subst hw1
    exact ⟨hist, hinv, fun e he => he, fun s q k hop => by simp at hop⟩

/-- A sequence of calls that does not wrap the counter and registers only
    pointers without an entry in the pointer map keeps the registry consistent
    with the registrations made, its own included. -/
theorem registry_consistent_run {w w2 : World} {ops : List Op} {tr : List (Op × Ret)}
    {hist : List (Ptr × uniqueidT)} (h : run w ops = some (tr, w2))
    (hinv : registry_consistent w hist)
    (hb : w.obj_id + allocs ops < ULONG_RANGE)
    (hpre : registers_only_unregistered w ops = true) :
    ∃ hist2, registry_consistent w2 hist2 ∧ (∀ e ∈ hist, e ∈ hist2) ∧
      ∀ s q k, (Op.register_ptr s q, Ret.id k) ∈ tr → (q, k) ∈ hist2 := by
  induction ops generalizing w tr hist with
  | nil =>
    simp only [run, Option.some.injEq, Prod.mk.injEq] at h
    obtain ⟨h1, h2⟩ := h
    subst h1 h2
    exact ⟨hist, hinv, fun e he => he, fun s q k hm => by simp at hm⟩
  | cons op ops ih =>
    obtain ⟨r, w1, tr1, hc, hr, htr⟩ := run_cons_eq_some h
    subst htr
    obtain ⟨_, hobj⟩ := call_counter hc
    rw [allocs_cons] at hb
    rw [registers_only_unregistered_cons, hc, Bool.and_eq_true] at hpre
    obtain ⟨hpre0, hpre1⟩ := hpre
    have hstep : ∃ hist1, registry_consistent w1 hist1 ∧ (∀ e ∈ hist, e ∈ hist1) ∧
        ∀ s q k, op = Op.register_ptr s q → r = Ret.id k → (q, k) ∈ hist1 := by
      apply registry_consistent_call hc hinv
      · intro ha
        simp only [ha, if_true] at hb
        omega
      · intro s q hop
        subst hop
        simpa using hpre0
    obtain ⟨hist1, hinv1, hsub1, hnew1⟩ := hstep
    have hb1 : w1.obj_id + allocs ops < ULONG_RANGE := by
      cases ha : op.allocates with
      | true =>
        simp only [ha, if_true] at hb hobj
        have : w1.obj_id = w.obj_id + 1 := by
          rw [hobj]
          exact Nat.mod_eq_of_lt (by omega)
        omega
      | false =>
        simp only [ha, Bool.false_eq_true, if_false] at hb hobj
        omega
    obtain ⟨hist2, hinv2, hsub2, hnew2⟩ := ih hr hinv1 hb1 hpre1
    refine ⟨hist2, hinv2, fun e he => hsub2 e (hsub1 e he), ?_⟩
    intro s q k hm
    rcases List.mem_cons.mp hm with hhead | htail
    · simp only [Prod.mk.injEq] at hhead
      exact hsub2 _ (hnew1 s q k hhead.1.symm hhead.2.symm)
    · exact hnew2 s q k htail

theorem registry_consistent_construct (id : Nat) :
    registry_consistent (World.construct id) [] := by
  refine ⟨?_, ?_, ?_⟩
  · intro k q h
    simp [World.construct, hash_map.find] at h
  · intro q k h
    simp at h
  · intro q q1 k h
    simp at h

/-- Every id in the id map carries the id of the world, whatever the number
    of ids drawn. -/
theorem run_id_keys_world {w w2 : World} {ops : List Op} {tr : List (Op × Ret)}
    (h : run w ops = some (tr, w2))
    (hinv : ∀ k p, hash_map.find w.map_id_to_ptr k = some p → k.worldid = w._id) :
    ∀ k p, hash_map.find w2.map_id_to_ptr k = some p → k.worldid = w2._id := by
  induction ops generalizing w tr with
  | nil =>
    simp only [run, Option.some.injEq, Prod.mk.injEq] at h
    obtain ⟨_, h2⟩ := h
    subst h2
    exact hinv
  | cons op ops ih =>
    obtain ⟨r, w1, tr1, hc, hr, _⟩ := run_cons_eq_some h
    obtain ⟨hid, _⟩ := call_counter hc
    apply ih hr
    intro k p hk
    rcases call_id_map hc hk with hold | ⟨_, hnew⟩
    · rw [hid]
      exact hinv k p hold
    · rw [hid, hnew]

/-- `unregister_ptr` of a pointer without an entry in the pointer map changes
    nothing when the invalid id has no entry in the id map. -/
theorem unregister_ptr_of_unmapped (w : World) (p : Ptr)
    (hp : hash_map.find w.map_ptr_to_id p = none)
    (h0 : hash_map.find w.map_id_to_ptr World.invalidid = none) :
    w.unregister_ptr p = w := by
  have hid : w.id_from_ptr p = World.invalidid := by
    simp [World.id_from_ptr, hp]
  unfold World.unregister_ptr
  simp only [hid]
  rw [hash_map.erase_of_find_none _ _ h0, hash_map.erase_of_find_none _ _ hp]

/-! ## Facts about world ids -/

theorem INT_RANGE_eq : INT_RANGE = 2147483648 := by decide

theorem rooted_at_cons (r : Nat) (g : Group) (gs : List Group) :
    rooted_at r (g :: gs) = (if g.root.comm_world_rank = r then 1 else 0) + rooted_at r gs := by
  unfold rooted_at
  by_cases h : g.root.comm_world_rank = r
  · simp [List.filter_cons, h, Nat.add_comm]
  · simp [List.filter_cons, h]

theorem broadcast_cons (x : Nat) (xs : List Nat) :
    broadcast (x :: xs) = x :: xs.map (fun _ => x) := by
  simp [broadcast]

/-- The first statement of `world_assign_id` leaves in `idbase` the value
    `10000*rank + count` when the counter was in step with the count. -/
theorem idbase_after_init (g b0 c0 : Nat) (h : (b0 = 0 ∧ c0 = 0) ∨ b0 = 10000 * g + c0)
    (hg : g * 10000 < INT_RANGE) :
    (if (b0 == 0 && g != 0) = true then g * 10000 % ULONG_RANGE else b0) =
      10000 * g + c0 := by
  rw [INT_RANGE_eq] at hg
  have hmod : g * 10000 % ULONG_RANGE = g * 10000 :=
    Nat.mod_eq_of_lt (by rw [ULONG_RANGE_eq]; omega)
  rw [hmod]
  by_cases hb : b0 = 0
  · by_cases hz : g = 0
    · subst hb hz
      rcases h with ⟨_, h2⟩ | h1
      · simp [h2]
      · simpa using h1
    · subst hb
      have hc0 : c0 = 0 := by
        rcases h with ⟨_, h2⟩ | h1
        · exact h2
        · omega
      simp [hz, hc0, Nat.mul_comm]
  · have hcond : (b0 == 0 && g != 0) = false := by simp [hb]
    rw [hcond]
    rcases h with ⟨h1, _⟩ | h1
    · exact absurd h1 hb
    · simpa using h1

/-- The local part of `world_assign_id` on a process that is not rank 0 of the
    group keeps the counter in step with the count of worlds. -/
theorem idbase_counts_local_other {b c : Nat → Nat} (h : idbase_counts b c) (m : Member)
    (wr : Nat) (hwr : wr ≠ 0) (hm : m.comm_world_rank * 10000 < INT_RANGE) :
    idbase_counts
      (Function.update b m.comm_world_rank
        (world_assign_id_local m.comm_world_rank wr (b m.comm_world_rank)
          m.uninitialised_id).1) c := by
  intro r
  by_cases hr : r = m.comm_world_rank
  · subst hr
    rw [Function.update_same]
    have hwr0 : (wr == 0) = false := by simpa using hwr
    simp only [world_assign_id_local, hwr0]
    right
    exact idbase_after_init _ _ _ (h m.comm_world_rank) hm
  · rw [Function.update_noteq hr]
    exact h r

/-- The members of a group other than its rank 0 leave the counters in step. -/
theorem idbase_counts_assign_locals {b c : Nat → Nat} (ms : List Member) (wr : Nat)
    (hwr : wr ≠ 0) (h : idbase_counts b c)
    (hm : ∀ m ∈ ms, m.comm_world_rank * 10000 < INT_RANGE) :
    idbase_counts (assign_locals b ms wr).1 c := by
  induction ms generalizing b wr with
  | nil => exact h
  | cons m ms ih =>
    simp only [assign_locals]
    apply ih (wr + 1) (Nat.succ_ne_zero wr)
    · exact idbase_counts_local_other h m wr hwr (hm m (List.mem_cons_self _ _))
    · intro m1 hm1
      exact hm m1 (List.mem_cons_of_mem _ hm1)

/-- One collective `world_assign_id`: every member gets the id
    `10000*r + c r`, `r` being the rank of the group's rank 0 in
    `MPI::COMM_WORLD`, and the counters are in step with one more world
    rooted at `r`. -/
theorem world_assign_id_spec {b c : Nat → Nat} (g : Group) (h : idbase_counts b c)
    (hm : ∀ m ∈ g.members, m.comm_world_rank * 10000 < INT_RANGE)
    (hc : c g.root.comm_world_rank < INT_RANGE) :
    (∀ x ∈ (world_assign_id b g).2,
        x = 10000 * g.root.comm_world_rank + c g.root.comm_world_rank) ∧
    (world_assign_id b g).2.headD 0 =
        10000 * g.root.comm_world_rank + c g.root.comm_world_rank ∧
    idbase_counts (world_assign_id b g).1
      (Function.update c g.root.comm_world_rank (c g.root.comm_world_rank + 1)) := by
  have hroot := hm g.root (List.mem_cons_self _ _)
  rw [INT_RANGE_eq] at hroot hc
  have hid : (world_assign_id_local g.root.comm_world_rank 0 (b g.root.comm_world_rank)
      g.root.uninitialised_id) =
      (10000 * g.root.comm_world_rank + c g.root.comm_world_rank + 1,
       10000 * g.root.comm_world_rank + c g.root.comm_world_rank) := by
    have hinit := idbase_after_init _ _ _ (h g.root.comm_world_rank) (hm g.root (List.mem_cons_self _ _))
    simp only [world_assign_id_local, beq_self_eq_true, if_true]
    rw [hinit]
    have hmod : (10000 * g.root.comm_world_rank + c g.root.comm_world_rank + 1) % ULONG_RANGE =
        10000 * g.root.comm_world_rank + c g.root.comm_world_rank + 1 :=
      Nat.mod_eq_of_lt (by rw [ULONG_RANGE_eq]; omega)
    rw [hmod]
  have hstep : idbase_counts
      (Function.update b g.root.comm_world_rank
        (10000 * g.root.comm_world_rank + c g.root.comm_world_rank + 1))
      (Function.update c g.root.comm_world_rank (c g.root.comm_world_rank + 1)) := by
    intro r
    by_cases hr : r = g.root.comm_world_rank
    · subst hr
      right
      rw [Function.update_same, Function.update_same]
      omega
    · rw [Function.update_noteq hr, Function.update_noteq hr]
      exact h r
  have heq : world_assign_id b g =
      ((assign_locals (Function.update b g.root.comm_world_rank
          (10000 * g.root.comm_world_rank + c g.root.comm_world_rank + 1)) g.others 1).1,
       broadcast ((10000 * g.root.comm_world_rank + c g.root.comm_world_rank) ::
         (assign_locals (Function.update b g.root.comm_world_rank
          (10000 * g.root.comm_world_rank + c g.root.comm_world_rank + 1)) g.others 1).2)) := by
    simp only [world_assign_id, Group.members, assign_locals, hid]
  rw [heq, broadcast_cons]
  refine ⟨?_, rfl, ?_⟩
  · intro x hx
    rcases List.mem_cons.mp hx with h1 | h1
    · exact h1
    · obtain ⟨_, _, h2⟩ := List.mem_map.mp h1
      exact h2.symm
  · exact idbase_counts_assign_locals g.others 1 (by decide) hstep
      (fun m hmem => hm m (List.mem_cons_of_mem _ hmem))

/-- Worlds constructed one after the other get the ids of rank partitioning,
    and all members of a world hold the same id. -/
theorem construct_worlds_spec (gs : List Group) (b c : Nat → Nat) (h : idbase_counts b c)
    (hm : ∀ g ∈ gs, ∀ m ∈ g.members, m.comm_world_rank * 10000 < INT_RANGE)
    (hc : ∀ r, c r + rooted_at r gs < INT_RANGE) :
    world_ids b gs = partitioned_ids c gs ∧
    ∀ ids ∈ construct_worlds b gs, ∀ x ∈ ids, x = ids.headD 0 := by
  induction gs generalizing b c with
  | nil =>
    simp [world_ids, construct_worlds, partitioned_ids]
  | cons g gs ih =>
    have hcg : c g.root.comm_world_rank < INT_RANGE := by
      have := hc g.root.comm_world_rank
      omega
    obtain ⟨hall, hhead, hnext⟩ :=
      world_assign_id_spec g h (hm g (List.mem_cons_self _ _)) hcg
    have hc1 : ∀ r, Function.update c g.root.comm_world_rank
        (c g.root.comm_world_rank + 1) r + rooted_at r gs < INT_RANGE := by
      intro r
      have := hc r
      rw [rooted_at_cons] at this
      by_cases hr : r = g.root.comm_world_rank
      · subst hr
        rw [Function.update_same]
        simp only [if_true] at this
        omega
      · rw [Function.update_noteq hr]
        omega
    obtain ⟨ih1, ih2⟩ := ih (world_assign_id b g).1 _ hnext
      (fun g1 hg1 => hm g1 (List.mem_cons_of_mem _ hg1)) hc1
    constructor
    · have : world_ids b (g :: gs) =
          (world_assign_id b g).2.headD 0 :: world_ids (world_assign_id b g).1 gs := by
        simp [world_ids, construct_worlds]
      rw [this, hhead, ih1]
      rfl
    · intro ids hids
      have : construct_worlds b (g :: gs) =
          (world_assign_id b g).2 :: construct_worlds (world_assign_id b g).1 gs := rfl
      rw [this] at hids
      rcases List.mem_cons.mp hids with h1 | h1
      · subst h1
        intro x hx
        rw [hhead]
        exact hall x hx
      · exact ih2 ids h1

theorem idbase_counts_initial : idbase_counts idbase_initial (fun _ => 0) := by
  intro r
  left
  exact ⟨rfl, rfl⟩

/-- Every id of rank partitioning is `10000*r + k` for a rank `r` and a `k`
    from the count of worlds rooted at `r` before up to the count after. -/
theorem partitioned_ids_mem (gs : List Group) (c : Nat → Nat) (x : Nat)
    (hx : x ∈ partitioned_ids c gs) :
    ∃ r k, x = 10000 * r + k ∧ c r ≤ k ∧ k < c r + rooted_at r gs := by
  induction gs generalizing c with
  | nil => simp [partitioned_ids] at hx
  | cons g gs ih =>
    simp only [partitioned_ids] at hx
    rcases List.mem_cons.mp hx with h1 | h1
    · refine ⟨g.root.comm_world_rank, c g.root.comm_world_rank, h1, le_refl _, ?_⟩
      rw [rooted_at_cons]
      simp
    · obtain ⟨r, k, hxk, hlo, hhi⟩ := ih _ h1
      refine ⟨r, k, hxk, ?_, ?_⟩
      · by_cases hr : r = g.root.comm_world_rank
        · subst hr
          rw [Function.update_same] at hlo
          omega
        · rw [Function.update_noteq hr] at hlo
          exact hlo
      · rw [rooted_at_cons]
        by_cases hr : r = g.root.comm_world_rank
        · subst hr
          rw [Function.update_same] at hhi
          simp only [if_true]
          omega
        · rw [Function.update_noteq hr] at hhi
          have hr1 : ¬ g.root.comm_world_rank = r := fun e => hr e.symm
          simp only [hr1, if_false]
          omega

/-- The ids of rank partitioning are pairwise different as long as no rank is
    the root of more than 10000 worlds. -/
theorem partitioned_ids_nodup (gs : List Group) (c : Nat → Nat)
    (hc : ∀ r, c r + rooted_at r gs ≤ 10000) : (partitioned_ids c gs).Nodup := by
  induction gs generalizing c with
  | nil => simp [partitioned_ids]
  | cons g gs ih =>
    simp only [partitioned_ids]
    have hc1 : ∀ r, Function.update c g.root.comm_world_rank
        (c g.root.comm_world_rank + 1) r + rooted_at r gs ≤ 10000 := by
      intro r
      have := hc r
      rw [rooted_at_cons] at this
      by_cases hr : r = g.root.comm_world_rank
      · subst hr
        rw [Function.update_same]
        simp only [if_true] at this
        omega
      · rw [Function.update_noteq hr]
        omega
    refine List.nodup_cons.mpr ⟨?_, ih _ hc1⟩
    intro hmem
    obtain ⟨r, k, hxk, hlo, hhi⟩ := partitioned_ids_mem gs _ _ hmem
    have hroot := hc g.root.comm_world_rank
    rw [rooted_at_cons] at hroot
    simp only [if_true] at hroot
    have hr1 := hc1 r
    by_cases hr : r = g.root.comm_world_rank
    · subst hr
      rw [Function.update_same] at hlo
      omega
    · rw [Function.update_noteq hr] at hlo hhi hr1
      apply hr
      omega

/-- Rank partitioning over `n` groups with the same root, then further groups. -/
theorem partitioned_ids_replicate (n : Nat) (g : Group) (rest : List Group) (c : Nat → Nat) :
    partitioned_ids c (List.replicate n g ++ rest) =
      (List.range n).map
          (fun k => 10000 * g.root.comm_world_rank + c g.root.comm_world_rank + k) ++
        partitioned_ids
          (Function.update c g.root.comm_world_rank (c g.root.comm_world_rank + n)) rest := by
  induction n generalizing c with
  | zero => simp
  | succ n ih =>
    rw [List.replicate_succ, List.cons_append]
    simp only [partitioned_ids]
    rw [ih, List.range_succ_eq_map, List.map_cons, List.map_map, List.cons_append]
    simp only [Function.update_same, Function.update_idem, Nat.add_zero]
    congr 2
    · apply List.map_congr_left
      intro k _
      simp only [Function.comp]
      omega
    · have : c g.root.comm_world_rank + 1 + n = c g.root.comm_world_rank + (n + 1) := by
        omega
      rw [this]

theorem rooted_at_le_length (r : Nat) (gs : List Group) : rooted_at r gs ≤ gs.length :=
  List.length_filter_le _ _

/-! ## Facts about the process -/

theorem UINT64_RANGE_eq : UINT64_RANGE = 18446744073709551616 := by decide

/-- The polls of a list of worlds: the AM interface of every non-null entry
    is polled once, in list order; nothing but the collaborators changes. -/
theorem foldl_world_do_poll {S : Type} (E : Collaborators S) (ws : List Ptr) (p : Process S) :
    ws.foldl (fun q world => world_do_poll E world q) p =
      { p with
        ext := (ws.filter (fun x => x != 0)).foldl (fun e world => E.am_poll world e) p.ext
        calls := p.calls ++ (ws.filter (fun x => x != 0)).map Called.am_poll } := by
  induction ws generalizing p with
  | nil => simp
  | cons w ws ih =>
    rw [List.foldl_cons, ih]
    by_cases hw : w = 0
    · subst hw
      simp [world_do_poll]
    · have hw1 : (w != 0) = true := by simpa using hw
      simp [world_do_poll, hw1, List.filter_cons]

/-- What `poll_all` does when it returns early. -/
theorem poll_all_throttled {S : Type} (E : Collaborators S) (p : Process S)
    (h : (E.cycle_count p.ext).1 < (p.last_poll + p.poll_delay) % UINT64_RANGE) :
    World.poll_all E true p =
      { p with ext := (E.cycle_count p.ext).2
               calls := p.calls ++ [Called.poll_all true] } := by
  simp [World.poll_all, h]

/-- What `poll_all` does when it does not return early. -/
theorem poll_all_polls {S : Type} (E : Collaborators S) (working : Bool) (p : Process S)
    (h : working = false ∨
      ¬ (E.cycle_count p.ext).1 < (p.last_poll + p.poll_delay) % UINT64_RANGE) :
    World.poll_all E working p =
      { p with
        ext := (E.cycle_count
          ((p.worlds.filter (fun x => x != 0)).foldl (fun e world => E.am_poll world e)
            (if working then (E.cycle_count p.ext).2 else p.ext))).2
        last_poll := (E.cycle_count
          ((p.worlds.filter (fun x => x != 0)).foldl (fun e world => E.am_poll world e)
            (if working then (E.cycle_count p.ext).2 else p.ext))).1
        calls := p.calls ++ [Called.poll_all working] ++
          (p.worlds.filter (fun x => x != 0)).map Called.am_poll } := by
  cases working with
  | false =>
    simp [World.poll_all, foldl_world_do_poll]
  | true =>
    have h1 : ¬ (E.cycle_count p.ext).1 < (p.last_poll + p.poll_delay) % UINT64_RANGE := by
      rcases h with h | h
      · simp at h
      · exact h
    simp [World.poll_all, h1, foldl_world_do_poll]

/-- `poll_all` leaves the list of worlds, the world objects, `idbase` and
    `poll_delay` as they are, and adds to the record one `poll_all` entry
    followed by entries of polls of AM interfaces. -/
theorem poll_all_frame {S : Type} (E : Collaborators S) (working : Bool) (p : Process S) :
    (World.poll_all E working p).worlds = p.worlds ∧
    (World.poll_all E working p).mem = p.mem ∧
    (World.poll_all E working p).idbase = p.idbase ∧
    (World.poll_all E working p).poll_delay = p.poll_delay ∧
    ∃ polled : List Ptr,
      (World.poll_all E working p).calls =
        p.calls ++ Called.poll_all working :: polled.map Called.am_poll := by
  by_cases h : working = true ∧
      (E.cycle_count p.ext).1 < (p.last_poll + p.poll_delay) % UINT64_RANGE
  · obtain ⟨hw, ht⟩ := h
    subst hw
    rw [poll_all_throttled E p ht]
    exact ⟨rfl, rfl, rfl, rfl, [], by simp⟩
  · have h1 : working = false ∨
        ¬ (E.cycle_count p.ext).1 < (p.last_poll + p.poll_delay) % UINT64_RANGE := by
      cases working with
      | false => exact Or.inl rfl
      | true =>
        right
        intro ht
        exact h ⟨rfl, ht⟩
    rw [poll_all_polls E working p h1]
    exact ⟨rfl, rfl, rfl, rfl, p.worlds.filter (fun x => x != 0), by simp⟩

theorem poll_all_times_frame {S : Type} (E : Collaborators S) (n : Nat) (p : Process S) :
    (poll_all_times E n p).worlds = p.worlds ∧
    (poll_all_times E n p).mem = p.mem ∧
    (poll_all_times E n p).idbase = p.idbase := by
  induction n generalizing p with
  | zero => exact ⟨rfl, rfl, rfl⟩
  | succ n ih =>
    obtain ⟨h1, h2, h3, _⟩ := poll_all_frame E false p
    obtain ⟨i1, i2, i3⟩ := ih (World.poll_all E false p)
    simp only [poll_all_times]
    exact ⟨i1.trans h1, i2.trans h2, i3.trans h3⟩

/-- The loop of `run_tasks` leaves the statics and the world objects as they
    are and adds to the record entries of calls of `run_next_ready_task`
    only. -/
theorem foldl_world_do_run_task_frame {S : Type} (E : Collaborators S) (ws : List Ptr)
    (ps : Process S × Bool) :
    (ws.foldl (fun acc world => world_do_run_task E world acc) ps).1.worlds = ps.1.worlds ∧
    (ws.foldl (fun acc world => world_do_run_task E world acc) ps).1.mem = ps.1.mem ∧
    (ws.foldl (fun acc world => world_do_run_task E world acc) ps).1.idbase = ps.1.idbase ∧
    (ws.foldl (fun acc world => world_do_run_task E world acc) ps).1.poll_delay =
      ps.1.poll_delay ∧
    (ws.foldl (fun acc world => world_do_run_task E world acc) ps).1.last_poll =
      ps.1.last_poll ∧
    ∃ ran : List (Ptr × Bool),
      (ws.foldl (fun acc world => world_do_run_task E world acc) ps).1.calls =
        ps.1.calls ++ ran.map (fun x => Called.run_next_ready_task x.1 x.2) := by
  induction ws generalizing ps with
  | nil => exact ⟨rfl, rfl, rfl, rfl, rfl, [], by simp⟩
  | cons w ws ih =>
    rw [List.foldl_cons]
    obtain ⟨i1, i2, i3, i4, i5, ran, i6⟩ := ih (world_do_run_task E w ps)
    by_cases hw : (w != 0) = true
    · by_cases hs : ps.2 = true
      · have hstep : world_do_run_task E w ps = (ps.1, true) := by
          simp [world_do_run_task, hw, hs]
        rw [hstep] at i1 i2 i3 i4 i5 i6
        rw [hstep]
        exact ⟨i1, i2, i3, i4, i5, ran, i6⟩
      · have hstep : world_do_run_task E w ps =
            ({ ps.1 with
                ext := (E.run_next_ready_task w ps.1.ext).2
                calls := ps.1.calls ++
                  [Called.run_next_ready_task w (E.run_next_ready_task w ps.1.ext).1] },
             (E.run_next_ready_task w ps.1.ext).1) := by
          simp [world_do_run_task, hw, hs]
        rw [hstep] at i1 i2 i3 i4 i5 i6
        rw [hstep]
        refine ⟨i1, i2, i3, i4, i5, (w, (E.run_next_ready_task w ps.1.ext).1) :: ran, ?_⟩
        rw [i6]
        simp
    · have hstep : world_do_run_task E w ps = ps := by
        simp [world_do_run_task, hw]
      rw [hstep] at i1 i2 i3 i4 i5 i6
      rw [hstep]
      exact ⟨i1, i2, i3, i4, i5, ran, i6⟩

/-- `run_tasks` leaves the statics and the world objects as they are, and adds
    to the record one `run_tasks` entry followed by entries of calls of
    `run_next_ready_task`. -/
theorem run_tasks_frame {S : Type} (E : Collaborators S) (p : Process S) :
    (World.run_tasks E p).2.worlds = p.worlds ∧
    (World.run_tasks E p).2.mem = p.mem ∧
    (World.run_tasks E p).2.idbase = p.idbase ∧
    (World.run_tasks E p).2.poll_delay = p.poll_delay ∧
    (World.run_tasks E p).2.last_poll = p.last_poll ∧
    ∃ ran : List (Ptr × Bool),
      (World.run_tasks E p).2.calls =
        p.calls ++ Called.run_tasks ::
          ran.map (fun x => Called.run_next_ready_task x.1 x.2) := by
  obtain ⟨h1, h2, h3, h4, h5, ran, h6⟩ := foldl_world_do_run_task_frame E p.worlds
    ({ p with calls := p.calls ++ [Called.run_tasks] }, false)
  refine ⟨h1, h2, h3, h4, h5, ran, ?_⟩
  show (List.foldl (fun acc world => world_do_run_task E world acc)
      ({ p with calls := p.calls ++ [Called.run_tasks] }, false) p.worlds).1.calls = _
  rw [h6]
  simp

/-- The list of worlds and the world objects after the constructor: the
    object at `this` is a new world with the id that `world_assign_id`
    assigned. -/
theorem constructor_frame {S : Type} (E : Collaborators S) (this : Ptr)
    (u c r b : Nat) (p : Process S) :
    (World.constructor E this u c r b p).worlds = p.worlds ++ [this] ∧
    (World.constructor E this u c r b p).mem =
      Function.update p.mem this
        (World.construct
          (if r == 0 then (world_assign_id_local c r p.idbase u).2 else b)) := by
  unfold World.constructor
  simp only []
  constructor
  · rw [(poll_all_times_frame E 32 _).1]
  · rw [(poll_all_times_frame E 32 _).2.1]
    simp [World.construct, Function.update_same]

/-- The list of worlds and the world objects after the destructor. -/
theorem destructor_frame {S : Type} (E : Collaborators S) (this : Ptr) (p : Process S) :
    (World.destructor E this p).worlds = p.worlds.filter (fun x => x != this) ∧
    (World.destructor E this p).mem =
      Function.update p.mem this (World.do_deferred_cleanup (p.mem this)).2 :=
  ⟨rfl, rfl⟩

theorem do_deferred_cleanup_deferred (w : World) :
    (World.do_deferred_cleanup w).2.deferred = [] := by
  unfold World.do_deferred_cleanup
  cases hd : w.deferred with
  | nil => simp [hd]
  | cons x xs => simp

theorem world_from_id_null_or_mem (mem : Ptr → World) (ws : List Ptr) (i : Nat) :
    World.world_from_id mem ws i = 0 ∨ World.world_from_id mem ws i ∈ ws := by
  induction ws with
  | nil => exact Or.inl rfl
  | cons it rest ih =>
    rw [World.world_from_id_cons]
    by_cases h : (it != 0 && (mem it)._id == i) = true
    · rw [if_pos h]
      exact Or.inr (List.mem_cons_self _ _)
    · rw [if_neg h]
      rcases ih with h0 | hm
      · exact Or.inl h0
      · exact Or.inr (List.mem_cons_of_mem _ hm)

/-- An event keeps the list of worlds exact: without repetition, and holding
    the addresses of the worlds within their lifetime. -/
theorem step_worlds_exact {S : Type} (E : Collaborators S) (p p1 : Process S) (e : Event)
    (live : Ptr → Bool) (hstep : Process.step E p e = some p1)
    (hok : lifetimes_ok live [e] = true)
    (hnodup : p.worlds.Nodup) (hlive : ∀ a, a ∈ p.worlds ↔ live a = true) :
    p1.worlds.Nodup ∧ ∀ a, a ∈ p1.worlds ↔ live_after live [e] a = true := by
  cases e with
  | construct this u c r b =>
    simp only [Process.step, Option.some.injEq] at hstep
    subst hstep
    rw [(constructor_frame E this u c r b p).1]
    simp only [lifetimes_ok, Bool.and_true, Bool.not_eq_true'] at hok
    have hnot : this ∉ p.worlds := by
      intro hmem
      have := (hlive this).mp hmem
      rw [hok] at this
      exact Bool.false_ne_true this
    constructor
    · rw [List.nodup_append]
      refine ⟨hnodup, List.nodup_singleton _, ?_⟩
      intro a ha hb
      rw [List.mem_singleton] at hb
      subst hb
      exact hnot ha
    · intro a
      simp only [live_after]
      by_cases ha : a = this
      · subst ha
        simp
      · rw [Function.update_noteq ha, List.mem_append, List.mem_singleton]
        rw [← hlive a]
        constructor
        · intro h
          rcases h with h | h
          · exact h
          · exact absurd h ha
        · intro h
          exact Or.inl h
  | destroy this =>
    simp only [Process.step, Option.some.injEq] at hstep
    subst hstep
    rw [(destructor_frame E this p).1]
    constructor
    · exact hnodup.filter _
    · intro a
      simp only [live_after]
      by_cases ha : a = this
      · subst ha
        simp
      · rw [Function.update_noteq ha, ← hlive a, List.mem_filter]
        simp [ha]
  | member this op =>
    simp only [Process.step] at hstep
    cases hc : call (p.mem this) op with
    | none => simp [hc] at hstep
    | some rw1 =>
      simp only [hc, Option.some.injEq] at hstep
      subst hstep
      exact ⟨hnodup, hlive⟩
  | poll_all working =>
    simp only [Process.step, Option.some.injEq] at hstep
    subst hstep
    rw [(poll_all_frame E working p).1]
    exact ⟨hnodup, hlive⟩
  | world_from_id i =>
    simp only [Process.step, Option.some.injEq] at hstep
    subst hstep
    exact ⟨hnodup, hlive⟩
  | run_tasks =>
    simp only [Process.step, Option.some.injEq] at hstep
    subst hstep
    rw [(run_tasks_frame E p).1]
    exact ⟨hnodup, hlive⟩

theorem live_after_cons (live : Ptr → Bool) (e : Event) (es : List Event) :
    live_after live (e :: es) = live_after (live_after live [e]) es := by
  cases e <;> rfl

theorem lifetimes_ok_cons (live : Ptr → Bool) (e : Event) (es : List Event) :
    lifetimes_ok live (e :: es) =
      (lifetimes_ok live [e] && lifetimes_ok (live_after live [e]) es) := by
  cases e <;> simp [lifetimes_ok, live_after]

/-- A sequence of events keeps the list of worlds exact. -/
theorem run_worlds_exact {S : Type} (E : Collaborators S) (events : List Event)
    (p p1 : Process S) (live : Ptr → Bool) (hrun : Process.run E p events = some p1)
    (hok : lifetimes_ok live events = true)
    (hnodup : p.worlds.Nodup) (hlive : ∀ a, a ∈ p.worlds ↔ live a = true) :
    p1.worlds.Nodup ∧ ∀ a, a ∈ p1.worlds ↔ live_after live events a = true := by
  induction events generalizing p live with
  | nil =>
    simp only [Process.run, Option.some.injEq] at hrun
    subst hrun
    exact ⟨hnodup, hlive⟩
  | cons e es ih =>
    simp only [Process.run] at hrun
    cases hs : Process.step E p e with
    | none => simp [hs] at hrun
    | some p2 =>
      simp only [hs] at hrun
      rw [lifetimes_ok_cons, Bool.and_eq_true] at hok
      obtain ⟨h1, h2⟩ := step_worlds_exact E p p2 e live hs hok.1 hnodup hlive
      rw [live_after_cons]
      exact ih p2 (live_after live [e]) hrun hok.2 h1 h2

/-- No call of a public member takes an entry off the deferred list. -/
theorem call_deferred_mem {w w1 : World} {op : Op} {r : Ret} (h : call w op = some (r, w1))
    (x : Handle) (hx : x ∈ w.deferred) : x ∈ w1.deferred := by
  cases op with
  | register_ptr s q =>
    simp only [call, World.register_ptr_eq] at h
    by_cases hs : s = sizeof_void_ptr
    · simp only [hs, if_true, Option.map_some', Option.some.injEq, Prod.mk.injEq] at h
      obtain ⟨_, h2⟩ := h
      subst h2
      exact hx
    · simp [hs] at h
  | deferred_cleanup item =>
    simp only [call, Option.some.injEq, Prod.mk.injEq] at h
    obtain ⟨_, h2⟩ := h
    subst h2
    exact List.mem_append_left _ hx
  | _ =>
    simp only [call, Option.some.injEq, Prod.mk.injEq] at h
    obtain ⟨_, h2⟩ := h
    subst h2
    exact hx

/-- The calls of the public members other than `set_user_state` and
    `clear_user_state` leave the user state as it is. -/
theorem call_user_state {w w1 : World} {op : Op} {r : Ret} (h : call w op = some (r, w1))
    (hset : ∀ s, op ≠ Op.set_user_state s) (hclear : op ≠ Op.clear_user_state) :
    w1.user_state = w.user_state := by
  cases op with
  | register_ptr s q =>
    simp only [call, World.register_ptr_eq] at h
    by_cases hs : s = sizeof_void_ptr
    · simp only [hs, if_true, Option.map_some', Option.some.injEq, Prod.mk.injEq] at h
      obtain ⟨_, h2⟩ := h
      subst h2
      rfl
    · simp [hs] at h
  | set_user_state s => exact absurd rfl (hset s)
  | clear_user_state => exact absurd rfl hclear
  | _ =>
    simp only [call, Option.some.injEq, Prod.mk.injEq] at h
    obtain ⟨_, h2⟩ := h
    subst h2
    rfl

/-- An event that neither constructs nor destroys a world takes no entry off
    the deferred list of any world. -/
theorem step_deferred_mem {S : Type} (E : Collaborators S) (p p1 : Process S) (e : Event)
    (hstep : Process.step E p e = some p1) (he : e.is_lifecycle = false)
    (this : Ptr) (x : Handle) (hx : x ∈ (p.mem this).deferred) :
    x ∈ (p1.mem this).deferred := by
  cases e with
  | construct a u c r b => simp [Event.is_lifecycle] at he
  | destroy a => simp [Event.is_lifecycle] at he
  | member a op =>
    simp only [Process.step] at hstep
    cases hc : call (p.mem a) op with
    | none => simp [hc] at hstep
    | some rw1 =>
      obtain ⟨r, w1⟩ := rw1
      simp only [hc, Option.some.injEq] at hstep
      subst hstep
      by_cases ha : this = a
      · subst ha
        simp only [Function.update_same]
        exact call_deferred_mem hc x hx
      · simp only [Function.update_noteq ha]
        exact hx
  | poll_all working =>
    simp only [Process.step, Option.some.injEq] at hstep
    subst hstep
    rw [(poll_all_frame E working p).2.1]
    exact hx
  | world_from_id i =>
    simp only [Process.step, Option.some.injEq] at hstep
    subst hstep
    exact hx
  | run_tasks =>
    simp only [Process.step, Option.some.injEq] at hstep
    subst hstep
    rw [(run_tasks_frame E p).2.1]
    exact hx

theorem run_deferred_mem {S : Type} (E : Collaborators S) (events : List Event)
    (p p1 : Process S) (hrun : Process.run E p events = some p1)
    (hev : ∀ e ∈ events, e.is_lifecycle = false)
    (this : Ptr) (x : Handle) (hx : x ∈ (p.mem this).deferred) :
    x ∈ (p1.mem this).deferred := by
  induction events generalizing p with
  | nil =>
    simp only [Process.run, Option.some.injEq] at hrun
    subst hrun
    exact hx
  | cons e es ih =>
    simp only [Process.run] at hrun
    cases hs : Process.step E p e with
    | none => simp [hs] at hrun
    | some p2 =>
      simp only [hs] at hrun
      exact ih p2 hrun (fun e1 he1 => hev e1 (List.mem_cons_of_mem _ he1))
        (step_deferred_mem E p p2 e hs (hev e (List.mem_cons_self _ _)) this x hx)

/-- `world_from_id` finds a world of the list whose id no other world of the
    list has. -/
theorem world_from_id_of_unique (mem : Ptr → World) (ws : List Ptr) (w : Ptr)
    (hw : w ∈ ws) (hnn : w ≠ 0)
    (huniq : ∀ v ∈ ws, v ≠ 0 → (mem v)._id = (mem w)._id → v = w) :
    World.world_from_id mem ws (mem w)._id = w := by
  induction ws with
  | nil => simp at hw
  | cons it rest ih =>
    rw [World.world_from_id_cons]
    by_cases h : (it != 0 && (mem it)._id == (mem w)._id) = true
    · rw [if_pos h]
      simp only [Bool.and_eq_true, bne_iff_ne, ne_eq, beq_iff_eq] at h
      exact huniq it (List.mem_cons_self _ _) h.1 h.2
    · rw [if_neg h]
      rcases List.mem_cons.mp hw with heq | hmem
      · subst heq
        exfalso
        apply h
        simp [hnn]
      · exact ih hmem (fun v hv => huniq v (List.mem_cons_of_mem _ hv))

/-- `world_from_id` is null when no non-null world of the list has the id. -/
theorem world_from_id_of_no_match (mem : Ptr → World) (ws : List Ptr) (i : Nat)
    (hnone : ∀ v ∈ ws, v ≠ 0 → (mem v)._id ≠ i) :
    World.world_from_id mem ws i = 0 := by
  induction ws with
  | nil => rfl
  | cons it rest ih =>
    rw [World.world_from_id_cons]
    have h : ¬ (it != 0 && (mem it)._id == i) = true := by
      simp only [Bool.and_eq_true, bne_iff_ne, ne_eq, beq_iff_eq, not_and]
      intro h0
      exact hnone it (List.mem_cons_self _ _) h0
    rw [if_neg h]
    exact ih (fun v hv => hnone v (List.mem_cons_of_mem _ hv))

theorem load_cons (mem : Ptr → World) (ws : List Ptr) (i : Nat) (rest : Archive) :
    archive.load mem ws (i :: rest) =
      if World.world_from_id mem ws i = 0 then none
      else some (World.world_from_id mem ws i, rest) := by
  by_cases h : World.world_from_id mem ws i = 0
  · simp [archive.load, Archive.read, MADNESS_ASSERT, h]
  · simp [archive.load, Archive.read, MADNESS_ASSERT, h]

theorem filter_by_await_am_poll (polled : List Ptr) :
    (polled.map Called.am_poll).filter Called.by_await = [] := by
  induction polled with
  | nil => rfl
  | cons x xs ih => simp [Called.by_await]

theorem filter_by_await_run_next (ran : List (Ptr × Bool)) :
    (ran.map (fun x => Called.run_next_ready_task x.1 x.2)).filter Called.by_await = [] := by
  induction ran with
  | nil => rfl
  | cons x xs ih => simpa [Called.by_await] using ih

/-- The record after one pass through the body of the loop of `await` that
    follows a failed evaluation: the failed evaluation, one `poll_all` with
    the current `working`, polls of AM interfaces, one `run_tasks`, calls of
    `run_next_ready_task`. -/
theorem await_pass_calls {S : Type} (E : Collaborators S) (probe : S → Bool × S)
    (working : Bool) (p : Process S) :
    ∃ (polled : List Ptr) (ran : List (Ptr × Bool)),
      (World.await_pass E probe (working, p)).2.calls =
        p.calls ++ (Called.probe (probe p.ext).1 :: Called.poll_all working ::
          (polled.map Called.am_poll ++ Called.run_tasks ::
            ran.map (fun x => Called.run_next_ready_task x.1 x.2))) := by
  obtain ⟨_, _, _, _, polled, hp⟩ := poll_all_frame E working (evaluate_probe probe p).2
  obtain ⟨_, _, _, _, _, ran, hr⟩ :=
    run_tasks_frame E (World.poll_all E working (evaluate_probe probe p).2)
  refine ⟨polled, ran, ?_⟩
  show (World.run_tasks E (World.poll_all E working (evaluate_probe probe p).2)).2.calls = _
  rw [hr, hp]
  simp [evaluate_probe]

theorem await_loop_succ {S : Type} (E : Collaborators S) (probe : S → Bool × S)
    (fuel : Nat) (working : Bool) (p : Process S) :
    World.await_loop E probe (fuel + 1) working p =
      if (evaluate_probe probe p).1 then some (evaluate_probe probe p).2
      else
        World.await_loop E probe fuel (World.await_pass E probe (working, p)).1
          (World.await_pass E probe (working, p)).2 := rfl

/-- The record of a returning `await`: for every failed evaluation of the
    probe one `poll_all` and one `run_tasks`, the first `poll_all` with the
    initial `working`, and the successful evaluation last. -/
theorem await_loop_calls {S : Type} (E : Collaborators S) (probe : S → Bool × S)
    (fuel : Nat) (working : Bool) (p p1 : Process S)
    (h : World.await_loop E probe fuel working p = some p1) :
    ∃ (new : List Called) (workings : List Bool),
      p1.calls = p.calls ++ new ∧
      new.filter Called.by_await = await_calls workings ∧
      (workings.head? = none ∨ workings.head? = some working) ∧
      new.getLast? = some (Called.probe true) := by
  induction fuel generalizing working p with
  | zero => simp [World.await_loop] at h
  | succ fuel ih =>
    rw [await_loop_succ] at h
    by_cases hp : (evaluate_probe probe p).1 = true
    · rw [if_pos hp] at h
      simp only [Option.some.injEq] at h
      subst h
      have hp1 : (probe p.ext).1 = true := hp
      refine ⟨[Called.probe true], [], ?_, ?_, Or.inl rfl, rfl⟩
      · simp [evaluate_probe, hp1]
      · simp [Called.by_await, await_calls]
    · rw [if_neg hp] at h
      have hp1 : (probe p.ext).1 = false := Bool.eq_false_iff.mpr hp
      obtain ⟨new1, ws1, hc1, hf1, _, hl1⟩ := ih _ _ h
      obtain ⟨polled, ran, hpass⟩ := await_pass_calls E probe working p
      rw [hp1] at hpass
      refine ⟨(Called.probe false :: Called.poll_all working ::
          (polled.map Called.am_poll ++ Called.run_tasks ::
            ran.map (fun x => Called.run_next_ready_task x.1 x.2))) ++ new1,
        working :: ws1, ?_, ?_, Or.inr rfl, ?_⟩
      · rw [hc1, hpass, List.append_assoc]
      · rw [List.filter_append, hf1]
        simp only [List.filter_cons, Called.by_await, if_true, List.filter_append,
          filter_by_await_am_poll, filter_by_await_run_next, List.nil_append,
          List.cons_append, await_calls]
      · have hne : new1 ≠ [] := by
          intro hnil
          rw [hnil] at hl1
          simp at hl1
        rw [List.getLast?_append_of_ne_nil _ hne]
        exact hl1

/-- A returning `await` leaves the list of worlds and the world objects as
    they are. -/
theorem await_loop_frame {S : Type} (E : Collaborators S) (probe : S → Bool × S)
    (fuel : Nat) (working : Bool) (p p1 : Process S)
    (h : World.await_loop E probe fuel working p = some p1) :
    p1.worlds = p.worlds ∧ p1.mem = p.mem := by
  induction fuel generalizing working p with
  | zero => simp [World.await_loop] at h
  | succ fuel ih =>
    rw [await_loop_succ] at h
    by_cases hp : (evaluate_probe probe p).1 = true
    · rw [if_pos hp] at h
      simp only [Option.some.injEq] at h
      subst h
      exact ⟨rfl, rfl⟩
    · rw [if_neg hp] at h
      obtain ⟨i1, i2⟩ := ih _ _ h
      obtain ⟨r1, r2, _⟩ := run_tasks_frame E
        (World.poll_all E working (evaluate_probe probe p).2)
      obtain ⟨q1, q2, _⟩ := poll_all_frame E working (evaluate_probe probe p).2
      constructor
      · rw [i1]
        show (World.run_tasks E (World.poll_all E working (evaluate_probe probe p).2)).2.worlds = _
        rw [r1, q1]
        rfl
      · rw [i2]
        show (World.run_tasks E (World.poll_all E working (evaluate_probe probe p).2)).2.mem = _
        rw [r2, q2]
        rfl

/-- The loop of `await` returns when the probe succeeds at its evaluation
    number `k` (from 0) and the fuel allows more than `k` evaluations. -/
theorem await_loop_returns {S : Type} (E : Collaborators S) (probe : S → Bool × S)
    (k : Nat) (working : Bool) (p : Process S) (fuel : Nat) (hfuel : k < fuel)
    (hfail : ∀ j, j < k →
      (evaluate_probe probe ((World.await_pass E probe)^[j] (working, p)).2).1 = false)
    (hok : (evaluate_probe probe ((World.await_pass E probe)^[k] (working, p)).2).1 = true) :
    World.await_loop E probe fuel working p =
      some (evaluate_probe probe ((World.await_pass E probe)^[k] (working, p)).2).2 := by
  induction k generalizing working p fuel with
  | zero =>
    obtain ⟨f, rfl⟩ : ∃ f, fuel = f + 1 := ⟨fuel - 1, by omega⟩
    rw [await_loop_succ]
    simp only [Function.iterate_zero, id_eq] at hok ⊢
    rw [if_pos hok]
  | succ k ih =>
    obtain ⟨f, rfl⟩ : ∃ f, fuel = f + 1 := ⟨fuel - 1, by omega⟩
    rw [await_loop_succ]
    have h0 := hfail 0 (Nat.succ_pos k)
    simp only [Function.iterate_zero, id_eq] at h0
    rw [h0]
    simp only [Bool.false_eq_true, if_false]
    rw [Function.iterate_succ_apply] at hok ⊢
    have hpair : (World.await_pass E probe (working, p)) =
        ((World.await_pass E probe (working, p)).1, (World.await_pass E probe (working, p)).2) :=
      rfl
    rw [hpair] at hok ⊢
    apply ih _ _ f (by omega)
    · intro j hj
      have := hfail (j + 1) (by omega)
      rw [Function.iterate_succ_apply] at this
      exact this
    · exact hok

/-! ## Facts about run_tasks -/

/-- Once `*status` is true the loop of `run_tasks` calls nothing more. -/
theorem foldl_world_do_run_task_true {S : Type} (E : Collaborators S) (ws : List Ptr)
    (q : Process S) :
    ws.foldl (fun acc world => world_do_run_task E world acc) (q, true) = (q, true) := by
  induction ws with
  | nil => rfl
  | cons w ws ih =>
    rw [List.foldl_cons]
    have hstep : world_do_run_task E w (q, true) = (q, true) := by
      by_cases hw : (w != 0) = true
      · simp [world_do_run_task, hw]
      · simp [world_do_run_task, hw]
    rw [hstep, ih]

/-- The loop of `run_tasks` entered with `*status` false, when
    `run_next_ready_task` returns whether the world had a ready task and
    leaves the collaborators alone when it had none: the status returned
    tells whether a call returned true, which is whether a non-null world
    of the list had a ready task; when it is false the collaborators are
    as before. -/
theorem foldl_world_do_run_task_false {S : Type} (E : Collaborators S)
    (ready : Ptr → S → Bool)
    (hready : ∀ w s, (E.run_next_ready_task w s).1 = ready w s)
    (hidle : ∀ w s, ready w s = false → (E.run_next_ready_task w s).2 = s)
    (ws : List Ptr) (q : Process S) :
    ∃ ran : List (Ptr × Bool),
      (ws.foldl (fun acc world => world_do_run_task E world acc) (q, false)).1.calls =
        q.calls ++ ran.map (fun x => Called.run_next_ready_task x.1 x.2) ∧
      ((ws.foldl (fun acc world => world_do_run_task E world acc) (q, false)).2 = true ↔
        ∃ x ∈ ran, x.2 = true) ∧
      ((ws.foldl (fun acc world => world_do_run_task E world acc) (q, false)).2 = true ↔
        ∃ w ∈ ws, w ≠ 0 ∧ ready w q.ext = true) ∧
      ((ws.foldl (fun acc world => world_do_run_task E world acc) (q, false)).2 = false →
        (ws.foldl (fun acc world => world_do_run_task E world acc) (q, false)).1.ext =
          q.ext) := by
  induction ws generalizing q with
  | nil =>
    refine ⟨[], by simp, ?_, ?_, fun _ => rfl⟩
    · simp
    · simp
  | cons w ws ih =>
    rw [List.foldl_cons]
    by_cases hw : w = 0
    · subst hw
      have hstep : world_do_run_task E 0 (q, false) = (q, false) := by
        simp [world_do_run_task]
      rw [hstep]
      obtain ⟨ran, h1, h2, h3, h4⟩ := ih q
      refine ⟨ran, h1, h2, ?_, h4⟩
      rw [h3]
      constructor
      · rintro ⟨v, hv, hv0, hvr⟩
        exact ⟨v, List.mem_cons_of_mem _ hv, hv0, hvr⟩
      · rintro ⟨v, hv, hv0, hvr⟩
        rcases List.mem_cons.mp hv with heq | hmem
        · exact absurd heq hv0
        · exact ⟨v, hmem, hv0, hvr⟩
    · have hw1 : (w != 0) = true := by simpa using hw
      have hstep : world_do_run_task E w (q, false) =
          ({ q with
              ext := (E.run_next_ready_task w q.ext).2
              calls := q.calls ++
                [Called.run_next_ready_task w (E.run_next_ready_task w q.ext).1] },
           (E.run_next_ready_task w q.ext).1) := by
        simp [world_do_run_task, hw1]
      rw [hstep, hready]
      cases hr : ready w q.ext with
      | true =>
        rw [foldl_world_do_run_task_true]
        refine ⟨[(w, true)], by simp, ?_, ?_, ?_⟩
        · simp
        · simp only [true_iff]
          exact ⟨w, List.mem_cons_self _ _, hw, hr⟩
        · intro hfalse
          simp at hfalse
      | false =>
        have hext : (E.run_next_ready_task w q.ext).2 = q.ext := hidle w q.ext hr
        obtain ⟨ran, h1, h2, h3, h4⟩ := ih
          { q with
            ext := (E.run_next_ready_task w q.ext).2
            calls := q.calls ++ [Called.run_next_ready_task w false] }
        refine ⟨(w, false) :: ran, ?_, ?_, ?_, ?_⟩
        · rw [h1]
          simp
        · rw [h2]
          simp
        · rw [h3]
          simp only [hext]
          constructor
          · rintro ⟨v, hv, hv0, hvr⟩
            exact ⟨v, List.mem_cons_of_mem _ hv, hv0, hvr⟩
          · rintro ⟨v, hv, hv0, hvr⟩
            rcases List.mem_cons.mp hv with heq | hmem
            · subst heq
              rw [hr] at hvr
              simp at hvr
            · exact ⟨v, hmem, hv0, hvr⟩
        · intro hfalse
          rw [h4 hfalse]
          exact hext

/-! ## Facts about the timers -/

namespace molresponse

theorem pop_concat {T : Type} (v : List T) (x : T) : pop (v ++ [x]) = .ok (x, v) := by
  simp [pop]

theorem end_timer_of_no_start {T : Type} (t : Timers T) (h1 : t.ttt = []) :
    end_timer t = .error TimerError.check_failed := by
  simp [end_timer, MADNESS_CHECK, h1, bind, Except.bind]

theorem end_timer_of_start {T : Type} (t : Timers T) (st : List (T × T)) (wall cpu : T)
    (h1 : t.ttt = (st ++ [(wall, cpu)]).map Prod.fst)
    (h2 : t.sss = (st ++ [(wall, cpu)]).map Prod.snd) :
    end_timer t =
      .ok ((wall, cpu), { ttt := st.map Prod.fst, sss := st.map Prod.snd }) := by
  have h1a : t.ttt = st.map Prod.fst ++ [wall] := by simp [h1]
  have h2a : t.sss = st.map Prod.snd ++ [cpu] := by simp [h2]
  simp [end_timer, MADNESS_CHECK, h1a, h2a, pop_concat, bind, Except.bind, pure, Except.pure]

/-- The two vectors hold the readings of the unmatched starts. -/
theorem timer_run_unmatched {T : Type} (calls : List (TimerCall T)) (t : Timers T)
    (acc : List (T × T)) (h1 : t.ttt = acc.map Prod.fst) (h2 : t.sss = acc.map Prod.snd) :
    (timer_run t calls).ttt = (unmatched_starts acc calls).map Prod.fst ∧
    (timer_run t calls).sss = (unmatched_starts acc calls).map Prod.snd := by
  induction calls generalizing t acc with
  | nil => exact ⟨h1, h2⟩
  | cons c rest ih =>
    cases c with
    | start_timer wall cpu =>
      simp only [timer_run, unmatched_starts]
      apply ih
      · simp [start_timer, h1]
      · simp [start_timer, h2]
    | end_timer =>
      simp only [timer_run, unmatched_starts]
      rcases List.eq_nil_or_concat acc with hnil | ⟨st, x, hst⟩
      · subst hnil
        rw [end_timer_of_no_start t (by simpa using h1)]
        exact ih t _ (by simpa using h1) (by simpa using h2)
      · rw [List.concat_eq_append] at hst
        subst hst
        obtain ⟨wall, cpu⟩ := x
        rw [end_timer_of_start t st wall cpu h1 h2]
        simp only [List.dropLast_concat]
        exact ih { ttt := st.map Prod.fst, sss := st.map Prod.snd } st rfl rfl

end molresponse

/-! ## Facts about the serialisation of arrays -/

theorem store_array_eq {T : Type} (store_elem : Archive → T → Archive) (enc : T → List Nat)
    (hstore : ∀ ar x, store_elem ar x = ar ++ enc x) (a : List T) (ar : Archive) :
    archive.store_array store_elem ar a = ar ++ (a.map enc).flatten := by
  induction a generalizing ar with
  | nil => simp [archive.store_array]
  | cons x rest ih =>
    simp only [archive.store_array]
    rw [ih, hstore]
    simp

theorem load_array_join {T : Type} (load_elem : Archive → Option (T × Archive))
    (enc : T → List Nat) (hload : ∀ x rest, load_elem (enc x ++ rest) = some (x, rest))
    (a : List T) (rest : Archive) :
    archive.load_array load_elem a.length ((a.map enc).flatten ++ rest) = some (a, rest) := by
  induction a with
  | nil => simp [archive.load_array]
  | cons x xs ih =>
    simp only [List.length_cons, archive.load_array, List.map_cons, List.flatten_cons,
      List.append_assoc]
    rw [hload]
    simp only [ih]

theorem load_array_length {T : Type} (load_elem : Archive → Option (T × Archive))
    (n : Nat) (ar ar1 : Archive) (xs : List T)
    (h : archive.load_array load_elem n ar = some (xs, ar1)) : xs.length = n := by
  induction n generalizing ar xs with
  | zero =>
    simp only [archive.load_array, Option.some.injEq, Prod.mk.injEq] at h
    rw [← h.1]
    rfl
  | succ n ih =>
    simp only [archive.load_array] at h
    cases h1 : load_elem ar with
    | none => simp [h1] at h
    | some r =>
      obtain ⟨x, ar2⟩ := r
      simp only [h1] at h
      cases h2 : archive.load_array load_elem n ar2 with
      | none => simp [h2] at h
      | some r2 =>
        obtain ⟨ys, ar3⟩ := r2
        simp only [h2, Option.some.injEq, Prod.mk.injEq] at h
        rw [← h.1, List.length_cons, ih ar2 ys (h2.trans (by rw [h.2]))]

/-! ## Facts about the sizes of the maps -/

namespace hash_map

variable {K V : Type} [DecidableEq K]

theorem find_eq_none_iff (m : hash_map K V) (k : K) :
    find m k = none ↔ k ∉ m.map Prod.fst := by
  induction m with
  | nil => simp [find]
  | cons e rest ih =>
    obtain ⟨k1, v1⟩ := e
    by_cases hk : k1 = k
    · simp [find_cons, hk]
    · rw [find_cons, if_neg hk, ih]
      simp only [List.map_cons, List.mem_cons, not_or]
      exact ⟨fun h => ⟨fun h1 => hk h1.symm, h⟩, fun h => h.2⟩

theorem keys_nodup_insert (m : hash_map K V) (k : K) (v : V)
    (hm : (m.map Prod.fst).Nodup) : ((insert m (k, v)).map Prod.fst).Nodup := by
  unfold insert
  cases hf : find m (k, v).1 with
  | some v0 => exact hm
  | none =>
    simp only [List.map_cons, List.nodup_cons]
    exact ⟨(find_eq_none_iff m k).mp hf, hm⟩

theorem size_insert_of_find_none (m : hash_map K V) (k : K) (v : V) (h : find m k = none) :
    size (insert m (k, v)) = size m + 1 := by
  simp [insert, h, size]

theorem keys_erase_sublist (m : hash_map K V) (k : K) :
    List.Sublist ((erase m k).map Prod.fst) (m.map Prod.fst) := by
  induction m with
  | nil => exact List.Sublist.slnil
  | cons e rest ih =>
    obtain ⟨k1, v1⟩ := e
    by_cases hk : k1 = k
    · rw [erase_cons, if_pos hk]
      exact List.Sublist.cons _ ih
    · rw [erase_cons, if_neg hk]
      exact List.Sublist.cons₂ _ ih

theorem keys_nodup_erase (m : hash_map K V) (k : K)
    (hm : (m.map Prod.fst).Nodup) : ((erase m k).map Prod.fst).Nodup :=
  List.Nodup.sublist (keys_erase_sublist m k) hm

theorem size_erase_of_find_some (m : hash_map K V) (k : K) (v : V)
    (hm : (m.map Prod.fst).Nodup) (h : find m k = some v) :
    size (erase m k) + 1 = size m := by
  induction m with
  | nil => simp [find] at h
  | cons e rest ih =>
    obtain ⟨k1, v1⟩ := e
    simp only [List.map_cons, List.nodup_cons] at hm
    by_cases hk : k1 = k
    · subst hk
      rw [erase_cons, if_pos rfl,
        erase_of_find_none rest k1 ((find_eq_none_iff rest k1).mpr hm.1)]
      rfl
    · rw [find_cons, if_neg hk] at h
      rw [erase_cons, if_neg hk]
      have := ih hm.2 h
      simp only [size, List.length_cons] at this ⊢
      omega

end hash_map

/-! ## The two maps of the registry mirror each other -/

theorem registry_inverse_construct (id : Nat) : registry_inverse (World.construct id) := by
  refine ⟨?_, ?_, ?_, rfl⟩
  · intro k p
    simp [World.construct, hash_map.find]
  · simp [World.construct]
  · simp [World.construct]

/-- `unregister_ptr` keeps the maps mirrored when the invalid id has no entry. -/
theorem registry_inverse_unregister {w : World} (hinv : registry_inverse w)
    (h0 : hash_map.find w.map_id_to_ptr World.invalidid = none) (q : Ptr) :
    registry_inverse (w.unregister_ptr q) := by
  cases hq : hash_map.find w.map_ptr_to_id q with
  | none =>
    rw [unregister_ptr_of_unmapped w q hq h0]
    exact hinv
  | some k0 =>
    obtain ⟨hA, hB, hC, hD⟩ := hinv
    have hk0 : hash_map.find w.map_id_to_ptr k0 = some q := (hA k0 q).mpr hq
    have hid : w.id_from_ptr q = k0 := by simp [World.id_from_ptr, hq]
    have hw : w.unregister_ptr q =
        { w with map_id_to_ptr := hash_map.erase w.map_id_to_ptr k0
                 map_ptr_to_id := hash_map.erase w.map_ptr_to_id q } := by
      unfold World.unregister_ptr
      simp only [hid]
    rw [hw]
    refine ⟨?_, hash_map.keys_nodup_erase _ _ hB, hash_map.keys_nodup_erase _ _ hC, ?_⟩
    · intro k p
      show hash_map.find (hash_map.erase w.map_id_to_ptr k0) k = some p ↔
        hash_map.find (hash_map.erase w.map_ptr_to_id q) p = some k
      constructor
      · intro h
        obtain ⟨hne, hold⟩ := hash_map.find_erase_eq_some h
        have hp : q ≠ p := by
          intro heq
          subst heq
          rw [hk0] at *
          have := (hA k q).mp hold
          rw [hq] at this
          exact hne (Option.some.inj this)
        rw [hash_map.find_erase_of_ne _ _ _ hp]
        exact (hA k p).mp hold
      · intro h
        obtain ⟨hne, hold⟩ := hash_map.find_erase_eq_some h
        have hk : k0 ≠ k := by
          intro heq
          subst heq
          have := (hA k0 p).mpr hold
          rw [hk0] at this
          exact hne (Option.some.inj this)
        rw [hash_map.find_erase_of_ne _ _ _ hk]
        exact (hA k p).mpr hold
    · show hash_map.size (hash_map.erase w.map_id_to_ptr k0) =
        hash_map.size (hash_map.erase w.map_ptr_to_id q)
      have h1 := hash_map.size_erase_of_find_some _ _ _ hB hk0
      have h2 := hash_map.size_erase_of_find_some _ _ _ hC hq
      omega

/-- A call keeps the maps mirrored when the id it may draw and the invalid id
    have no entry in the id map and it does not register a pointer that has an
    entry in the pointer map. -/
theorem registry_inverse_call {w w1 : World} {op : Op} {r : Ret}
    (hc : call w op = some (r, w1)) (hinv : registry_inverse w)
    (hfresh : hash_map.find w.map_id_to_ptr { worldid := w._id, objid := w.obj_id } = none)
    (h0 : hash_map.find w.map_id_to_ptr World.invalidid = none)
    (hpre : ∀ s q, op = Op.register_ptr s q → hash_map.find w.map_ptr_to_id q = none) :
    registry_inverse w1 := by
  cases op with
  | register_ptr s q =>
    have hq := hpre s q rfl
    simp only [call, World.register_ptr_eq] at hc
    by_cases hs : s = sizeof_void_ptr
    · simp only [hs, if_true, Option.map_some', Option.some.injEq, Prod.mk.injEq] at hc
      obtain ⟨_, hw1⟩ := hc
      subst hw1
      obtain ⟨hA, hB, hC, hD⟩ := hinv
      refine ⟨?_, hash_map.keys_nodup_insert _ _ _ hB, hash_map.keys_nodup_insert _ _ _ hC, ?_⟩
      · intro k p
        show hash_map.find (hash_map.insert w.map_id_to_ptr
              ({ worldid := w._id, objid := w.obj_id }, q)) k = some p ↔
          hash_map.find (hash_map.insert w.map_ptr_to_id
              (q, { worldid := w._id, objid := w.obj_id })) p = some k
        rw [hash_map.find_insert, hash_map.find_insert, hfresh, hq]
        by_cases hk : ({ worldid := w._id, objid := w.obj_id } : uniqueidT) = k
        · subst hk
          by_cases hp : q = p
          · subst hp
            simp
          · simp only [if_true, if_neg hp]
            constructor
            · intro h
              exact absurd (Option.some.inj h) hp
            · intro h
              have := (hA _ p).mpr h
              rw [hfresh] at this
              exact absurd this (by simp)
        · by_cases hp : q = p
          · subst hp
            simp only [if_neg hk, if_true]
            constructor
            · intro h
              have := (hA k q).mp h
              rw [hq] at this
              exact absurd this (by simp)
            · intro h
              exact absurd (Option.some.inj h) hk
          · simp only [if_neg hk, if_neg hp]
            exact hA k p
      · show hash_map.size (hash_map.insert w.map_id_to_ptr _) =
          hash_map.size (hash_map.insert w.map_ptr_to_id _)
        rw [hash_map.size_insert_of_find_none _ _ _ hfresh,
          hash_map.size_insert_of_find_none _ _ _ hq, hD]
    · simp [hs] at hc
  | unregister_ptr q =>
    simp only [call, Option.some.injEq, Prod.mk.injEq] at hc
    obtain ⟨_, hw1⟩ := hc
    subst hw1
    exact registry_inverse_unregister hinv h0 q
  | unregister_ptr_id k =>
    simp only [call, Option.some.injEq, Prod.mk.injEq] at hc
    obtain ⟨_, hw1⟩ := hc
    subst hw1
    exact registry_inverse_unregister hinv h0 _
  | _ =>
    simp only [call, Option.some.injEq, Prod.mk.injEq] at hc
    obtain ⟨_, hw1⟩ := hc
    subst hw1
    exact hinv

/-- A sequence of calls that does not wrap the counter and registers only
    pointers without an entry in the pointer map keeps the maps mirrored. -/
theorem registry_inverse_run {w w2 : World} {ops : List Op} {tr : List (Op × Ret)}
    (h : run w ops = some (tr, w2)) (hinv : registry_inverse w)
    (hkeys : id_keys_below w w.obj_id) (h1 : 1 ≤ w.obj_id)
    (hb : w.obj_id + allocs ops < ULONG_RANGE)
    (hpre : registers_only_unregistered w ops = true) :
    registry_inverse w2 := by
  induction ops generalizing w tr with
  | nil =>
    simp only [run, Option.some.injEq, Prod.mk.injEq] at h
    obtain ⟨_, h2⟩ := h
    subst h2
    exact hinv
  | cons op ops ih =>
    obtain ⟨r, w1, tr1, hc, hr, _⟩ := run_cons_eq_some h
    obtain ⟨_, hobj⟩ := call_counter hc
    rw [allocs_cons] at hb
    rw [registers_only_unregistered_cons, hc, Bool.and_eq_true] at hpre
    obtain ⟨hpre0, hpre1⟩ := hpre
    have hfresh :
        hash_map.find w.map_id_to_ptr { worldid := w._id, objid := w.obj_id } = none := by
      cases hf : hash_map.find w.map_id_to_ptr { worldid := w._id, objid := w.obj_id } with
      | none => rfl
      | some p =>
        have := (hkeys _ p hf).2.2
        simp at this
    have h0 : hash_map.find w.map_id_to_ptr World.invalidid = none := by
      cases hf : hash_map.find w.map_id_to_ptr World.invalidid with
      | none => rfl
      | some p =>
        have := (hkeys _ p hf).2.1
        simp [World.invalidid] at this
    have hinv1 : registry_inverse w1 := by
      apply registry_inverse_call hc hinv hfresh h0
      intro s q hop
      subst hop
      simpa using hpre0
    have hone : run w [op] = some ([(op, r)], w1) := by
      simp [run, hc]
    have hb0 : w.obj_id + allocs [op] < ULONG_RANGE := by
      rw [allocs_cons]
      have : allocs [] = 0 := rfl
      cases ha : op.allocates with
      | true =>
        simp only [ha, if_true] at hb ⊢
        omega
      | false =>
        simp only [ha, Bool.false_eq_true, if_false] at hb ⊢
        omega
    have hkeys1 := run_id_keys_below hone hb0 h1 hkeys
    have hstep : w.obj_id ≤ w1.obj_id ∧ w1.obj_id + allocs ops < ULONG_RANGE := by
      cases ha : op.allocates with
      | true =>
        simp only [ha, if_true] at hb hobj
        have : w1.obj_id = w.obj_id + 1 := by
          rw [hobj]
          exact Nat.mod_eq_of_lt (by omega)
        omega
      | false =>
        simp only [ha, Bool.false_eq_true, if_false] at hb hobj
        omega
    exact ih hr hinv1 hkeys1 (by omega) hstep.2 hpre1

/-! ## Facts about the ids issued by one process -/

/-- Under rank partitioning the `k`-th world rooted at rank `r` has the id
    `10000*r + c r + k`. -/
theorem ids_rooted_at_partitioned (r : Nat) (gs : List Group) (c : Nat → Nat) :
    ids_rooted_at r (partitioned_ids c gs) gs =
      (List.range (rooted_at r gs)).map (fun k => 10000 * r + c r + k) := by
  induction gs generalizing c with
  | nil => simp [partitioned_ids, ids_rooted_at, rooted_at]
  | cons g gs ih =>
    simp only [partitioned_ids, ids_rooted_at]
    rw [rooted_at_cons, ih]
    by_cases hr : g.root.comm_world_rank = r
    · subst hr
      simp only [beq_self_eq_true, if_true, Function.update_same]
      rw [Nat.add_comm 1, List.range_succ_eq_map, List.map_cons, List.map_map]
      congr 1
      apply List.map_congr_left
      intro k _
      simp only [Function.comp, Nat.succ_eq_add_one]
      omega
    · have hb : (g.root.comm_world_rank == r) = false := by simpa using hr
      rw [hb, if_neg hr, Function.update_noteq (Ne.symm hr)]
      simp

/-- Worlds constructed by process 0 over itself alone, whatever their number:
    the counter of the process is taken modulo 2^64. -/
theorem world_ids_replicate_root0 (n : Nat) (b : Nat → Nat) (hb : b 0 < ULONG_RANGE) :
    world_ids b (List.replicate n
        { root := { comm_world_rank := 0, uninitialised_id := 0 }, others := [] }) =
      (List.range n).map (fun k => (b 0 + k) % ULONG_RANGE) := by
  induction n generalizing b with
  | zero => rfl
  | succ n ih =>
    rw [List.replicate_succ, List.range_succ_eq_map, List.map_cons, List.map_map]
    have hstep : world_ids b
        ({ root := { comm_world_rank := 0, uninitialised_id := 0 }, others := [] } ::
          List.replicate n
            { root := { comm_world_rank := 0, uninitialised_id := 0 }, others := [] }) =
        b 0 :: world_ids (Function.update b 0 ((b 0 + 1) % ULONG_RANGE))
          (List.replicate n
            { root := { comm_world_rank := 0, uninitialised_id := 0 }, others := [] }) := by
      simp [world_ids, construct_worlds, world_assign_id, assign_locals, Group.members,
        world_assign_id_local, broadcast]
    rw [hstep, ih _ (by rw [Function.update_same]; exact Nat.mod_lt _ (by decide))]
    congr 1
    · simp only [Nat.add_zero]
      exact (Nat.mod_eq_of_lt hb).symm
    · apply List.map_congr_left
      intro k _
      simp only [Function.comp, Function.update_same, Nat.succ_eq_add_one]
      rw [Nat.mod_add_mod]
      congr 1
      omega

/-- The id of the world numbered `k` of `n` worlds constructed by process 0
    over itself alone. -/
theorem world_ids_replicate_root0_get (n k : Nat) (hk : k < n) :
    (world_ids idbase_initial (List.replicate n
        { root := { comm_world_rank := 0, uninitialised_id := 0 }, others := [] }))[k]? =
      some (k % ULONG_RANGE) := by
  rw [world_ids_replicate_root0 n idbase_initial (by decide)]
  simp [List.getElem?_range hk, idbase_initial]

/-! ## Facts about ResponseParameters -/

namespace ResponseParameters

variable {P E : Type}

theorem from_collaborator_eq_ok {α : Type} {x : Except E α} {a : α}
    (h : (from_collaborator x : Except (ParametersError E) α) = .ok a) : x = .ok a := by
  cases x with
  | error e => simp [from_collaborator] at h
  | ok b =>
    simp only [from_collaborator, Except.ok.injEq] at h
    rw [h]

theorem from_collaborator_ok {α : Type} (a : α) :
    (from_collaborator (.ok a : Except E α) : Except (ParametersError E) α) = .ok a := rfl

theorem from_collaborator_error {α : Type} (e : E) :
    (from_collaborator (.error e : Except E α) : Except (ParametersError E) α) =
      .error (ParametersError.collaborator e) := rfl

theorem ok_bind {ε α β : Type} (a : α) (f : α → Except ε β) :
    ((.ok a : Except ε α) >>= f) = f a := rfl

theorem error_bind {ε α β : Type} (e : ε) (f : α → Except ε β) :
    ((.error e : Except ε α) >>= f) = .error e := rfl

theorem bind_eq_ok {ε α β : Type} {x : Except ε α} {f : α → Except ε β} {b : β}
    (h : (x >>= f) = .ok b) : ∃ a, x = .ok a ∧ f a = .ok b := by
  cases x with
  | error e => simp [bind, Except.bind] at h
  | ok a => exact ⟨a, rfl, h⟩

/-- A successful `set_ground_state_params` is five successful calls of
    `set_derived_value`. -/
theorem set_ground_state_params_ok {B : QCCalculationParametersBase P E} {g : GroundParameters}
    {p p5 : P} (h : set_ground_state_params B g p = .ok p5) :
    ∃ p1 p2 p3 p4,
      B.set_derived_value "num_orbitals" (.size_t g.n_orbitals) p = .ok p1 ∧
      B.set_derived_value "spinrestricted" (.bool g.is_spinrestricted) p1 = .ok p2 ∧
      B.set_derived_value "l" (.double g.get_L) p2 = .ok p3 ∧
      B.set_derived_value "k" (.int g.get_k) p3 = .ok p4 ∧
      B.set_derived_value "xc" (.string g.get_xc) p4 = .ok p5 := by
  unfold set_ground_state_params at h
  obtain ⟨p1, h1, h⟩ := bind_eq_ok h
  obtain ⟨p2, h2, h⟩ := bind_eq_ok h
  obtain ⟨p3, h3, h⟩ := bind_eq_ok h
  obtain ⟨p4, h4, h⟩ := bind_eq_ok h
  exact ⟨p1, p2, p3, p4, from_collaborator_eq_ok h1, from_collaborator_eq_ok h2,
    from_collaborator_eq_ok h3, from_collaborator_eq_ok h4, from_collaborator_eq_ok h⟩

/-- What `set_ground_state_params` leaves as it is: every observation that
    `set_derived_value` on the five keys of the ground state leaves. -/
theorem set_ground_state_params_frame {α : Type} {B : QCCalculationParametersBase P E}
    (obs : P → α) (k1 : String)
    (hobs : ∀ k v p p1, k ≠ k1 → B.set_derived_value k v p = .ok p1 → obs p1 = obs p)
    (hk : k1 ∉ ["num_orbitals", "spinrestricted", "l", "k", "xc"])
    {g : GroundParameters} {p p5 : P} (h : set_ground_state_params B g p = .ok p5) :
    obs p5 = obs p := by
  obtain ⟨p1, p2, p3, p4, h1, h2, h3, h4, h5⟩ := set_ground_state_params_ok h
  simp only [List.mem_cons, List.mem_singleton, List.not_mem_nil, or_false, not_or] at hk
  obtain ⟨a1, a2, a3, a4, a5⟩ := hk
  rw [hobs _ _ _ _ (Ne.symm a5) h5, hobs _ _ _ _ (Ne.symm a4) h4, hobs _ _ _ _ (Ne.symm a3) h3,
    hobs _ _ _ _ (Ne.symm a2) h2, hobs _ _ _ _ (Ne.symm a1) h1]

/-- A successful `set_states_of_order` is a successful `set_derived_value` of
    the response type, a loop and a product that succeed, and a successful
    `set_derived_value` of the number of states. -/
theorem set_states_of_order_ok {B : QCCalculationParametersBase P E} {name : String}
    {count : Nat} {index : String → Nat → Except (ParametersError E) Char} {natom : Nat}
    {p p2 : P} (h : set_states_of_order B name count index natom p = .ok p2) :
    ∃ p1 nstates states,
      B.set_derived_value "response_type" (.string name) p = .ok p1 ∧
      nstates_loop (d2_types B p1) index natom count 0 [] = .ok nstates ∧
      accumulate nstates 1 = (.ok states : Except (ParametersError E) Int) ∧
      B.set_derived_value "states" (.size_t (int_to_size_t states)) p1 = .ok p2 := by
  unfold set_states_of_order at h
  obtain ⟨p1, h1, h⟩ := bind_eq_ok h
  obtain ⟨ns, h2, h⟩ := bind_eq_ok h
  obtain ⟨st, h3, h⟩ := bind_eq_ok h
  exact ⟨p1, ns, st, from_collaborator_eq_ok h1, h2, h3, from_collaborator_eq_ok h⟩

/-- The outcomes of `set_states`, by the flags. -/
theorem set_states_cases (B : QCCalculationParametersBase P E) (natom : Nat) (p : P) :
    (dipole B p = .ok true →
      set_states B natom p =
        (from_collaborator (B.set_derived_value "states" (.size_t 3) p) >>= fun p1 =>
          from_collaborator (B.set_derived_value "response_type" (.string "dipole") p1))) ∧
    (dipole B p = .ok false → nuclear B p = .ok true →
      set_states B natom p =
        (from_collaborator (B.set_derived_value "states"
            (.size_t ((3 * natom) % ULONG_RANGE)) p) >>= fun p1 =>
          from_collaborator (B.set_derived_value "response_type" (.string "nuclear") p1))) ∧
    (dipole B p = .ok false → nuclear B p = .ok false → order2 B p = .ok true →
      set_states B natom p = set_states_of_order B "order2" 2 string_at natom p) ∧
    (dipole B p = .ok false → nuclear B p = .ok false → order2 B p = .ok false →
      order3 B p = .ok true →
      set_states B natom p = set_states_of_order B "order3" 3 string_index natom p) ∧
    (dipole B p = .ok false → nuclear B p = .ok false → order2 B p = .ok false →
      order3 B p = .ok false → set_states B natom p = .ok p) := by
  refine ⟨?_, ?_, ?_, ?_, ?_⟩
  · intro h1
    simp only [set_states, h1, from_collaborator_ok, ok_bind, if_true]
  · intro h1 h2
    simp only [set_states, h1, h2, from_collaborator_ok, ok_bind, if_true, Bool.false_eq_true,
      if_false]
  · intro h1 h2 h3
    simp only [set_states, h1, h2, h3, from_collaborator_ok, ok_bind, if_true,
      Bool.false_eq_true, if_false]
  · intro h1 h2 h3 h4
    simp only [set_states, h1, h2, h3, h4, from_collaborator_ok, ok_bind, if_true,
      Bool.false_eq_true, if_false]
  · intro h1 h2 h3 h4
    simp only [set_states, h1, h2, h3, h4, from_collaborator_ok, ok_bind,
      Bool.false_eq_true, if_false]
    rfl

/-- What `set_states` leaves as it is: every observation that
    `set_derived_value` on the keys "states" and "response_type" leaves. -/
theorem set_states_frame {α : Type} {B : QCCalculationParametersBase P E}
    (obs : P → α) (k1 : String)
    (hobs : ∀ k v p p1, k ≠ k1 → B.set_derived_value k v p = .ok p1 → obs p1 = obs p)
    (hk : k1 ∉ ["states", "response_type"])
    {natom : Nat} {p p2 : P} (h : set_states B natom p = .ok p2) :
    obs p2 = obs p := by
  simp only [List.mem_cons, List.mem_singleton, List.not_mem_nil, or_false, not_or] at hk
  obtain ⟨a1, a2⟩ := hk
  have horder : ∀ name count index,
      set_states_of_order B name count index natom p = .ok p2 → obs p2 = obs p := by
    intro name count index ho
    obtain ⟨p1, _, _, h1, _, _, h2⟩ := set_states_of_order_ok ho
    rw [hobs _ _ _ _ (Ne.symm a1) h2, hobs _ _ _ _ (Ne.symm a2) h1]
  have hpair : ∀ v name,
      (from_collaborator (B.set_derived_value "states" v p) >>= fun p1 =>
        from_collaborator (B.set_derived_value "response_type" (.string name) p1)) =
          (.ok p2 : Except (ParametersError E) P) → obs p2 = obs p := by
    intro v name hp
    obtain ⟨p1, h1, h2⟩ := bind_eq_ok hp
    rw [hobs _ _ _ _ (Ne.symm a2) (from_collaborator_eq_ok h2),
      hobs _ _ _ _ (Ne.symm a1) (from_collaborator_eq_ok h1)]
  obtain ⟨c1, c2, c3, c4, c5⟩ := set_states_cases B natom p
  cases hd : dipole B p with
  | error e => simp [set_states, hd, from_collaborator_error, error_bind] at h
  | ok d =>
    cases d with
    | true =>
      rw [c1 hd] at h
      exact hpair _ _ h
    | false =>
      cases hn : nuclear B p with
      | error e => simp [set_states, hd, hn, from_collaborator_ok, from_collaborator_error, ok_bind, error_bind] at h
      | ok n =>
        cases n with
        | true =>
          rw [c2 hd hn] at h
          exact hpair _ _ h
        | false =>
          cases h2 : order2 B p with
          | error e => simp [set_states, hd, hn, h2, from_collaborator_ok, from_collaborator_error, ok_bind, error_bind] at h
          | ok o2 =>
            cases o2 with
            | true =>
              rw [c3 hd hn h2] at h
              exact horder _ _ _ h
            | false =>
              cases h3 : order3 B p with
              | error e =>
                simp [set_states, hd, hn, h2, h3, from_collaborator_ok, from_collaborator_error,
                  ok_bind, error_bind] at h
              | ok o3 =>
                cases o3 with
                | true =>
                  rw [c4 hd hn h2 h3] at h
                  exact horder _ _ _ h
                | false =>
                  rw [c5 hd hn h2 h3] at h
                  simp only [Except.ok.injEq] at h
                  rw [h]

/-- A successful `read_and_set_derived_values` is a successful `read`, a
    successful `archive()`, a successful read of the ground state, and a
    successful `set_ground_state_params` and `set_states`. -/
theorem read_and_set_derived_values_ok {B : QCCalculationParametersBase P E}
    {g_params_read : String → Except E GroundParameters} {inputfile tag : String} {p p3 : P}
    (h : read_and_set_derived_values B g_params_read inputfile tag p = .ok p3) :
    ∃ p1 a g p2, B.read inputfile tag p = .ok p1 ∧ archive B p1 = .ok a ∧
      g_params_read a = .ok g ∧ set_ground_state_params B g p1 = .ok p2 ∧
      set_states B g.natom p2 = .ok p3 := by
  unfold read_and_set_derived_values at h
  obtain ⟨p1, h1, h⟩ := bind_eq_ok h
  obtain ⟨a, h2, h⟩ := bind_eq_ok h
  obtain ⟨g, h3, h⟩ := bind_eq_ok h
  obtain ⟨p2, h4, h⟩ := bind_eq_ok h
  exact ⟨p1, a, g, p2, from_collaborator_eq_ok h1, from_collaborator_eq_ok h2,
    from_collaborator_eq_ok h3, h4, h⟩

/-- The calls of `initialize` on other keys leave what `get<double>` returns
    for a key. -/
theorem foldl_init_parameter_frame {B : QCCalculationParametersBase P E} (hi : B.inits)
    (k1 : String) (l : List (String × Value)) (p : P) (hk : k1 ∉ l.map Prod.fst) :
    B.get_double k1 (l.foldl (fun q kv => B.init_parameter kv.1 kv.2 q) p) =
      B.get_double k1 p := by
  induction l generalizing p with
  | nil => rfl
  | cons kv rest ih =>
    simp only [List.map_cons, List.mem_cons, not_or] at hk
    rw [List.foldl_cons, ih _ hk.2, hi.1 kv.1 k1 kv.2 p (Ne.symm hk.1)]

/-- After the constructor `dconv()` returns the default `3.e-4`. -/
theorem constructor_dconv {B : QCCalculationParametersBase P E} (hi : B.inits) :
    dconv B (constructor B) = .ok { mantissa := 3, exponent := -4 } := by
  have hsplit : initial_parameters =
      initial_parameters.take 13 ++
        ("dconv", Value.double { mantissa := 3, exponent := -4 }) ::
          initial_parameters.drop 14 := by decide
  unfold dconv constructor
  rw [hsplit, List.foldl_append, List.foldl_cons,
    foldl_init_parameter_frame hi "dconv" _ _ (by decide)]
  exact hi.2 _ _ _

end ResponseParameters

/-! ## Facts about the parameter container of the examples -/

theorem parameter_list_frames (files : String → String → Option (List (String × Value))) :
    (parameter_list files).frames := by
  intro k k1 v p p1 hk hset
  simp only [parameter_list] at hset
  cases hl : p.lookup k with
  | none => simp [hl] at hset
  | some v0 =>
    simp only [hl, Except.ok.injEq] at hset
    subst hset
    have hb : (k1 == k) = false := by
      simpa using Ne.symm hk
    simp only [parameter_list, List.lookup_cons, hb, and_self]

theorem parameter_list_stores (files : String → String → Option (List (String × Value))) :
    (parameter_list files).stores := by
  intro k n p p1 hset
  simp only [parameter_list] at hset
  cases hl : p.lookup k with
  | none => simp [hl] at hset
  | some v0 =>
    simp only [hl, Except.ok.injEq] at hset
    subst hset
    simp [parameter_list, List.lookup_cons]

theorem parameter_list_inits (files : String → String → Option (List (String × Value))) :
    (parameter_list files).inits := by
  constructor
  · intro k k1 v p hk
    have hb : (k1 == k) = false := by
      simpa using Ne.symm hk
    simp only [parameter_list, List.lookup_cons, hb]
  · intro k x p
    simp [parameter_list, List.lookup_cons]
namespace ResponseParameters

variable {P E : Type}

end ResponseParameters

namespace ResponseParameters

variable {P E : Type}

end ResponseParameters

/-! ## Facts about world ids up to the range of the counter -/

theorem idbase_counts_while_local_other {b c : Nat → Nat} (h : idbase_counts_while b c)
    (m : Member) (wr : Nat) (hwr : wr ≠ 0) (hm : m.comm_world_rank * 10000 < INT_RANGE) :
    idbase_counts_while
      (Function.update b m.comm_world_rank
        (world_assign_id_local m.comm_world_rank wr (b m.comm_world_rank)
          m.uninitialised_id).1) c := by
  intro r hlt
  by_cases hr : r = m.comm_world_rank
  · subst hr
    rw [Function.update_same]
    have hwr0 : (wr == 0) = false := by simpa using hwr
    simp only [world_assign_id_local, hwr0]
    right
    exact idbase_after_init _ _ _ (h m.comm_world_rank hlt) hm
  · rw [Function.update_noteq hr]
    exact h r hlt

theorem idbase_counts_while_assign_locals {b c : Nat → Nat} (ms : List Member) (wr : Nat)
    (hwr : wr ≠ 0) (h : idbase_counts_while b c)
    (hm : ∀ m ∈ ms, m.comm_world_rank * 10000 < INT_RANGE) :
    idbase_counts_while (assign_locals b ms wr).1 c := by
  induction ms generalizing b wr with
  | nil => exact h
  | cons m ms ih =>
    simp only [assign_locals]
    apply ih (wr + 1) (Nat.succ_ne_zero wr)
    · exact idbase_counts_while_local_other h m wr hwr (hm m (List.mem_cons_self _ _))
    · intro m1 hm1
      exact hm m1 (List.mem_cons_of_mem _ hm1)

/-- One collective `world_assign_id` when the id `10000*r + c r` is an
    `unsigned long`: the rank 0 of the group gets that id, and the counters
    are in step with one more world rooted at `r`. -/
theorem world_assign_id_spec_while {b c : Nat → Nat} (g : Group)
    (h : idbase_counts_while b c)
    (hm : ∀ m ∈ g.members, m.comm_world_rank * 10000 < INT_RANGE)
    (hc : 10000 * g.root.comm_world_rank + c g.root.comm_world_rank < ULONG_RANGE) :
    (world_assign_id b g).2.headD 0 =
        10000 * g.root.comm_world_rank + c g.root.comm_world_rank ∧
    idbase_counts_while (world_assign_id b g).1
      (Function.update c g.root.comm_world_rank (c g.root.comm_world_rank + 1)) := by
  have hid : (world_assign_id_local g.root.comm_world_rank 0 (b g.root.comm_world_rank)
      g.root.uninitialised_id) =
      ((10000 * g.root.comm_world_rank + c g.root.comm_world_rank + 1) % ULONG_RANGE,
       10000 * g.root.comm_world_rank + c g.root.comm_world_rank) := by
    have hinit := idbase_after_init _ _ _ (h g.root.comm_world_rank hc)
      (hm g.root (List.mem_cons_self _ _))
    simp only [world_assign_id_local, beq_self_eq_true, if_true]
    rw [hinit]
  have hstep : idbase_counts_while
      (Function.update b g.root.comm_world_rank
        ((10000 * g.root.comm_world_rank + c g.root.comm_world_rank + 1) % ULONG_RANGE))
      (Function.update c g.root.comm_world_rank (c g.root.comm_world_rank + 1)) := by
    intro r hlt
    by_cases hr : r = g.root.comm_world_rank
    · subst hr
      rw [Function.update_same] at hlt
      right
      rw [Function.update_same, Function.update_same, Nat.mod_eq_of_lt (by omega)]
      omega
    · rw [Function.update_noteq hr] at hlt
      rw [Function.update_noteq hr, Function.update_noteq hr]
      exact h r hlt
  have heq : world_assign_id b g =
      ((assign_locals (Function.update b g.root.comm_world_rank
          ((10000 * g.root.comm_world_rank + c g.root.comm_world_rank + 1) % ULONG_RANGE))
          g.others 1).1,
       broadcast ((10000 * g.root.comm_world_rank + c g.root.comm_world_rank) ::
         (assign_locals (Function.update b g.root.comm_world_rank
          ((10000 * g.root.comm_world_rank + c g.root.comm_world_rank + 1) % ULONG_RANGE))
          g.others 1).2)) := by
    simp only [world_assign_id, Group.members, assign_locals, hid]
  rw [heq, broadcast_cons]
  refine ⟨rfl, ?_⟩
  exact idbase_counts_while_assign_locals g.others 1 (by decide) hstep
    (fun m hmem => hm m (List.mem_cons_of_mem _ hmem))

/-- Worlds constructed one after the other get the ids of rank partitioning
    as long as each of these ids is an `unsigned long`. -/
theorem construct_worlds_spec_while (gs : List Group) (b c : Nat → Nat)
    (h : idbase_counts_while b c)
    (hm : ∀ g ∈ gs, ∀ m ∈ g.members, m.comm_world_rank * 10000 < INT_RANGE)
    (hc : ∀ r, 0 < rooted_at r gs → 10000 * r + c r + rooted_at r gs ≤ ULONG_RANGE) :
    world_ids b gs = partitioned_ids c gs := by
  induction gs generalizing b c with
  | nil =>
    simp [world_ids, construct_worlds, partitioned_ids]
  | cons g gs ih =>
    have hcg : 10000 * g.root.comm_world_rank + c g.root.comm_world_rank < ULONG_RANGE := by
      have := hc g.root.comm_world_rank
      rw [rooted_at_cons] at this
      simp only [if_true] at this
      have := this (by omega)
      omega
    obtain ⟨hhead, hnext⟩ := world_assign_id_spec_while g h (hm g (List.mem_cons_self _ _)) hcg
    have hc1 : ∀ r, 0 < rooted_at r gs →
        10000 * r + Function.update c g.root.comm_world_rank
          (c g.root.comm_world_rank + 1) r + rooted_at r gs ≤ ULONG_RANGE := by
      intro r hpos
      have := hc r
      rw [rooted_at_cons] at this
      by_cases hr : r = g.root.comm_world_rank
      · subst hr
        rw [Function.update_same]
        simp only [if_true] at this
        have := this (by omega)
        omega
      · rw [Function.update_noteq hr]
        rw [if_neg (Ne.symm hr)] at this
        have := this (by omega)
        omega
    have ih1 := ih (world_assign_id b g).1 _ hnext
      (fun g1 hg1 => hm g1 (List.mem_cons_of_mem _ hg1)) hc1
    have : world_ids b (g :: gs) =
        (world_assign_id b g).2.headD 0 :: world_ids (world_assign_id b g).1 gs := by
      simp [world_ids, construct_worlds]
    rw [this, hhead, ih1]
    rfl

theorem idbase_counts_while_initial : idbase_counts_while idbase_initial (fun _ => 0) := by
  intro r _
  left
  exact ⟨rfl, rfl⟩

/-- A rank at which a world is rooted is the rank of the root of a group. -/
theorem rooted_at_pos {r : Nat} {gs : List Group} (h : 0 < rooted_at r gs) :
    ∃ g ∈ gs, g.root.comm_world_rank = r := by
  unfold rooted_at at h
  obtain ⟨g, hg⟩ := List.exists_mem_of_length_pos h
  obtain ⟨h1, h2⟩ := List.mem_filter.mp hg
  exact ⟨g, h1, by simpa using h2⟩

/-! ## The state that run_tasks leaves -/

/-- The loop of `run_tasks` skips the null entries of the list. -/
theorem foldl_world_do_run_task_filter {S : Type} (E : Collaborators S) (ws : List Ptr)
    (acc : Process S × Bool) :
    ws.foldl (fun a world => world_do_run_task E world a) acc =
      (ws.filter (fun w => w != 0)).foldl (fun a world => world_do_run_task E world a) acc := by
  induction ws generalizing acc with
  | nil => rfl
  | cons w ws ih =>
    by_cases hw : (w != 0) = true
    · rw [List.filter_cons_of_pos (p := fun w => w != 0) hw, List.foldl_cons, List.foldl_cons,
        ih]
    · rw [List.filter_cons_of_neg (p := fun w => w != 0) hw, List.foldl_cons, ih]
      have hstep : world_do_run_task E w acc = acc := by
        simp [world_do_run_task, hw]
      rw [hstep]

/-- The loop of `run_tasks` over worlds without a ready task: one call of
    `run_next_ready_task` on each, nothing else changed. -/
theorem foldl_world_do_run_task_idle {S : Type} (E : Collaborators S)
    (ready : Ptr → S → Bool)
    (hready : ∀ w s, (E.run_next_ready_task w s).1 = ready w s)
    (hidle : ∀ w s, ready w s = false → (E.run_next_ready_task w s).2 = s)
    (pre : List Ptr) (q : Process S)
    (hpre : ∀ w ∈ pre, (w != 0) = true ∧ ready w q.ext = false) :
    pre.foldl (fun a world => world_do_run_task E world a) (q, false) =
      ({ q with calls := q.calls ++ pre.map (fun w => Called.run_next_ready_task w false) },
       false) := by
  induction pre generalizing q with
  | nil =>
    cases q
    simp
  | cons w pre ih =>
    obtain ⟨hw, hr⟩ := hpre w (List.mem_cons_self _ _)
    have hstep : world_do_run_task E w (q, false) =
        ({ q with calls := q.calls ++ [Called.run_next_ready_task w false] }, false) := by
      have h1 : (E.run_next_ready_task w q.ext).1 = false := by rw [hready, hr]
      have h2 : (E.run_next_ready_task w q.ext).2 = q.ext := hidle w q.ext hr
      cases q
      simp only [world_do_run_task, hw, if_true, Bool.false_eq_true, if_false] at h1 h2 ⊢
      rw [h1, h2]
    rw [List.foldl_cons, hstep,
      ih { q with calls := q.calls ++ [Called.run_next_ready_task w false] }
        (fun v hv => hpre v (List.mem_cons_of_mem _ hv))]
    simp

/-- The loop of `run_tasks` when the first non-null world with a ready task
    is `w0`: the worlds before it are asked in vain, `w0` runs a task, and
    the worlds after it are not asked. -/
theorem foldl_world_do_run_task_first {S : Type} (E : Collaborators S)
    (ready : Ptr → S → Bool)
    (hready : ∀ w s, (E.run_next_ready_task w s).1 = ready w s)
    (hidle : ∀ w s, ready w s = false → (E.run_next_ready_task w s).2 = s)
    (ws pre post : List Ptr) (w0 : Ptr) (q : Process S)
    (hws : ws.filter (fun w => w != 0) = pre ++ w0 :: post)
    (hpre : ∀ w ∈ pre, ready w q.ext = false) (h0 : ready w0 q.ext = true) :
    ws.foldl (fun a world => world_do_run_task E world a) (q, false) =
      ({ q with
          ext := (E.run_next_ready_task w0 q.ext).2
          calls := q.calls ++ (pre.map (fun w => Called.run_next_ready_task w false) ++
            [Called.run_next_ready_task w0 true]) },
       true) := by
  have hnn : ∀ w ∈ pre ++ w0 :: post, (w != 0) = true := by
    intro w hw
    rw [← hws] at hw
    exact (List.mem_filter.mp hw).2
  have hw0 : (w0 != 0) = true := hnn w0 (by simp)
  rw [foldl_world_do_run_task_filter, hws, List.foldl_append,
    foldl_world_do_run_task_idle E ready hready hidle pre q
      (fun w hw => ⟨hnn w (List.mem_append_left _ hw), hpre w hw⟩),
    List.foldl_cons]
  have hstep : world_do_run_task E w0
      ({ q with calls := q.calls ++ pre.map (fun w => Called.run_next_ready_task w false) },
        false) =
      ({ q with
          ext := (E.run_next_ready_task w0 q.ext).2
          calls := q.calls ++ (pre.map (fun w => Called.run_next_ready_task w false) ++
            [Called.run_next_ready_task w0 true]) },
       true) := by
    have h1 : (E.run_next_ready_task w0 q.ext).1 = true := by rw [hready, h0]
    cases q
    simp only [world_do_run_task, hw0, if_true, Bool.false_eq_true, if_false] at h1 ⊢
    rw [h1]
    simp
  rw [hstep, foldl_world_do_run_task_true]

/-- A list with an entry that satisfies `f` splits at the first such entry. -/
theorem first_split {α : Type} (f : α → Bool) (l : List α) (h : ∃ x ∈ l, f x = true) :
    ∃ pre x0 post, l = pre ++ x0 :: post ∧ (∀ x ∈ pre, f x = false) ∧ f x0 = true := by
  induction l with
  | nil =>
    obtain ⟨x, hx, _⟩ := h
    simp at hx
  | cons a l ih =>
    cases ha : f a with
    | true => exact ⟨[], a, l, rfl, by simp, ha⟩
    | false =>
      have h1 : ∃ x ∈ l, f x = true := by
        obtain ⟨x, hx, hfx⟩ := h
        rcases List.mem_cons.mp hx with heq | hmem
        · subst heq
          rw [ha] at hfx
          simp at hfx
        · exact ⟨x, hmem, hfx⟩
      obtain ⟨pre, x0, post, hl, hpre, hx0⟩ := ih h1
      refine ⟨a :: pre, x0, post, by rw [hl]; rfl, ?_, hx0⟩
      intro x hx
      rcases List.mem_cons.mp hx with heq | hmem
      · rw [heq]
        exact ha
      · exact hpre x hmem

theorem precedence_list_frames (files : String → String → Option (List (String × Value))) :
    (precedence_list files).frames := by
  intro k k1 v p p1 hk hset
  simp only [precedence_list] at hset
  cases hl : p.lookup k with
  | none => simp [hl] at hset
  | some e =>
    obtain ⟨v0, precedence⟩ := e
    simp only [hl] at hset
    by_cases hp : precedence ≤ 1
    · rw [if_pos hp] at hset
      simp only [Except.ok.injEq] at hset
      subst hset
      have hb : (k1 == k) = false := by
        simpa using Ne.symm hk
      simp only [precedence_list, List.lookup_cons, hb, and_self]
    · rw [if_neg hp] at hset
      simp only [Except.ok.injEq] at hset
      subst hset
      exact ⟨rfl, rfl, rfl, rfl⟩

/-! ## Claims -/

/-- C7. A lookup miss is a value: `ptr_from_id k` is the null pointer for every
    id `k` without an entry in the id map (so also for the invalid id and for
    an id of another world when they have no entry), and `id_from_ptr p` is
    the invalid id (0,0) for every pointer `p` without an entry in the pointer
    map.  Both lookups are total functions of the world and leave it as it is:
    there is no assertion on their path. -/
theorem C7_lookup_miss_is_value (w : World) :
    (∀ k : uniqueidT, hash_map.find w.map_id_to_ptr k = none → w.ptr_from_id k = NULL) ∧
    (∀ p : Ptr, hash_map.find w.map_ptr_to_id p = none →
        w.id_from_ptr p = { worldid := 0, objid := 0 } ∧
        (w.id_from_ptr p).operator_bool = false) ∧
    (∀ k : uniqueidT, call w (.ptr_from_id k) = some (.ptr (w.ptr_from_id k), w)) ∧
    (∀ p : Ptr, call w (.id_from_ptr p) = some (.id (w.id_from_ptr p), w)) := by
  refine ⟨?_, ?_, ?_, ?_⟩
  · intro k hk
    simp [World.ptr_from_id, hk, NULL]
  · intro p hp
    simp [World.id_from_ptr, hp, World.invalidid, uniqueidT.operator_bool]
  · intro k
    rfl
  · intro p
    rfl

/-- C10. `world_from_id i` is null exactly when no non-null world of the
    active list has `id() == i`; otherwise it is the first non-null world of
    the list, in list order, whose id is `i`. -/
theorem C10_world_from_id (mem : Ptr → World) (worlds : List Ptr) (i : Nat) :
    (World.world_from_id mem worlds i = NULL ↔
        ∀ p ∈ worlds, p ≠ NULL → (mem p).id ≠ i) ∧
    (World.world_from_id mem worlds i ≠ NULL →
        ∃ before after : List Ptr,
          worlds = before ++ World.world_from_id mem worlds i :: after ∧
          (mem (World.world_from_id mem worlds i)).id = i ∧
          ∀ q ∈ before, q ≠ NULL → (mem q).id ≠ i) := by
  induction worlds with
  | nil =>
    constructor
    · simp [World.world_from_id, NULL]
    · intro h
      exact absurd rfl h
  | cons it rest ih =>
    obtain ⟨ih1, ih2⟩ := ih
    by_cases hit : it ≠ 0 ∧ (mem it)._id = i
    · have hw : World.world_from_id mem (it :: rest) i = it := by
        rw [World.world_from_id_cons]
        simp [hit.1, hit.2]
      rw [hw]
      constructor
      · constructor
        · intro h0
          exact absurd h0 hit.1
        · intro hall
          exact absurd hit.2 (hall it (List.mem_cons_self _ _) hit.1)
      · intro _
        exact ⟨[], rest, rfl, hit.2, by simp⟩
    · have hw : World.world_from_id mem (it :: rest) i = World.world_from_id mem rest i := by
        rw [World.world_from_id_cons]
        have : (it != 0 && (mem it)._id == i) = false := by
          by_cases h0 : it = 0
          · simp [h0]
          · have : (mem it)._id ≠ i := fun h => hit ⟨h0, h⟩
            simp [this]
        simp [this]
      rw [hw]
      have hskip : it ≠ NULL → (mem it).id ≠ i := fun h0 h => hit ⟨h0, h⟩
      constructor
      · rw [ih1]
        constructor
        · intro hall p hp
          rcases List.mem_cons.mp hp with rfl | hp
          · exact hskip
          · exact hall p hp
        · intro hall p hp
          exact hall p (List.mem_cons_of_mem _ hp)
      · intro hne
        obtain ⟨before, after, hsplit, hid, hbefore⟩ := ih2 hne
        refine ⟨it :: before, after, ?_, hid, ?_⟩
        · rw [List.cons_append, ← hsplit]
        · intro q hq
          rcases List.mem_cons.mp hq with rfl | hq
          · exact hskip
          · exact hbefore q hq

/-- Witness for C7: a world with one registered pointer, a lookup of an id of
    another world and a lookup of an unregistered pointer. -/
theorem C7_lookup_miss_is_value_witness :
    World.ptr_from_id
        { map_id_to_ptr := [({ worldid := 0, objid := 1 }, 4096)]
          map_ptr_to_id := [(4096, { worldid := 0, objid := 1 })]
          _id := 0, obj_id := 2, user_state := 0, deferred := [] }
        { worldid := 10000, objid := 1 } = NULL :=
  (C7_lookup_miss_is_value
      { map_id_to_ptr := [({ worldid := 0, objid := 1 }, 4096)]
        map_ptr_to_id := [(4096, { worldid := 0, objid := 1 })]
        _id := 0, obj_id := 2, user_state := 0, deferred := [] }).1
    { worldid := 10000, objid := 1 } (by decide)

/-- C1 (amended). When the id the counter is about to issue, `(id(), obj_id)`,
    has no entry in the id map (as in every world reached from a new one
    with fewer than 2^64 - 1 ids drawn, see `next_id_fresh_of_run`): if
    `register_ptr p` returns `k`, then `ptr_from_id k` is `p` right afterwards,
    and is still `p` after any number of further `register_ptr` calls. -/
theorem C1_register_then_lookup (s : Nat) (w w1 : World) (p : Ptr) (k : uniqueidT)
    (hfresh : hash_map.find w.map_id_to_ptr { worldid := w.id, objid := w.obj_id } = none)
    (hreg : w.register_ptr s p = some (k, w1)) :
    w1.ptr_from_id k = p ∧
    ∀ (ops : List Op) (tr : List (Op × Ret)) (w2 : World),
      (∀ op ∈ ops, ∃ s1 q, op = Op.register_ptr s1 q) →
      run w1 ops = some (tr, w2) → w2.ptr_from_id k = p := by
  have hfind : hash_map.find w1.map_id_to_ptr k = some p := by
    rw [World.register_ptr_eq] at hreg
    by_cases hs : s = sizeof_void_ptr
    · simp only [hs, if_true, Option.some.injEq, Prod.mk.injEq] at hreg
      obtain ⟨h1, h2⟩ := hreg
      subst h1 h2
      exact hash_map.find_insert_self _ _ _ hfresh
    · simp [hs] at hreg
  constructor
  · simp [World.ptr_from_id, hfind]
  · intro ops tr w2 hops hrun
    have := find_id_after_registers k p ops hops w1 w2 tr hfind hrun
    simp [World.ptr_from_id, this]

/-- Witness for C1: the first registration on a new world of id 7, followed by
    two further registrations. -/
theorem C1_register_then_lookup_witness :
    World.ptr_from_id
        { map_id_to_ptr := [({ worldid := 7, objid := 1 }, 4096)]
          map_ptr_to_id := [(4096, { worldid := 7, objid := 1 })]
          _id := 7, obj_id := 2, user_state := 0, deferred := [] }
        { worldid := 7, objid := 1 } = 4096 :=
  (C1_register_then_lookup 8 (World.construct 7)
      { map_id_to_ptr := [({ worldid := 7, objid := 1 }, 4096)]
        map_ptr_to_id := [(4096, { worldid := 7, objid := 1 })]
        _id := 7, obj_id := 2, user_state := 0, deferred := [] }
      4096 { worldid := 7, objid := 1 } (by decide) (by decide)).1

/-- Counterexample to C1 as stated (every registry state): on the world of id
    0, register 4096 (it gets id (0,1)), then draw 2^64 - 1 ids so that the
    counter is 1 again; `register_ptr 8192` then returns (0,1) once more, its
    insert into the id map is dropped, and `ptr_from_id (0,1)` is 4096. -/
theorem C1_counterexample :
    (run (World.construct 0)
        (Op.register_ptr 8 4096 :: List.replicate (2 ^ 64 - 1) Op.unique_obj_id)).map Prod.snd =
      some { map_id_to_ptr := [({ worldid := 0, objid := 1 }, 4096)]
             map_ptr_to_id := [(4096, { worldid := 0, objid := 1 })]
             _id := 0, obj_id := 1, user_state := 0, deferred := [] } ∧
    World.register_ptr 8
        { map_id_to_ptr := [({ worldid := 0, objid := 1 }, 4096)]
          map_ptr_to_id := [(4096, { worldid := 0, objid := 1 })]
          _id := 0, obj_id := 1, user_state := 0, deferred := [] } 8192 =
      some ({ worldid := 0, objid := 1 },
            { map_id_to_ptr := [({ worldid := 0, objid := 1 }, 4096)]
              map_ptr_to_id := [(8192, { worldid := 0, objid := 1 }),
                                (4096, { worldid := 0, objid := 1 })]
              _id := 0, obj_id := 2, user_state := 0, deferred := [] }) ∧
    World.ptr_from_id
        { map_id_to_ptr := [({ worldid := 0, objid := 1 }, 4096)]
          map_ptr_to_id := [(8192, { worldid := 0, objid := 1 }),
                            (4096, { worldid := 0, objid := 1 })]
          _id := 0, obj_id := 2, user_state := 0, deferred := [] }
        { worldid := 0, objid := 1 } = 4096 := by
  refine ⟨?_, by decide, by decide⟩
  exact (run_call_then_replicate (Op.register_ptr 8 4096) (2 ^ 64 - 1) (World.construct 0)
    { map_id_to_ptr := [({ worldid := 0, objid := 1 }, 4096)]
      map_ptr_to_id := [(4096, { worldid := 0, objid := 1 })]
      _id := 0, obj_id := 2, user_state := 0, deferred := [] }
    (.id { worldid := 0, objid := 1 }) (by decide) (by decide)).trans (by decide)

/-- C5 (amended). `unique_obj_id` never fails and returns `(id(), c)`, `c`
    being the current value of the object-id counter; its only effect is to
    advance the counter by one modulo 2^64 (by exactly one unless the counter
    holds 2^64 - 1), both maps, the user state, the deferred list and the
    world id being unchanged.  Two calls on the same world with calls in
    between that draw fewer than 2^64 - 1 ids return ids that compare
    unequal. -/
theorem C5_unique_obj_id (w : World) :
    call w Op.unique_obj_id =
      some (Ret.id { worldid := w.id, objid := w.obj_id }, (w.unique_obj_id).2) ∧
    (w.unique_obj_id).1 = { worldid := w.id, objid := w.obj_id } ∧
    (w.unique_obj_id).2.obj_id = (w.obj_id + 1) % 2 ^ 64 ∧
    (w.obj_id + 1 < 2 ^ 64 → (w.unique_obj_id).2.obj_id = w.obj_id + 1) ∧
    ((w.unique_obj_id).2.map_id_to_ptr = w.map_id_to_ptr ∧
     (w.unique_obj_id).2.map_ptr_to_id = w.map_ptr_to_id ∧
     (w.unique_obj_id).2.user_state = w.user_state ∧
     (w.unique_obj_id).2.deferred = w.deferred ∧
     (w.unique_obj_id).2.id = w.id) ∧
    (∀ (ops : List Op) (tr : List (Op × Ret)) (w2 : World),
      run (w.unique_obj_id).2 ops = some (tr, w2) → allocs ops < 2 ^ 64 - 1 →
      uniqueidT.operator_eq (w.unique_obj_id).1 (w2.unique_obj_id).1 = false) := by
  refine ⟨rfl, rfl, rfl, ?_, ⟨rfl, rfl, rfl, rfl, rfl⟩, ?_⟩
  · intro h
    show (w.obj_id + 1) % ULONG_RANGE = w.obj_id + 1
    exact Nat.mod_eq_of_lt h
  · intro ops tr w2 hrun hb
    have hlt : (w.unique_obj_id).2.obj_id < ULONG_RANGE := Nat.mod_lt _ (by decide)
    obtain ⟨_, hobj⟩ := run_counter_mod hrun hlt
    have h1 : (w.unique_obj_id).2.obj_id = (w.obj_id + 1) % ULONG_RANGE := rfl
    rw [h1] at hobj
    rw [ULONG_RANGE_eq] at hobj
    have hne : w.obj_id ≠ w2.obj_id := by
      rw [hobj]
      omega
    simp [uniqueidT.operator_eq, World.unique_obj_id, hne]

/-- Witness for C5: on a new world, two calls with one call in between. -/
theorem C5_unique_obj_id_witness :
    uniqueidT.operator_eq ((World.construct 0).unique_obj_id).1
      ((World.unique_obj_id
        { map_id_to_ptr := [], map_ptr_to_id := [], _id := 0, obj_id := 3,
          user_state := 0, deferred := [] }).1) = false :=
  (C5_unique_obj_id (World.construct 0)).2.2.2.2.2 [Op.unique_obj_id]
    [(Op.unique_obj_id, Ret.id { worldid := 0, objid := 2 })]
    { map_id_to_ptr := [], map_ptr_to_id := [], _id := 0, obj_id := 3,
      user_state := 0, deferred := [] }
    (by decide) (by decide)

/-- Counterexample to C5 as stated (fewer than 2^64 calls in between): on the
    new world of id 0 the first call returns (0,1); after 2^64 - 1 further
    calls the counter is 1 again and the next call returns (0,1) as well, an
    id that compares equal to the first.  Also, at counter 2^64 - 1 a call
    sets the counter to 0 instead of increasing it by one. -/
theorem C5_counterexample :
    ((World.construct 0).unique_obj_id).1 = { worldid := 0, objid := 1 } ∧
    (List.replicate (2 ^ 64 - 1) Op.unique_obj_id).length = 2 ^ 64 - 1 ∧
    (run (World.construct 0)
        (Op.unique_obj_id :: List.replicate (2 ^ 64 - 1) Op.unique_obj_id)).map Prod.snd =
      some { map_id_to_ptr := [], map_ptr_to_id := [], _id := 0, obj_id := 1,
             user_state := 0, deferred := [] } ∧
    (World.unique_obj_id
        { map_id_to_ptr := [], map_ptr_to_id := [], _id := 0, obj_id := 1,
          user_state := 0, deferred := [] }).1 = { worldid := 0, objid := 1 } ∧
    uniqueidT.operator_eq { worldid := 0, objid := 1 } { worldid := 0, objid := 1 } = true ∧
    (World.unique_obj_id
        { map_id_to_ptr := [], map_ptr_to_id := [], _id := 0, obj_id := 2 ^ 64 - 1,
          user_state := 0, deferred := [] }).2.obj_id = 0 := by
  refine ⟨by decide, List.length_replicate _ _, ?_, by decide, by decide, by decide⟩
  exact (run_call_then_replicate Op.unique_obj_id (2 ^ 64 - 1) (World.construct 0)
    { map_id_to_ptr := [], map_ptr_to_id := [], _id := 0, obj_id := 2,
      user_state := 0, deferred := [] }
    (.id { worldid := 0, objid := 1 }) (by decide) (by decide)).trans (by decide)

/-- C6. The counter of a new world starts at 1, and in every sequence of
    calls on a new world that draws fewer than 2^64 - 1 ids, every id returned
    by `unique_obj_id` or `register_ptr` has `get_obj_id() != 0` and converts
    to true; the default-constructed `uniqueidT` and the id returned by a
    missed `id_from_ptr` have object id 0 and convert to false. -/
theorem C6_object_id_zero_is_invalid (id : Nat) (ops : List Op) (tr : List (Op × Ret))
    (w : World) (hrun : run (World.construct id) ops = some (tr, w))
    (hb : allocs ops < 2 ^ 64 - 1) :
    (World.construct id).obj_id = 1 ∧
    (∀ (op : Op) (k : uniqueidT), (op, Ret.id k) ∈ tr → op.allocates = true →
      k.get_obj_id ≠ 0 ∧ k.operator_bool = true) ∧
    (uniqueidT.default_constructed.get_obj_id = 0 ∧
     uniqueidT.default_constructed.operator_bool = false) ∧
    (∀ (w1 : World) (p : Ptr), hash_map.find w1.map_ptr_to_id p = none →
      (w1.id_from_ptr p).get_obj_id = 0 ∧ (w1.id_from_ptr p).operator_bool = false) := by
  refine ⟨rfl, ?_, ⟨rfl, rfl⟩, ?_⟩
  · intro op k hmem ha
    have hb1 : (World.construct id).obj_id + allocs ops < ULONG_RANGE := by
      rw [ULONG_RANGE_eq]
      simp only [World.construct]
      omega
    obtain ⟨_, hlo, _⟩ := run_returned_ids hrun hb1 hmem ha
    have h1 : 1 ≤ k.objid := hlo
    have hne : k.objid ≠ 0 := by omega
    exact ⟨hne, by simp [uniqueidT.operator_bool, hne]⟩
  · intro w1 p hp
    simp [World.id_from_ptr, hp, World.invalidid, uniqueidT.get_obj_id,
      uniqueidT.operator_bool]

/-- Witness for C6: a new world of id 3 on which an id is drawn, a pointer is
    registered and an unregistered pointer is looked up. -/
theorem C6_object_id_zero_is_invalid_witness :
    (World.construct 3).obj_id = 1 ∧
    (∀ (op : Op) (k : uniqueidT),
      (op, Ret.id k) ∈
        [(Op.unique_obj_id, Ret.id { worldid := 3, objid := 1 }),
         (Op.register_ptr 8 4096, Ret.id { worldid := 3, objid := 2 }),
         (Op.id_from_ptr 8192, Ret.id { worldid := 0, objid := 0 })] →
      op.allocates = true → k.get_obj_id ≠ 0 ∧ k.operator_bool = true) :=
  ⟨(C6_object_id_zero_is_invalid 3
      [Op.unique_obj_id, Op.register_ptr 8 4096, Op.id_from_ptr 8192]
      [(Op.unique_obj_id, Ret.id { worldid := 3, objid := 1 }),
       (Op.register_ptr 8 4096, Ret.id { worldid := 3, objid := 2 }),
       (Op.id_from_ptr 8192, Ret.id { worldid := 0, objid := 0 })]
      { map_id_to_ptr := [({ worldid := 3, objid := 2 }, 4096)]
        map_ptr_to_id := [(4096, { worldid := 3, objid := 2 })]
        _id := 3, obj_id := 3, user_state := 0, deferred := [] }
      (by decide) (by decide)).1,
   (C6_object_id_zero_is_invalid 3
      [Op.unique_obj_id, Op.register_ptr 8 4096, Op.id_from_ptr 8192]
      [(Op.unique_obj_id, Ret.id { worldid := 3, objid := 1 }),
       (Op.register_ptr 8 4096, Ret.id { worldid := 3, objid := 2 }),
       (Op.id_from_ptr 8192, Ret.id { worldid := 0, objid := 0 })]
      { map_id_to_ptr := [({ worldid := 3, objid := 2 }, 4096)]
        map_ptr_to_id := [(4096, { worldid := 3, objid := 2 })]
        _id := 3, obj_id := 3, user_state := 0, deferred := [] }
      (by decide) (by decide)).2.1⟩

/-- C2 (amended). For every sequence of calls on a new world that draws fewer
    than 2^64 - 1 ids and calls `register_ptr` only on pointers that have no
    entry in the pointer map at the time, every pointer `p` and every id `k`
    that a `register_ptr p` of the sequence returned: after a following
    `unregister_ptr p`, `ptr_from_id k` is null and `id_from_ptr p` is the
    invalid id. -/
theorem C2_unregister_then_lookups_miss (id : Nat) (ops : List Op) (tr : List (Op × Ret))
    (w : World) (s : Nat) (p : Ptr) (k : uniqueidT)
    (hrun : run (World.construct id) ops = some (tr, w))
    (hb : allocs ops < 2 ^ 64 - 1)
    (hpre : registers_only_unregistered (World.construct id) ops = true)
    (hreg : (Op.register_ptr s p, Ret.id k) ∈ tr) :
    (w.unregister_ptr p).ptr_from_id k = NULL ∧
    (w.unregister_ptr p).id_from_ptr p = { worldid := 0, objid := 0 } ∧
    ((w.unregister_ptr p).id_from_ptr p).operator_bool = false := by
  have hb1 : (World.construct id).obj_id + allocs ops < ULONG_RANGE := by
    rw [ULONG_RANGE_eq]
    simp only [World.construct]
    omega
  obtain ⟨hist, ⟨hA, _, hC⟩, _, hnew⟩ :=
    registry_consistent_run hrun (registry_consistent_construct id) hb1 hpre
  have hmem := hnew s p k hreg
  have hid : (w.unregister_ptr p).id_from_ptr p = { worldid := 0, objid := 0 } := by
    have : hash_map.find (w.unregister_ptr p).map_ptr_to_id p = none :=
      hash_map.find_erase_self _ _
    simp [World.id_from_ptr, this, World.invalidid]
  refine ⟨?_, hid, by rw [hid]; rfl⟩
  cases hf : hash_map.find (w.unregister_ptr p).map_id_to_ptr k with
  | none => simp [World.ptr_from_id, hf, NULL]
  | some q =>
    exfalso
    obtain ⟨hne, hold⟩ := hash_map.find_erase_eq_some hf
    obtain ⟨hptr, hmem1⟩ := hA k q hold
    have hq : q = p := hC q p k hmem1 hmem
    subst hq
    apply hne
    simp [World.id_from_ptr, hptr]

/-- Witness for C2: register 4096 and 8192 on a new world of id 0, then
    unregister 4096. -/
theorem C2_unregister_then_lookups_miss_witness :
    World.ptr_from_id
      (World.unregister_ptr
        { map_id_to_ptr := [({ worldid := 0, objid := 2 }, 8192),
                            ({ worldid := 0, objid := 1 }, 4096)]
          map_ptr_to_id := [(8192, { worldid := 0, objid := 2 }),
                            (4096, { worldid := 0, objid := 1 })]
          _id := 0, obj_id := 3, user_state := 0, deferred := [] } 4096)
      { worldid := 0, objid := 1 } = NULL :=
  (C2_unregister_then_lookups_miss 0
    [Op.register_ptr 8 4096, Op.register_ptr 8 8192]
    [(Op.register_ptr 8 4096, Ret.id { worldid := 0, objid := 1 }),
     (Op.register_ptr 8 8192, Ret.id { worldid := 0, objid := 2 })]
    { map_id_to_ptr := [({ worldid := 0, objid := 2 }, 8192),
                        ({ worldid := 0, objid := 1 }, 4096)]
      map_ptr_to_id := [(8192, { worldid := 0, objid := 2 }),
                        (4096, { worldid := 0, objid := 1 })]
      _id := 0, obj_id := 3, user_state := 0, deferred := [] }
    8 4096 { worldid := 0, objid := 1 }
    (by decide) (by decide) (by decide) (by decide)).1

/-- Counterexample to C2 as stated (every sequence): register 4096 twice on a
    new world of id 0; the calls return (0,1) and (0,2).  After
    `unregister_ptr 4096` the id (0,2) still maps to 4096. -/
theorem C2_counterexample :
    run (World.construct 0) [Op.register_ptr 8 4096, Op.register_ptr 8 4096] =
      some ([(Op.register_ptr 8 4096, Ret.id { worldid := 0, objid := 1 }),
             (Op.register_ptr 8 4096, Ret.id { worldid := 0, objid := 2 })],
            { map_id_to_ptr := [({ worldid := 0, objid := 2 }, 4096),
                                ({ worldid := 0, objid := 1 }, 4096)]
              map_ptr_to_id := [(4096, { worldid := 0, objid := 1 })]
              _id := 0, obj_id := 3, user_state := 0, deferred := [] }) ∧
    World.ptr_from_id
      (World.unregister_ptr
        { map_id_to_ptr := [({ worldid := 0, objid := 2 }, 4096),
                            ({ worldid := 0, objid := 1 }, 4096)]
          map_ptr_to_id := [(4096, { worldid := 0, objid := 1 })]
          _id := 0, obj_id := 3, user_state := 0, deferred := [] } 4096)
      { worldid := 0, objid := 2 } = 4096 := by
  constructor <;> decide

/-- C3 (amended). `register_ptr p` on a pointer that is already registered is
    not reported: the only assertion of `register_ptr` compares `sizeof(T*)`
    with `sizeof(void*)`, so the call returns exactly when these agree.  It
    then returns a second id `(id(), obj_id)`, under which the id map gets an
    entry for `p` when that id has none yet, and leaves the pointer map as it
    was, so that `id_from_ptr p` is still the first id. -/
theorem C3_register_registered_ptr (s : Nat) (w : World) (p : Ptr) (k0 : uniqueidT)
    (hp : hash_map.find w.map_ptr_to_id p = some k0) :
    ((w.register_ptr s p).isSome = true ↔ s = sizeof_void_ptr) ∧
    (s = sizeof_void_ptr →
      ∃ w1, w.register_ptr s p = some ({ worldid := w.id, objid := w.obj_id }, w1) ∧
        w1.map_ptr_to_id = w.map_ptr_to_id ∧
        w1.id_from_ptr p = k0 ∧
        (hash_map.find w.map_id_to_ptr { worldid := w.id, objid := w.obj_id } = none →
          w1.ptr_from_id { worldid := w.id, objid := w.obj_id } = p ∧
          hash_map.size w1.map_id_to_ptr = hash_map.size w.map_id_to_ptr + 1)) := by
  refine ⟨World.register_ptr_isSome s w p, ?_⟩
  intro hs
  rw [World.register_ptr_eq]
  simp only [hs, if_true]
  refine ⟨_, rfl, ?_, ?_, ?_⟩
  · exact hash_map.insert_of_find_some _ _ _ _ hp
  · have : hash_map.find
        (hash_map.insert w.map_ptr_to_id (p, { worldid := w._id, objid := w.obj_id })) p =
        some k0 := hash_map.find_insert_of_find_some _ _ _ _ hp
    simp [World.id_from_ptr, this]
  · intro hfresh
    have hfresh1 : hash_map.find w.map_id_to_ptr { worldid := w._id, objid := w.obj_id } = none :=
      hfresh
    constructor
    · have : hash_map.find
          (hash_map.insert w.map_id_to_ptr ({ worldid := w._id, objid := w.obj_id }, p))
          { worldid := w._id, objid := w.obj_id } = some p :=
        hash_map.find_insert_self _ _ _ hfresh1
      simp [World.ptr_from_id, World.id, this]
    · simp [hash_map.size, hash_map.insert, hfresh1]

/-- Witness for C3: 4096 is registered under (0,1) and is registered again. -/
theorem C3_register_registered_ptr_witness :
    (World.register_ptr 8
        { map_id_to_ptr := [({ worldid := 0, objid := 1 }, 4096)]
          map_ptr_to_id := [(4096, { worldid := 0, objid := 1 })]
          _id := 0, obj_id := 2, user_state := 0, deferred := [] } 4096).isSome = true ↔
      8 = sizeof_void_ptr :=
  (C3_register_registered_ptr 8
    { map_id_to_ptr := [({ worldid := 0, objid := 1 }, 4096)]
      map_ptr_to_id := [(4096, { worldid := 0, objid := 1 })]
      _id := 0, obj_id := 2, user_state := 0, deferred := [] }
    4096 { worldid := 0, objid := 1 } (by decide)).1

/-- Counterexample to C3 as stated: 4096 is registered under (0,1); a second
    `register_ptr 4096` returns the id (0,2) and the id map then holds the two
    entries (0,1) -> 4096 and (0,2) -> 4096. -/
theorem C3_counterexample :
    World.id_from_ptr
        { map_id_to_ptr := [({ worldid := 0, objid := 1 }, 4096)]
          map_ptr_to_id := [(4096, { worldid := 0, objid := 1 })]
          _id := 0, obj_id := 2, user_state := 0, deferred := [] } 4096 =
      { worldid := 0, objid := 1 } ∧
    World.register_ptr 8
        { map_id_to_ptr := [({ worldid := 0, objid := 1 }, 4096)]
          map_ptr_to_id := [(4096, { worldid := 0, objid := 1 })]
          _id := 0, obj_id := 2, user_state := 0, deferred := [] } 4096 =
      some ({ worldid := 0, objid := 2 },
            { map_id_to_ptr := [({ worldid := 0, objid := 2 }, 4096),
                                ({ worldid := 0, objid := 1 }, 4096)]
              map_ptr_to_id := [(4096, { worldid := 0, objid := 1 })]
              _id := 0, obj_id := 3, user_state := 0, deferred := [] }) := by
  constructor <;> decide

/-- C8 (amended). `unregister_ptr(id)` with an id that has no entry in the id
    map does not fail: it is `unregister_ptr` of the null pointer, which
    returns normally; when the null pointer has no entry in the pointer map
    and the invalid id none in the id map, it leaves the world as it was. -/
theorem C8_unregister_unmapped_id (w : World) (k : uniqueidT)
    (hk : hash_map.find w.map_id_to_ptr k = none) :
    call w (Op.unregister_ptr_id k) = some (Ret.void, w.unregister_ptr NULL) ∧
    w.unregister_ptr_id k = w.unregister_ptr NULL ∧
    (hash_map.find w.map_ptr_to_id NULL = none →
      hash_map.find w.map_id_to_ptr { worldid := 0, objid := 0 } = none →
      w.unregister_ptr_id k = w) := by
  have hnull : w.ptr_from_id k = NULL := by
    simp [World.ptr_from_id, hk, NULL]
  have h1 : w.unregister_ptr_id k = w.unregister_ptr NULL := by
    unfold World.unregister_ptr_id
    rw [hnull]
  refine ⟨?_, h1, ?_⟩
  · show some (Ret.void, w.unregister_ptr_id k) = _
    rw [h1]
  · intro hp h0
    rw [h1]
    exact unregister_ptr_of_unmapped w NULL hp h0

/-- Witness for C8: 4096 is registered under (0,1); the id (0,5) has no entry. -/
theorem C8_unregister_unmapped_id_witness :
    World.unregister_ptr_id
        { map_id_to_ptr := [({ worldid := 0, objid := 1 }, 4096)]
          map_ptr_to_id := [(4096, { worldid := 0, objid := 1 })]
          _id := 0, obj_id := 2, user_state := 0, deferred := [] }
        { worldid := 0, objid := 5 } =
      { map_id_to_ptr := [({ worldid := 0, objid := 1 }, 4096)]
        map_ptr_to_id := [(4096, { worldid := 0, objid := 1 })]
        _id := 0, obj_id := 2, user_state := 0, deferred := [] } :=
  (C8_unregister_unmapped_id
    { map_id_to_ptr := [({ worldid := 0, objid := 1 }, 4096)]
      map_ptr_to_id := [(4096, { worldid := 0, objid := 1 })]
      _id := 0, obj_id := 2, user_state := 0, deferred := [] }
    { worldid := 0, objid := 5 } (by decide)).2.2 (by decide) (by decide)

/-- Counterexample to C8 as stated: on the world in which 4096 is registered
    under (0,1), `unregister_ptr(id)` with the id (0,5), which has no entry,
    returns normally and leaves the world exactly as it was. -/
theorem C8_counterexample :
    World.ptr_from_id
        { map_id_to_ptr := [({ worldid := 0, objid := 1 }, 4096)]
          map_ptr_to_id := [(4096, { worldid := 0, objid := 1 })]
          _id := 0, obj_id := 2, user_state := 0, deferred := [] }
        { worldid := 0, objid := 5 } = NULL ∧
    call
        { map_id_to_ptr := [({ worldid := 0, objid := 1 }, 4096)]
          map_ptr_to_id := [(4096, { worldid := 0, objid := 1 })]
          _id := 0, obj_id := 2, user_state := 0, deferred := [] }
        (Op.unregister_ptr_id { worldid := 0, objid := 5 }) =
      some (Ret.void,
            { map_id_to_ptr := [({ worldid := 0, objid := 1 }, 4096)]
              map_ptr_to_id := [(4096, { worldid := 0, objid := 1 })]
              _id := 0, obj_id := 2, user_state := 0, deferred := [] }) := by
  constructor <;> decide

/-- C9 (amended). In every world reached from a new one by a sequence of calls
    that draws fewer than 2^64 - 1 ids, and in every world reached from a new
    one whose id is not 0, `unregister_ptr p` on a pointer `p` without an
    entry in the pointer map does not fail and leaves the id map, the pointer
    map, the counter, the user state and the deferred list as they were. -/
theorem C9_unregister_unmapped_ptr (id : Nat) (ops : List Op) (tr : List (Op × Ret))
    (w : World) (p : Ptr)
    (hrun : run (World.construct id) ops = some (tr, w))
    (hb : allocs ops < 2 ^ 64 - 1 ∨ id ≠ 0)
    (hp : hash_map.find w.map_ptr_to_id p = none) :
    call w (Op.unregister_ptr p) = some (Ret.void, w) ∧
    w.unregister_ptr p = w ∧
    ((w.unregister_ptr p).map_id_to_ptr = w.map_id_to_ptr ∧
     (w.unregister_ptr p).map_ptr_to_id = w.map_ptr_to_id ∧
     (w.unregister_ptr p).obj_id = w.obj_id ∧
     (w.unregister_ptr p).user_state = w.user_state ∧
     (w.unregister_ptr p).deferred = w.deferred) := by
  have h0 : hash_map.find w.map_id_to_ptr World.invalidid = none := by
    rcases hb with hb | hid
    · have hb1 : allocs ops < ULONG_RANGE - 1 := by
        rw [ULONG_RANGE_eq]
        omega
      exact (next_id_fresh_of_run hrun hb1).2 0
    · cases hf : hash_map.find w.map_id_to_ptr World.invalidid with
      | none => rfl
      | some q =>
        exfalso
        have hkeys := run_id_keys_world hrun
          (fun k p hk => by simp [World.construct, hash_map.find] at hk) _ q hf
        have hone : (World.construct id).obj_id < ULONG_RANGE := by
          show 1 < ULONG_RANGE
          decide
        have hwid : w._id = id := (run_counter_mod hrun hone).1
        rw [hwid] at hkeys
        exact hid hkeys.symm
  have hnoop : w.unregister_ptr p = w := unregister_ptr_of_unmapped w p hp h0
  refine ⟨?_, hnoop, ?_⟩
  · show some (Ret.void, w.unregister_ptr p) = _
    rw [hnoop]
  · rw [hnoop]
    exact ⟨rfl, rfl, rfl, rfl, rfl⟩

/-- Witness for C9: 4096 is registered on a new world of id 0, and 8192, which
    is not registered, is unregistered. -/
theorem C9_unregister_unmapped_ptr_witness :
    World.unregister_ptr
        { map_id_to_ptr := [({ worldid := 0, objid := 1 }, 4096)]
          map_ptr_to_id := [(4096, { worldid := 0, objid := 1 })]
          _id := 0, obj_id := 2, user_state := 0, deferred := [] } 8192 =
      { map_id_to_ptr := [({ worldid := 0, objid := 1 }, 4096)]
        map_ptr_to_id := [(4096, { worldid := 0, objid := 1 })]
        _id := 0, obj_id := 2, user_state := 0, deferred := [] } :=
  (C9_unregister_unmapped_ptr 0 [Op.register_ptr 8 4096]
    [(Op.register_ptr 8 4096, Ret.id { worldid := 0, objid := 1 })]
    { map_id_to_ptr := [({ worldid := 0, objid := 1 }, 4096)]
      map_ptr_to_id := [(4096, { worldid := 0, objid := 1 })]
      _id := 0, obj_id := 2, user_state := 0, deferred := [] }
    8192 (by decide) (Or.inl (by decide)) (by decide)).2.1

/-- Counterexample to C9 as stated (every reachable world): on the new world
    of id 0, 2^64 - 1 calls of `unique_obj_id` bring the counter to 0, and
    `register_ptr 4096` then returns the id (0,0).  In that world 8192 has no
    entry in the pointer map, yet `unregister_ptr 8192` removes the entry
    (0,0) -> 4096 from the id map. -/
theorem C9_counterexample :
    (run (World.construct 0)
        (Op.unique_obj_id :: List.replicate (2 ^ 64 - 2) Op.unique_obj_id)).map Prod.snd =
      some { map_id_to_ptr := [], map_ptr_to_id := [], _id := 0, obj_id := 0,
             user_state := 0, deferred := [] } ∧
    World.register_ptr 8
        { map_id_to_ptr := [], map_ptr_to_id := [], _id := 0, obj_id := 0,
          user_state := 0, deferred := [] } 4096 =
      some ({ worldid := 0, objid := 0 },
            { map_id_to_ptr := [({ worldid := 0, objid := 0 }, 4096)]
              map_ptr_to_id := [(4096, { worldid := 0, objid := 0 })]
              _id := 0, obj_id := 1, user_state := 0, deferred := [] }) ∧
    hash_map.find
        (World.mk [({ worldid := 0, objid := 0 }, 4096)]
          [(4096, { worldid := 0, objid := 0 })] 0 1 0 []).map_ptr_to_id 8192 = none ∧
    World.unregister_ptr
        { map_id_to_ptr := [({ worldid := 0, objid := 0 }, 4096)]
          map_ptr_to_id := [(4096, { worldid := 0, objid := 0 })]
          _id := 0, obj_id := 1, user_state := 0, deferred := [] } 8192 =
      { map_id_to_ptr := []
        map_ptr_to_id := [(4096, { worldid := 0, objid := 0 })]
        _id := 0, obj_id := 1, user_state := 0, deferred := [] } := by
  refine ⟨?_, by decide, by decide, by decide⟩
  exact (run_call_then_replicate Op.unique_obj_id (2 ^ 64 - 2) (World.construct 0)
    { map_id_to_ptr := [], map_ptr_to_id := [], _id := 0, obj_id := 2,
      user_state := 0, deferred := [] }
    (.id { worldid := 0, objid := 1 }) (by decide) (by decide)).trans (by decide)

/-- C4 (amended). Of the worlds constructed in a program, whatever their
    groups and whether or not they still exist, no two have the same id, as
    long as no process is rank 0 of the group of more than 10000 worlds (and
    the ranks in `MPI::COMM_WORLD` are small enough for `rank*10000` to be an
    `int`).  The id of a world is `10000*r + k`, `r` being the rank in
    `MPI::COMM_WORLD` of the rank-0 process of its group and `k` the number of
    worlds rooted on that process before it, and every member of the world
    holds that id after the broadcast. -/
theorem C4_world_ids_distinct (gs : List Group)
    (hint : ∀ g ∈ gs, ∀ m ∈ g.members, m.comm_world_rank * 10000 < INT_RANGE)
    (hcount : ∀ r, rooted_at r gs ≤ 10000) :
    (world_ids idbase_initial gs).Nodup ∧
    world_ids idbase_initial gs = partitioned_ids (fun _ => 0) gs ∧
    (∀ ids ∈ construct_worlds idbase_initial gs, ∀ x ∈ ids, x = ids.headD 0) := by
  have hc : ∀ r, (fun _ : Nat => 0) r + rooted_at r gs < INT_RANGE := by
    intro r
    have := hcount r
    rw [INT_RANGE_eq]
    show 0 + rooted_at r gs < 2147483648
    omega
  obtain ⟨h1, h2⟩ := construct_worlds_spec gs idbase_initial (fun _ => 0)
    idbase_counts_initial hint hc
  refine ⟨?_, h1, h2⟩
  rw [h1]
  apply partitioned_ids_nodup
  intro r
  have := hcount r
  show 0 + rooted_at r gs ≤ 10000
  omega

/-- Witness for C4: a world over the processes 0 and 1, then a world over
    process 1 alone, then a world over process 0 alone. -/
theorem C4_world_ids_distinct_witness :
    (world_ids idbase_initial
      [{ root := { comm_world_rank := 0, uninitialised_id := 77 }
         others := [{ comm_world_rank := 1, uninitialised_id := 78 }] },
       { root := { comm_world_rank := 1, uninitialised_id := 79 }, others := [] },
       { root := { comm_world_rank := 0, uninitialised_id := 80 }, others := [] }]).Nodup :=
  (C4_world_ids_distinct
    [{ root := { comm_world_rank := 0, uninitialised_id := 77 }
       others := [{ comm_world_rank := 1, uninitialised_id := 78 }] },
     { root := { comm_world_rank := 1, uninitialised_id := 79 }, others := [] },
     { root := { comm_world_rank := 0, uninitialised_id := 80 }, others := [] }]
    (by decide)
    (fun r => le_trans (rooted_at_le_length r _) (by decide))).1

/-- Counterexample to C4 as stated: process 0 constructs 10001 worlds over
    itself alone, which get the ids 0, 1, ..., 10000, and process 1 then
    constructs a world over itself alone, which gets the id 10000 as well. -/
theorem C4_counterexample :
    world_ids idbase_initial
        (List.replicate 10001
            { root := { comm_world_rank := 0, uninitialised_id := 0 }, others := [] } ++
          [{ root := { comm_world_rank := 1, uninitialised_id := 0 }, others := [] }]) =
      List.range 10001 ++ [10000] ∧
    10000 ∈ List.range 10001 := by
  refine ⟨?_, List.mem_range.mpr (by decide)⟩
  have hm : ∀ g ∈ (List.replicate 10001
            ({ root := { comm_world_rank := 0, uninitialised_id := 0 }, others := [] } : Group) ++
          [{ root := { comm_world_rank := 1, uninitialised_id := 0 }, others := [] }]),
      ∀ m ∈ g.members, m.comm_world_rank * 10000 < INT_RANGE := by
    intro g hg
    rcases List.mem_append.mp hg with h1 | h1
    · rw [List.eq_of_mem_replicate h1]
      decide
    · rw [List.mem_singleton.mp h1]
      decide
  have hc : ∀ r, (fun _ : Nat => 0) r + rooted_at r (List.replicate 10001
            ({ root := { comm_world_rank := 0, uninitialised_id := 0 }, others := [] } : Group) ++
          [{ root := { comm_world_rank := 1, uninitialised_id := 0 }, others := [] }]) <
        INT_RANGE := by
    intro r
    have h1 := rooted_at_le_length r (List.replicate 10001
            ({ root := { comm_world_rank := 0, uninitialised_id := 0 }, others := [] } : Group) ++
          [{ root := { comm_world_rank := 1, uninitialised_id := 0 }, others := [] }])
    rw [List.length_append, List.length_replicate, List.length_singleton] at h1
    rw [INT_RANGE_eq]
    show 0 + rooted_at r _ < 2147483648
    omega
  have hfun : (fun k : Nat => 10000 * 0 + 0 + k) = id := by
    funext k
    simp
  have hlast : partitioned_ids (Function.update (fun _ : Nat => 0) 0 (0 + 10001))
      [{ root := { comm_world_rank := 1, uninitialised_id := 0 }, others := [] }] =
      [10000] := by decide
  rw [(construct_worlds_spec _ idbase_initial (fun _ => 0) idbase_counts_initial hm hc).1,
    partitioned_ids_replicate]
  show List.map (fun k : Nat => 10000 * 0 + 0 + k) (List.range 10001) ++
      partitioned_ids (Function.update (fun _ : Nat => 0) 0 (0 + 10001))
        [{ root := { comm_world_rank := 1, uninitialised_id := 0 }, others := [] }] = _
  rw [hfun, List.map_id, hlast]

/-- C11. The constructor appends the new world to the list of active worlds;
    the destructor removes it from the list, leaves the other entries, and
    empties its deferred list.  Hence after every sequence of events that
    starts with an empty list and constructs worlds only where no world
    exists, the list holds every world within its lifetime exactly once and
    no other address, and `world_from_id` returns null or a world within its
    lifetime. -/
theorem C11_active_list_exact {S : Type} (E : Collaborators S) (events : List Event)
    (p p1 : Process S) (hstart : p.worlds = [])
    (hrun : Process.run E p events = some p1)
    (hok : lifetimes_ok (fun _ => false) events = true) :
    (∀ (q : Process S) (this : Ptr) (u c r b : Nat),
      (World.constructor E this u c r b q).worlds = q.worlds ++ [this]) ∧
    (∀ (q : Process S) (this : Ptr),
      this ∉ (World.destructor E this q).worlds ∧
      (∀ a, a ≠ this → (a ∈ (World.destructor E this q).worlds ↔ a ∈ q.worlds)) ∧
      ((World.destructor E this q).mem this).deferred = []) ∧
    p1.worlds.Nodup ∧
    (∀ a, p1.worlds.count a = if live_after (fun _ => false) events a = true then 1 else 0) ∧
    (∀ i, World.world_from_id p1.mem p1.worlds i = NULL ∨
      live_after (fun _ => false) events (World.world_from_id p1.mem p1.worlds i) = true) := by
  have hexact := run_worlds_exact E events p p1 (fun _ => false) hrun hok
    (by rw [hstart]; exact List.nodup_nil) (by intro a; rw [hstart]; simp)
  obtain ⟨hnodup, hlive⟩ := hexact
  refine ⟨?_, ?_, hnodup, ?_, ?_⟩
  · intro q this u c r b
    exact (constructor_frame E this u c r b q).1
  · intro q this
    rw [(destructor_frame E this q).1, (destructor_frame E this q).2]
    refine ⟨?_, ?_, ?_⟩
    · simp [List.mem_filter]
    · intro a ha
      simp [List.mem_filter, ha]
    · rw [Function.update_same]
      exact do_deferred_cleanup_deferred _
  · intro a
    by_cases ha : live_after (fun _ => false) events a = true
    · rw [if_pos ha]
      exact List.count_eq_one_of_mem hnodup ((hlive a).mpr ha)
    · rw [if_neg ha]
      exact List.count_eq_zero_of_not_mem (fun hm => ha ((hlive a).mp hm))
  · intro i
    rcases world_from_id_null_or_mem p1.mem p1.worlds i with h0 | hm
    · exact Or.inl h0
    · exact Or.inr ((hlive _).mp hm)

/-- Witness for C11: worlds are constructed at 4096 and at 8192, and the one
    at 4096 is destroyed. -/
theorem C11_active_list_exact_witness :
    (World.destructor ticking_clock 4096
      (World.constructor ticking_clock 8192 0 0 0 0
        (World.constructor ticking_clock 4096 0 0 0 0
          (Process.start (fun _ => World.construct 0) 0)))).worlds.Nodup :=
  (C11_active_list_exact ticking_clock
    [Event.construct 4096 0 0 0 0, Event.construct 8192 0 0 0 0, Event.destroy 4096]
    (Process.start (fun _ => World.construct 0) 0)
    (World.destructor ticking_clock 4096
      (World.constructor ticking_clock 8192 0 0 0 0
        (World.constructor ticking_clock 4096 0 0 0 0
          (Process.start (fun _ => World.construct 0) 0))))
    rfl rfl (by decide)).2.2.1

/-- C12. After `deferred_cleanup h` on a world, every sequence of calls of
    its public members or those of other worlds (`unique_obj_id`,
    `register_ptr`, `unregister_ptr`, `ptr_from_id`, `id_from_ptr`,
    `set_user_state`, `get_user_state`, `clear_user_state`,
    `deferred_cleanup`) and of `poll_all`, `world_from_id` and `run_tasks`
    leaves `h` in the deferred list of the world; the cleanup step
    `do_deferred_cleanup` removes it. -/
theorem C12_deferred_handle_kept {S : Type} (E : Collaborators S) (p p1 : Process S)
    (this : Ptr) (h : Handle) (events : List Event)
    (hev : ∀ e ∈ events, e.is_lifecycle = false)
    (hrun : Process.run E p (Event.member this (Op.deferred_cleanup h) :: events) = some p1) :
    h ∈ (p1.mem this).deferred ∧
    ((p1.mem this).do_deferred_cleanup).1 = true ∧
    h ∉ ((p1.mem this).do_deferred_cleanup).2.deferred := by
  have hmem : h ∈ (p1.mem this).deferred := by
    have hstep : Process.step E p (Event.member this (Op.deferred_cleanup h)) =
        some { p with mem := Function.update p.mem this ((p.mem this).deferred_cleanup h) } := rfl
    simp only [Process.run, hstep] at hrun
    apply run_deferred_mem E events _ p1 hrun hev this h
    simp [World.deferred_cleanup]
  refine ⟨hmem, ?_, ?_⟩
  · unfold World.do_deferred_cleanup
    cases hd : (p1.mem this).deferred with
    | nil =>
      rw [hd] at hmem
      simp at hmem
    | cons x xs => simp
  · rw [do_deferred_cleanup_deferred]
    simp

/-- Witness for C12: a handle is deferred on the world at 4096, then an id is
    drawn, the worlds are polled and another handle is deferred. -/
theorem C12_deferred_handle_kept_witness :
    (7 : Handle) ∈
      (((World.poll_all ticking_clock false
          { Process.start (fun _ => World.construct 0) 0 with
            mem := Function.update (fun _ => World.construct 0) 4096
              ((World.construct 0).deferred_cleanup 7) }).mem 4096)).deferred :=
  (C12_deferred_handle_kept ticking_clock
    (Process.start (fun _ => World.construct 0) 0)
    (World.poll_all ticking_clock false
      { Process.start (fun _ => World.construct 0) 0 with
        mem := Function.update (fun _ => World.construct 0) 4096
          ((World.construct 0).deferred_cleanup 7) })
    4096 7 [Event.poll_all false]
    (by decide) rfl).1

/-- C13. `deferred_cleanup h` never fails and appends `h` at the end of the
    deferred list: the new list is the old one followed by `h`, one entry
    longer, with the earlier entries at their places and one more occurrence
    of `h`; the registry maps, the counter, the world id and the user state
    are unchanged. -/
theorem C13_deferred_cleanup_appends (w : World) (h : Handle) :
    call w (Op.deferred_cleanup h) = some (Ret.void, w.deferred_cleanup h) ∧
    (w.deferred_cleanup h).deferred = w.deferred ++ [h] ∧
    (w.deferred_cleanup h).deferred.length = w.deferred.length + 1 ∧
    (∀ i, i < w.deferred.length → (w.deferred_cleanup h).deferred[i]? = w.deferred[i]?) ∧
    (w.deferred_cleanup h).deferred[w.deferred.length]? = some h ∧
    (w.deferred_cleanup h).deferred.count h = w.deferred.count h + 1 ∧
    ((w.deferred_cleanup h).map_id_to_ptr = w.map_id_to_ptr ∧
     (w.deferred_cleanup h).map_ptr_to_id = w.map_ptr_to_id ∧
     (w.deferred_cleanup h).obj_id = w.obj_id ∧
     (w.deferred_cleanup h).id = w.id ∧
     (w.deferred_cleanup h).user_state = w.user_state) := by
  refine ⟨rfl, rfl, ?_, ?_, ?_, ?_, ⟨rfl, rfl, rfl, rfl, rfl⟩⟩
  · simp [World.deferred_cleanup]
  · intro i hi
    simp only [World.deferred_cleanup]
    exact List.getElem?_append_left hi
  · simp [World.deferred_cleanup]
  · simp [World.deferred_cleanup]

/-- C18. `store` writes exactly the id of the world, and for a world of the
    active list whose id no other world of the list has, `load` applied to
    what `store` wrote yields that world. -/
theorem C18_world_pointer_round_trip (mem : Ptr → World) (worlds : List Ptr) (w : Ptr)
    (hw : w ∈ worlds) (hnn : w ≠ NULL)
    (huniq : ∀ v ∈ worlds, v ≠ NULL → (mem v).id = (mem w).id → v = w) :
    (∀ ar : Archive, archive.store mem ar w = ar ++ [(mem w).id]) ∧
    archive.load mem worlds (archive.store mem [] w) = some (w, []) ∧
    (∀ rest : Archive, archive.load mem worlds ((mem w).id :: rest) = some (w, rest)) := by
  have hfind : World.world_from_id mem worlds (mem w)._id = w :=
    world_from_id_of_unique mem worlds w hw hnn huniq
  have hload : ∀ rest : Archive,
      archive.load mem worlds ((mem w)._id :: rest) = some (w, rest) := by
    intro rest
    rw [load_cons, hfind]
    exact if_neg hnn
  refine ⟨fun ar => rfl, ?_, hload⟩
  exact hload []

/-- Witness for C18: the active list holds the worlds at 4096 and 8192, whose
    ids are 4096 and 8192; the pointer 8192 is stored and loaded. -/
theorem C18_world_pointer_round_trip_witness :
    archive.load (fun a => World.construct a) [4096, 8192]
      (archive.store (fun a => World.construct a) [] 8192) = some (8192, []) :=
  (C18_world_pointer_round_trip (fun a => World.construct a) [4096, 8192] 8192
    (by decide) (by decide) (by decide)).2.1

/-- C19. `load` of an id that no non-null world of the active list has fails
    its assertion, and a `load` that returns never yields the null pointer. -/
theorem C19_load_unknown_id_asserts (mem : Ptr → World) (worlds : List Ptr) (i : Nat)
    (rest : Archive) (hnone : ∀ v ∈ worlds, v ≠ NULL → (mem v).id ≠ i) :
    World.world_from_id mem worlds i = NULL ∧
    MADNESS_ASSERT (World.world_from_id mem worlds i != 0) = none ∧
    archive.load mem worlds (i :: rest) = none ∧
    (∀ (ar ar1 : Archive) (wptr : Ptr),
      archive.load mem worlds ar = some (wptr, ar1) → wptr ≠ NULL) := by
  have h0 : World.world_from_id mem worlds i = 0 :=
    world_from_id_of_no_match mem worlds i hnone
  refine ⟨h0, ?_, ?_, ?_⟩
  · simp [MADNESS_ASSERT, h0]
  · rw [load_cons, if_pos h0]
  · intro ar ar1 wptr hload
    cases ar with
    | nil => simp [archive.load, Archive.read] at hload
    | cons x xs =>
      rw [load_cons] at hload
      by_cases hx : World.world_from_id mem worlds x = 0
      · rw [if_pos hx] at hload
        simp at hload
      · rw [if_neg hx] at hload
        simp only [Option.some.injEq, Prod.mk.injEq] at hload
        rw [← hload.1]
        exact hx

/-- Witness for C19: the active list holds the worlds at 4096 and 8192, whose
    ids are 4096 and 8192; the id 5 is loaded. -/
theorem C19_load_unknown_id_asserts_witness :
    archive.load (fun a => World.construct a) [4096, 8192] [5] = none :=
  (C19_load_unknown_id_asserts (fun a => World.construct a) [4096, 8192] 5 []
    (by decide)).2.2.1

/-- C20. The user state is a single slot: `get_user_state` is null on a world
    that the constructor has just made, is `s` after `set_user_state s`
    whatever was set before, and is null after `clear_user_state`, which is
    `set_user_state 0`.  The three members leave the registry maps, the
    counter and the deferred list as they are, and no other public member,
    nor `do_deferred_cleanup`, changes the user state. -/
theorem C20_user_state_single_slot (w : World) (s s0 : Ptr) :
    (∀ id, (World.construct id).get_user_state = NULL) ∧
    (∀ {S : Type} (E : Collaborators S) (q : Process S) (this : Ptr) (u c r b : Nat),
      ((World.constructor E this u c r b q).mem this).get_user_state = NULL) ∧
    (w.set_user_state s).get_user_state = s ∧
    ((w.set_user_state s0).set_user_state s).get_user_state = s ∧
    w.clear_user_state = w.set_user_state 0 ∧
    (w.clear_user_state).get_user_state = NULL ∧
    call w Op.get_user_state = some (Ret.ptr w.get_user_state, w) ∧
    ((w.set_user_state s).map_id_to_ptr = w.map_id_to_ptr ∧
     (w.set_user_state s).map_ptr_to_id = w.map_ptr_to_id ∧
     (w.set_user_state s).obj_id = w.obj_id ∧
     (w.set_user_state s).deferred = w.deferred) ∧
    ((w.clear_user_state).map_id_to_ptr = w.map_id_to_ptr ∧
     (w.clear_user_state).map_ptr_to_id = w.map_ptr_to_id ∧
     (w.clear_user_state).obj_id = w.obj_id ∧
     (w.clear_user_state).deferred = w.deferred) ∧
    (∀ (op : Op) (r : Ret) (w1 : World), call w op = some (r, w1) →
      (∀ s1, op ≠ Op.set_user_state s1) → op ≠ Op.clear_user_state →
      w1.user_state = w.user_state) ∧
    (w.do_deferred_cleanup).2.user_state = w.user_state := by
  refine ⟨fun _ => rfl, ?_, rfl, rfl, rfl, rfl, rfl, ⟨rfl, rfl, rfl, rfl⟩,
    ⟨rfl, rfl, rfl, rfl⟩, ?_, ?_⟩
  · intro S E q this u c r b
    rw [(constructor_frame E this u c r b q).2, Function.update_same]
    rfl
  · intro op r w1 hc hset hclear
    exact call_user_state hc hset hclear
  · unfold World.do_deferred_cleanup
    by_cases hd : w.deferred.isEmpty = true
    · simp [hd]
    · simp [hd]

/-- C16. `await` returns as soon as an evaluation of the probe succeeds: if
    the probe succeeds at its evaluation number `k` (from 0), `await` returns
    for every fuel above `k`, and a successful probe on entry makes it return
    with nothing polled and no task run.  The record of a returning `await`
    ends with the successful evaluation, and the evaluations and calls that
    `await` makes itself are, for every failed evaluation, that evaluation,
    one `poll_all` and one `run_tasks`, then the successful evaluation; the
    first `poll_all` has `working = false`.  The list of worlds and the world
    objects are as before. -/
theorem C16_await_never_polls_after_success {S : Type} (E : Collaborators S)
    (probe : S → Bool × S) (fuel : Nat) (p p1 : Process S)
    (h : World.await E probe fuel p = some p1) :
    (∃ (new : List Called) (workings : List Bool),
      p1.calls = p.calls ++ new ∧
      new.filter Called.by_await = await_calls workings ∧
      (workings.head? = none ∨ workings.head? = some false) ∧
      new.getLast? = some (Called.probe true)) ∧
    (p1.worlds = p.worlds ∧ p1.mem = p.mem) ∧
    (∀ (q : Process S) (n : Nat), (probe q.ext).1 = true →
      World.await E probe (n + 1) q =
        some { q with ext := (probe q.ext).2, calls := q.calls ++ [Called.probe true] }) ∧
    (∀ (q : Process S) (k n : Nat), k < n →
      (∀ j, j < k →
        (evaluate_probe probe ((World.await_pass E probe)^[j] (false, q)).2).1 = false) →
      (evaluate_probe probe ((World.await_pass E probe)^[k] (false, q)).2).1 = true →
      World.await E probe n q =
        some (evaluate_probe probe ((World.await_pass E probe)^[k] (false, q)).2).2) := by
  refine ⟨await_loop_calls E probe fuel false p p1 h,
    await_loop_frame E probe fuel false p p1 h, ?_, ?_⟩
  · intro q n hq
    show World.await_loop E probe (n + 1) false q = _
    rw [await_loop_succ]
    have h1 : (evaluate_probe probe q).1 = true := hq
    rw [if_pos h1]
    simp [evaluate_probe, hq]
  · intro q k n hk hfail hok
    exact await_loop_returns E probe k false q n hk hfail hok

/-- Witness for C16: a probe that succeeds once the state of the collaborators
    (a clock that every reading advances) is past 0; it fails on entry and
    succeeds at its second evaluation. -/
theorem C16_await_never_polls_after_success_witness :
    ∃ (new : List Called) (workings : List Bool),
      (evaluate_probe (fun s : Nat => (decide (0 < s), s))
        (World.await_pass ticking_clock (fun s : Nat => (decide (0 < s), s))
          (false, Process.start (fun _ => World.construct 0) 0)).2).2.calls =
        (Process.start (fun _ => World.construct 0) (0 : Nat)).calls ++ new ∧
      new.filter Called.by_await = await_calls workings ∧
      (workings.head? = none ∨ workings.head? = some false) ∧
      new.getLast? = some (Called.probe true) :=
  (C16_await_never_polls_after_success ticking_clock (fun s : Nat => (decide (0 < s), s)) 2
    (Process.start (fun _ => World.construct 0) 0)
    (evaluate_probe (fun s : Nat => (decide (0 < s), s))
      (World.await_pass ticking_clock (fun s : Nat => (decide (0 < s), s))
        (false, Process.start (fun _ => World.construct 0) 0)).2).2
    rfl).1

/-- C17 (amended). As long as the sum `last_poll + poll_delay` does not exceed
    the range of a `uint64_t`: `poll_all(true)` polls no world and leaves
    `last_poll` unchanged when the cycle count it reads is below
    `last_poll + poll_delay`; in every other case (`working` is false, or the
    cycle count read is at least `last_poll + poll_delay`) it polls the AM
    interface of every non-null world of the list exactly once, in list
    order, and then sets `last_poll` to the cycle count it reads after the
    polls.  The list of worlds, the world objects and `poll_delay` are never
    changed. -/
theorem C17_poll_all_throttles_while_working {S : Type} (E : Collaborators S)
    (p : Process S) (hsum : p.last_poll + p.poll_delay < 2 ^ 64) :
    ((E.cycle_count p.ext).1 < p.last_poll + p.poll_delay →
      (World.poll_all E true p).calls = p.calls ++ [Called.poll_all true] ∧
      (World.poll_all E true p).last_poll = p.last_poll ∧
      (World.poll_all E true p).ext = (E.cycle_count p.ext).2) ∧
    (∀ working : Bool,
      (working = false ∨ p.last_poll + p.poll_delay ≤ (E.cycle_count p.ext).1) →
      (World.poll_all E working p).calls =
        p.calls ++ Called.poll_all working ::
          (p.worlds.filter (fun x => x != 0)).map Called.am_poll ∧
      (World.poll_all E working p).ext =
        (E.cycle_count
          ((p.worlds.filter (fun x => x != 0)).foldl (fun e world => E.am_poll world e)
            (if working then (E.cycle_count p.ext).2 else p.ext))).2 ∧
      (World.poll_all E working p).last_poll =
        (E.cycle_count
          ((p.worlds.filter (fun x => x != 0)).foldl (fun e world => E.am_poll world e)
            (if working then (E.cycle_count p.ext).2 else p.ext))).1) ∧
    (∀ working : Bool,
      (World.poll_all E working p).worlds = p.worlds ∧
      (World.poll_all E working p).mem = p.mem ∧
      (World.poll_all E working p).poll_delay = p.poll_delay) := by
  have hmod : (p.last_poll + p.poll_delay) % UINT64_RANGE = p.last_poll + p.poll_delay :=
    Nat.mod_eq_of_lt hsum
  refine ⟨?_, ?_, ?_⟩
  · intro hlt
    rw [poll_all_throttled E p (by rw [hmod]; exact hlt)]
    exact ⟨rfl, rfl, rfl⟩
  · intro working hcase
    have hcase1 : working = false ∨
        ¬ (E.cycle_count p.ext).1 < (p.last_poll + p.poll_delay) % UINT64_RANGE := by
      rcases hcase with h | h
      · exact Or.inl h
      · right
        rw [hmod]
        omega
    rw [poll_all_polls E working p hcase1]
    refine ⟨?_, rfl, rfl⟩
    simp
  · intro working
    obtain ⟨h1, h2, _, h4, _⟩ := poll_all_frame E working p
    exact ⟨h1, h2, h4⟩

/-- Witness for C17: a process with the worlds 4096 and 8192, `last_poll = 100`
    and `poll_delay = 8`, whose cycle counter reads 103. -/
theorem C17_poll_all_throttles_while_working_witness :
    (World.poll_all ticking_clock true
      { Process.start (fun _ => World.construct 0) (103 : Nat) with
        worlds := [4096, 8192], poll_delay := 8, last_poll := 100 }).calls =
      [] ++ [Called.poll_all true] :=
  ((C17_poll_all_throttles_while_working ticking_clock
    { Process.start (fun _ => World.construct 0) (103 : Nat) with
      worlds := [4096, 8192], poll_delay := 8, last_poll := 100 }
    (by decide)).1 (by decide)).1

/-- Counterexample to C17 as stated: `last_poll` is 2^64 - 1, `poll_delay` is 8
    and the cycle counter reads 2^64 - 1, which is below
    `last_poll + poll_delay`; the sum of the two `uint64_t` is 7, so
    `poll_all(true)` nevertheless polls the world at 4096 and sets
    `last_poll`. -/
theorem C17_counterexample :
    (ticking_clock.cycle_count (2 ^ 64 - 1)).1 = 2 ^ 64 - 1 ∧
    2 ^ 64 - 1 < (2 ^ 64 - 1) + 8 ∧
    (World.poll_all ticking_clock true
      { Process.start (fun _ => World.construct 0) (2 ^ 64 - 1 : Nat) with
        worlds := [4096], poll_delay := 8, last_poll := 2 ^ 64 - 1 }).calls =
      [Called.poll_all true, Called.am_poll 4096] ∧
    (World.poll_all ticking_clock true
      { Process.start (fun _ => World.construct 0) (2 ^ 64 - 1 : Nat) with
        worlds := [4096], poll_delay := 8, last_poll := 2 ^ 64 - 1 }).last_poll = 0 := by
  refine ⟨by decide, by decide, by decide, by decide⟩

/-- C15 (the code at the failing input). Two worlds, at 4096 and 8192, each
    with one ready task: `run_tasks` returns true after the task of the first
    world has run, and `run_next_ready_task` is not called on the second
    world, whose task stays ready. -/
theorem C15_run_tasks_stops_after_first_task :
    (World.run_tasks ready_task_counts
      { Process.start (fun _ => World.construct 0) (fun _ : Ptr => (1 : Nat)) with
        worlds := [4096, 8192] }).1 = true ∧
    (World.run_tasks ready_task_counts
      { Process.start (fun _ => World.construct 0) (fun _ : Ptr => (1 : Nat)) with
        worlds := [4096, 8192] }).2.calls =
      [Called.run_tasks, Called.run_next_ready_task 4096 true] ∧
    (World.run_tasks ready_task_counts
      { Process.start (fun _ => World.construct 0) (fun _ : Ptr => (1 : Nat)) with
        worlds := [4096, 8192] }).2.ext 4096 = 0 ∧
    (World.run_tasks ready_task_counts
      { Process.start (fun _ => World.construct 0) (fun _ : Ptr => (1 : Nat)) with
        worlds := [4096, 8192] }).2.ext 8192 = 1 := by
  refine ⟨by decide, by decide, by decide, by decide⟩

/-- C25. `do_deferred_cleanup` returns true exactly when the deferred list was
    not empty at the call; the deferred list is empty afterwards in both
    cases, and no other member of the world is changed. -/
theorem C25_do_deferred_cleanup (w : World) :
    ((w.do_deferred_cleanup).1 = true ↔ w.deferred ≠ []) ∧
    (w.do_deferred_cleanup).2.deferred = [] ∧
    ((w.do_deferred_cleanup).2.map_id_to_ptr = w.map_id_to_ptr ∧
     (w.do_deferred_cleanup).2.map_ptr_to_id = w.map_ptr_to_id ∧
     (w.do_deferred_cleanup).2.id = w.id ∧
     (w.do_deferred_cleanup).2.obj_id = w.obj_id ∧
     (w.do_deferred_cleanup).2.user_state = w.user_state) := by
  unfold World.do_deferred_cleanup
  cases hd : w.deferred with
  | nil => simp [hd]
  | cons x xs => simp [World.id]

/-- C26. When `run_next_ready_task` returns whether the task queue had a ready
    task and changes nothing when it had none: `run_tasks` returns true
    exactly when one of the `run_next_ready_task` calls it made ran a task,
    which is exactly when a non-null world of the list had a ready task; when
    it returns false every call it made ran no task and the collaborators are
    as before.  The value returned is the `working` of the next pass of the
    loop of `await`, handed to its `poll_all`.  The state left is pinned in
    both cases: when a non-null world has a ready task, the list of non-null
    worlds splits at the first such world `w0`, the worlds before `w0` are
    asked in vain, the task of `w0` is executed (the collaborators are in
    the state that `run_next_ready_task` on `w0` leaves) and no other call is
    made; when none has, every non-null world is asked in vain and nothing
    but the record of calls changes. -/
theorem C26_run_tasks_status {S : Type} (E : Collaborators S) (ready : Ptr → S → Bool)
    (hready : ∀ w s, (E.run_next_ready_task w s).1 = ready w s)
    (hidle : ∀ w s, ready w s = false → (E.run_next_ready_task w s).2 = s)
    (p : Process S) :
    (∃ ran : List (Ptr × Bool),
      (World.run_tasks E p).2.calls =
        p.calls ++ Called.run_tasks ::
          ran.map (fun x => Called.run_next_ready_task x.1 x.2) ∧
      ((World.run_tasks E p).1 = true ↔ ∃ x ∈ ran, x.2 = true) ∧
      ((World.run_tasks E p).1 = false → ∀ x ∈ ran, x.2 = false)) ∧
    ((World.run_tasks E p).1 = true ↔
      ∃ w ∈ p.worlds, w ≠ NULL ∧ ready w p.ext = true) ∧
    ((World.run_tasks E p).1 = false → (World.run_tasks E p).2.ext = p.ext) ∧
    (∀ (probe : S → Bool × S) (fuel : Nat) (working : Bool) (q : Process S),
      (evaluate_probe probe q).1 = false →
      World.await_loop E probe (fuel + 1) working q =
        World.await_loop E probe fuel
          (World.run_tasks E (World.poll_all E working (evaluate_probe probe q).2)).1
          (World.run_tasks E (World.poll_all E working (evaluate_probe probe q).2)).2) ∧
    ((∃ w ∈ p.worlds, w ≠ NULL ∧ ready w p.ext = true) →
      ∃ pre w0 post, p.worlds.filter (fun w => w != 0) = pre ++ w0 :: post ∧
        (∀ w ∈ pre, ready w p.ext = false) ∧ ready w0 p.ext = true) ∧
    (∀ pre w0 post, p.worlds.filter (fun w => w != 0) = pre ++ w0 :: post →
      (∀ w ∈ pre, ready w p.ext = false) → ready w0 p.ext = true →
      World.run_tasks E p =
        (true,
         { p with
           ext := (E.run_next_ready_task w0 p.ext).2
           calls := p.calls ++ Called.run_tasks ::
             (pre.map (fun w => Called.run_next_ready_task w false) ++
               [Called.run_next_ready_task w0 true]) })) ∧
    ((∀ w ∈ p.worlds, w ≠ NULL → ready w p.ext = false) →
      World.run_tasks E p =
        (false,
         { p with
           calls := p.calls ++ Called.run_tasks ::
             (p.worlds.filter (fun w => w != 0)).map
               (fun w => Called.run_next_ready_task w false) })) := by
  obtain ⟨ran, h1, h2, h3, h4⟩ := foldl_world_do_run_task_false E ready hready hidle
    p.worlds { p with calls := p.calls ++ [Called.run_tasks] }
  have hstatus : (World.run_tasks E p).1 =
      (p.worlds.foldl (fun acc world => world_do_run_task E world acc)
        ({ p with calls := p.calls ++ [Called.run_tasks] }, false)).2 := rfl
  have hproc : (World.run_tasks E p).2 =
      (p.worlds.foldl (fun acc world => world_do_run_task E world acc)
        ({ p with calls := p.calls ++ [Called.run_tasks] }, false)).1 := rfl
  have hpair : World.run_tasks E p =
      ((p.worlds.foldl (fun acc world => world_do_run_task E world acc)
          ({ p with calls := p.calls ++ [Called.run_tasks] }, false)).2,
       (p.worlds.foldl (fun acc world => world_do_run_task E world acc)
          ({ p with calls := p.calls ++ [Called.run_tasks] }, false)).1) := rfl
  refine ⟨⟨ran, ?_, ?_, ?_⟩, ?_, ?_, ?_, ?_, ?_, ?_⟩
  · rw [hproc, h1]
    simp
  · rw [hstatus]
    exact h2
  · intro hfalse x hx
    rw [hstatus] at hfalse
    cases hx2 : x.2 with
    | false => rfl
    | true =>
      have := h2.mpr ⟨x, hx, hx2⟩
      rw [hfalse] at this
      exact absurd this (by simp)
  · rw [hstatus]
    exact h3
  · intro hfalse
    rw [hstatus] at hfalse
    rw [hproc]
    exact h4 hfalse
  · intro probe fuel working q hq
    rw [await_loop_succ, hq]
    rfl
  · rintro ⟨w, hw, hw0, hwr⟩
    apply first_split (fun w => ready w p.ext)
    refine ⟨w, List.mem_filter.mpr ⟨hw, ?_⟩, hwr⟩
    simpa using hw0
  · intro pre w0 post hws hpre h0
    rw [hpair, foldl_world_do_run_task_first E ready hready hidle p.worlds pre post w0
      { p with calls := p.calls ++ [Called.run_tasks] } hws hpre h0]
    simp
  · intro hall
    rw [hpair, foldl_world_do_run_task_filter,
      foldl_world_do_run_task_idle E ready hready hidle _
        { p with calls := p.calls ++ [Called.run_tasks] }
        (fun w hw => ⟨(List.mem_filter.mp hw).2,
          hall w (List.mem_filter.mp hw).1 (by simpa using (List.mem_filter.mp hw).2)⟩)]
    simp

/-- Witness for C26: task queues that count their ready tasks, two worlds with
    one ready task each. -/
theorem C26_run_tasks_status_witness :
    (World.run_tasks ready_task_counts
      { Process.start (fun _ => World.construct 0) (fun _ : Ptr => (1 : Nat)) with
        worlds := [4096, 8192] }).1 = true ↔
      ∃ w ∈ [4096, 8192], w ≠ NULL ∧ (fun (w : Ptr) (s : Ptr → Nat) => s w != 0) w
        (fun _ : Ptr => (1 : Nat)) = true :=
  (C26_run_tasks_status ready_task_counts (fun w s => s w != 0)
    (by
      intro w s
      by_cases h : s w = 0
      · simp [ready_task_counts, h]
      · simp [ready_task_counts, h])
    (by
      intro w s h
      have h0 : s w = 0 := by simpa using h
      simp [ready_task_counts, h0])
    { Process.start (fun _ => World.construct 0) (fun _ : Ptr => (1 : Nat)) with
      worlds := [4096, 8192] }).2.1

/-- C30. After every sequence of calls of `start_timer` and `end_timer` that
    starts with empty vectors, `ttt` and `sss` have the same length: they hold
    the wall and cpu readings of the unmatched starts, oldest first.  Hence
    `end_timer` never pops an empty vector; it fails its check when no start
    is unmatched, and otherwise pops the readings of the most recent unmatched
    start and leaves those of the others, one entry less in each vector. -/
theorem C30_timer_stacks_in_step {T : Type} (calls : List (molresponse.TimerCall T)) :
    (molresponse.timer_run (molresponse.Timers.start T) calls).ttt.length =
      (molresponse.timer_run (molresponse.Timers.start T) calls).sss.length ∧
    ((molresponse.timer_run (molresponse.Timers.start T) calls).ttt =
        (molresponse.unmatched_starts [] calls).map Prod.fst ∧
     (molresponse.timer_run (molresponse.Timers.start T) calls).sss =
        (molresponse.unmatched_starts [] calls).map Prod.snd) ∧
    molresponse.end_timer (molresponse.timer_run (molresponse.Timers.start T) calls) ≠
      .error molresponse.TimerError.pop_of_empty ∧
    (molresponse.unmatched_starts [] calls = [] →
      molresponse.end_timer (molresponse.timer_run (molresponse.Timers.start T) calls) =
        .error molresponse.TimerError.check_failed) ∧
    (∀ (st : List (T × T)) (wall cpu : T),
      molresponse.unmatched_starts [] calls = st ++ [(wall, cpu)] →
      molresponse.end_timer (molresponse.timer_run (molresponse.Timers.start T) calls) =
        .ok ((wall, cpu), { ttt := st.map Prod.fst, sss := st.map Prod.snd }) ∧
      (st.map Prod.fst).length + 1 =
        (molresponse.timer_run (molresponse.Timers.start T) calls).ttt.length ∧
      (st.map Prod.snd).length + 1 =
        (molresponse.timer_run (molresponse.Timers.start T) calls).sss.length) := by
  obtain ⟨h1, h2⟩ := molresponse.timer_run_unmatched calls (molresponse.Timers.start T) []
    rfl rfl
  have hnil : molresponse.unmatched_starts [] calls = [] →
      molresponse.end_timer (molresponse.timer_run (molresponse.Timers.start T) calls) =
        .error molresponse.TimerError.check_failed := by
    intro h
    apply molresponse.end_timer_of_no_start
    rw [h1, h]
    rfl
  have hcons : ∀ (st : List (T × T)) (wall cpu : T),
      molresponse.unmatched_starts [] calls = st ++ [(wall, cpu)] →
      molresponse.end_timer (molresponse.timer_run (molresponse.Timers.start T) calls) =
        .ok ((wall, cpu), { ttt := st.map Prod.fst, sss := st.map Prod.snd }) := by
    intro st wall cpu h
    apply molresponse.end_timer_of_start
    · rw [h1, h]
    · rw [h2, h]
  refine ⟨?_, ⟨h1, h2⟩, ?_, hnil, ?_⟩
  · rw [h1, h2]
    simp
  · rcases List.eq_nil_or_concat (molresponse.unmatched_starts ([] : List (T × T)) calls)
      with h | ⟨st, x, h⟩
    · rw [hnil h]
      simp
    · rw [List.concat_eq_append] at h
      rw [hcons st x.1 x.2 h]
      simp
  · intro st wall cpu h
    refine ⟨hcons st wall cpu h, ?_, ?_⟩
    · rw [h1, h]
      simp
    · rw [h2, h]
      simp

/-- C22. When `ar & x` for an element appends its encoding to a storing
    archive and reads an element back from a loading archive that begins with
    its encoding (each element round-trips): `store` writes the encodings of
    the elements of the array in index order and nothing else, `load` reads as
    many elements as the array has, and `load` applied to what `store` wrote
    yields the array. -/
theorem C22_array_round_trip {T : Type} (store_elem : Archive → T → Archive)
    (load_elem : Archive → Option (T × Archive)) (enc : T → List Nat)
    (hstore : ∀ ar x, store_elem ar x = ar ++ enc x)
    (hload : ∀ x rest, load_elem (enc x ++ rest) = some (x, rest))
    (a : List T) :
    (∀ ar : Archive, archive.store_array store_elem ar a = ar ++ (a.map enc).flatten) ∧
    archive.load_array load_elem a.length (archive.store_array store_elem [] a) =
      some (a, []) ∧
    (∀ rest : Archive,
      archive.load_array load_elem a.length (archive.store_array store_elem [] a ++ rest) =
        some (a, rest)) ∧
    (∀ (n : Nat) (ar ar1 : Archive) (xs : List T),
      archive.load_array load_elem n ar = some (xs, ar1) → xs.length = n) := by
  have hs := store_array_eq store_elem enc hstore a
  have hl := load_array_join load_elem enc hload a
  refine ⟨hs, ?_, ?_, ?_⟩
  · rw [hs]
    have := hl []
    simpa using this
  · intro rest
    rw [hs]
    simpa using hl rest
  · intro n ar ar1 xs h
    exact load_array_length load_elem n ar ar1 xs h

/-- Witness for C22: an array of three numbers, each stored as itself. -/
theorem C22_array_round_trip_witness :
    archive.load_array Archive.read 3 (archive.store_array Archive.write [] [7, 8, 9]) =
      some ([7, 8, 9], []) :=
  (C22_array_round_trip Archive.write Archive.read (fun x => [x])
    (fun _ _ => rfl) (fun _ _ => rfl) [7, 8, 9]).2.1

/-- C29 (the code at failing inputs). `transpose` makes its result with as
    many rows as `f` and rows as long as those of `f`, and then assigns
    `g[j][i]`: for one row of two functions the assignment `g[1][0]` is
    outside the container, and so is `g[0][1]` for two rows of one function;
    only for as many rows as columns does it return the transpose. -/
theorem C29_transpose_of_non_square :
    transpose (0 : Nat) [[1, 2]] = .error TransposeError.out_of_bounds ∧
    transpose (0 : Nat) [[1], [2]] = .error TransposeError.out_of_bounds ∧
    response_space.zeros (0 : Nat) 1 2 = [[0, 0]] ∧
    transpose (0 : Nat) [[1, 2], [3, 4]] = .ok [[1, 3], [2, 4]] := by
  refine ⟨rfl, rfl, rfl, rfl⟩

/-- C23 (amended). In a world reached from a new one by a sequence of calls
    that draws fewer than 2^64 - 1 ids and calls `register_ptr` only on
    pointers without an entry in the pointer map, the two maps mirror each
    other: `k -> p` is in the id map exactly when `p -> k` is in the pointer
    map; for every id `k` other than the invalid id (0,0) and every non-null
    pointer `p`, `ptr_from_id(k) = p` if and only if `id_from_ptr(p) = k`; a
    further `register_ptr(p)` on an unmapped `p` that returns `k` leaves
    `id_from_ptr(p) = k`; and both maps have the same number of entries. -/
theorem C23_registry_maps_mutually_inverse (id : Nat) (ops : List Op)
    (tr : List (Op × Ret)) (w : World)
    (h : run (World.construct id) ops = some (tr, w))
    (hb : allocs ops < 2 ^ 64 - 1)
    (hpre : registers_only_unregistered (World.construct id) ops = true) :
    (∀ k p, hash_map.find w.map_id_to_ptr k = some p ↔
        hash_map.find w.map_ptr_to_id p = some k) ∧
    (∀ k p, k ≠ World.invalidid → p ≠ NULL → (w.ptr_from_id k = p ↔ w.id_from_ptr p = k)) ∧
    (∀ s p k w1, hash_map.find w.map_ptr_to_id p = none →
        w.register_ptr s p = some (k, w1) → w1.id_from_ptr p = k) ∧
    hash_map.size w.map_id_to_ptr = hash_map.size w.map_ptr_to_id := by
  have hb1 : (World.construct id).obj_id + allocs ops < ULONG_RANGE := by
    have : ULONG_RANGE = 2 ^ 64 := rfl
    simp only [World.construct]
    omega
  obtain ⟨hA, _, _, hD⟩ := registry_inverse_run h (registry_inverse_construct id)
    (id_keys_below_construct id) (by simp [World.construct]) hb1 hpre
  refine ⟨hA, ?_, ?_, hD⟩
  · intro k p hk hp
    constructor
    · intro hptr
      cases hf : hash_map.find w.map_id_to_ptr k with
      | none =>
        simp only [World.ptr_from_id, hf] at hptr
        exact absurd hptr.symm hp
      | some p1 =>
        simp only [World.ptr_from_id, hf] at hptr
        subst hptr
        simp [World.id_from_ptr, (hA k p1).mp hf]
    · intro hid
      cases hf : hash_map.find w.map_ptr_to_id p with
      | none =>
        simp only [World.id_from_ptr, hf] at hid
        exact absurd hid.symm hk
      | some k1 =>
        simp only [World.id_from_ptr, hf] at hid
        subst hid
        simp [World.ptr_from_id, (hA k1 p).mpr hf]
  · intro s p k w1 hp hreg
    rw [World.register_ptr_eq] at hreg
    by_cases hs : s = sizeof_void_ptr
    · simp only [hs, if_true, Option.some.injEq, Prod.mk.injEq] at hreg
      obtain ⟨hk, hw1⟩ := hreg
      subst hk hw1
      simp [World.id_from_ptr, hash_map.find_insert_self _ _ _ hp]
    · simp [hs] at hreg

/-- Witness for C23: register 4096 and 8192, unregister 4096. -/
theorem C23_registry_maps_mutually_inverse_witness :
    run (World.construct 7)
        [Op.register_ptr 8 4096, Op.register_ptr 8 8192, Op.unregister_ptr 4096] =
      some ([(Op.register_ptr 8 4096, Ret.id { worldid := 7, objid := 1 }),
             (Op.register_ptr 8 8192, Ret.id { worldid := 7, objid := 2 }),
             (Op.unregister_ptr 4096, Ret.void)],
            { map_id_to_ptr := [({ worldid := 7, objid := 2 }, 8192)]
              map_ptr_to_id := [(8192, { worldid := 7, objid := 2 })]
              _id := 7, obj_id := 3, user_state := 0, deferred := [] }) ∧
    hash_map.size [(({ worldid := 7, objid := 2 } : uniqueidT), (8192 : Ptr))] =
      hash_map.size [((8192 : Ptr), ({ worldid := 7, objid := 2 } : uniqueidT))] :=
  ⟨by decide,
   (C23_registry_maps_mutually_inverse 7
      [Op.register_ptr 8 4096, Op.register_ptr 8 8192, Op.unregister_ptr 4096]
      [(Op.register_ptr 8 4096, Ret.id { worldid := 7, objid := 1 }),
       (Op.register_ptr 8 8192, Ret.id { worldid := 7, objid := 2 }),
       (Op.unregister_ptr 4096, Ret.void)]
      { map_id_to_ptr := [({ worldid := 7, objid := 2 }, 8192)]
        map_ptr_to_id := [(8192, { worldid := 7, objid := 2 })]
        _id := 7, obj_id := 3, user_state := 0, deferred := [] }
      (by decide) (by decide) (by decide)).2.2.2⟩

/-- Counterexample to C23 as stated (every id and every pointer): in the empty
    registry of a new world `ptr_from_id` of the unmapped id (0,1) is the null
    pointer, yet `id_from_ptr` of the null pointer is the invalid id (0,0), not
    (0,1); and after `register_ptr(4096)`, `id_from_ptr` of the unmapped
    pointer 8192 is the invalid id, yet `ptr_from_id` of the invalid id is the
    null pointer, not 8192. -/
theorem C23_counterexample :
    run (World.construct 0) [] = some ([], World.construct 0) ∧
    (World.construct 0).ptr_from_id { worldid := 0, objid := 1 } = NULL ∧
    (World.construct 0).id_from_ptr NULL = { worldid := 0, objid := 0 } ∧
    (World.construct 0).id_from_ptr NULL ≠ { worldid := 0, objid := 1 } ∧
    run (World.construct 0) [Op.register_ptr 8 4096] =
      some ([(Op.register_ptr 8 4096, Ret.id { worldid := 0, objid := 1 })],
            { map_id_to_ptr := [({ worldid := 0, objid := 1 }, 4096)]
              map_ptr_to_id := [(4096, { worldid := 0, objid := 1 })]
              _id := 0, obj_id := 2, user_state := 0, deferred := [] }) ∧
    World.id_from_ptr
        { map_id_to_ptr := [({ worldid := 0, objid := 1 }, 4096)]
          map_ptr_to_id := [(4096, { worldid := 0, objid := 1 })]
          _id := 0, obj_id := 2, user_state := 0, deferred := [] } 8192 =
      World.invalidid ∧
    World.ptr_from_id
        { map_id_to_ptr := [({ worldid := 0, objid := 1 }, 4096)]
          map_ptr_to_id := [(4096, { worldid := 0, objid := 1 })]
          _id := 0, obj_id := 2, user_state := 0, deferred := [] } World.invalidid = NULL ∧
    NULL ≠ (8192 : Ptr) := by
  decide

/-- C24 (amended). As long as every rank in `MPI::COMM_WORLD` is small enough
    for `rank*10000` to be an `int` and every id `10000*r + k` is an `unsigned
    long` (the process of rank `r` has been the rank-0 process of at most
    `2^64 - 10000*r` worlds), the `k`-th world (counted from 0) whose group
    rank-0 process has global rank `r` receives the id `10000*r + k`, and the
    ids issued by one process are strictly increasing; as long as, moreover,
    every process has been the rank-0 process of at most 10000 worlds, ids
    issued by different processes never coincide. -/
theorem C24_rank_partitioned_world_ids (gs : List Group)
    (hint : ∀ g ∈ gs, ∀ m ∈ g.members, m.comm_world_rank * 10000 < INT_RANGE)
    (hlt : ∀ g ∈ gs,
      10000 * g.root.comm_world_rank + rooted_at g.root.comm_world_rank gs ≤ 2 ^ 64) :
    (∀ r, ids_rooted_at r (world_ids idbase_initial gs) gs =
        (List.range (rooted_at r gs)).map (fun k => 10000 * r + k)) ∧
    (∀ r, List.Pairwise (fun a b => a < b)
        (ids_rooted_at r (world_ids idbase_initial gs) gs)) ∧
    ((∀ r, rooted_at r gs ≤ 10000) →
      ∀ r1 r2, r1 ≠ r2 → ∀ x ∈ ids_rooted_at r1 (world_ids idbase_initial gs) gs,
        x ∉ ids_rooted_at r2 (world_ids idbase_initial gs) gs) := by
  have hc : ∀ r, 0 < rooted_at r gs →
      10000 * r + (fun _ : Nat => 0) r + rooted_at r gs ≤ ULONG_RANGE := by
    intro r hpos
    obtain ⟨g, hg, hr⟩ := rooted_at_pos hpos
    have := hlt g hg
    rw [hr] at this
    show 10000 * r + 0 + rooted_at r gs ≤ 2 ^ 64
    omega
  have h1 := construct_worlds_spec_while gs idbase_initial (fun _ => 0)
    idbase_counts_while_initial hint hc
  have hids : ∀ r, ids_rooted_at r (world_ids idbase_initial gs) gs =
      (List.range (rooted_at r gs)).map (fun k => 10000 * r + k) := by
    intro r
    rw [h1, ids_rooted_at_partitioned]
    apply List.map_congr_left
    intro k _
    show 10000 * r + 0 + k = 10000 * r + k
    omega
  refine ⟨hids, ?_, ?_⟩
  · intro r
    rw [hids r, List.pairwise_map]
    exact List.Pairwise.imp (fun h => by omega) (List.pairwise_lt_range _)
  · intro hcount r1 r2 hne x hx1 hx2
    rw [hids r1] at hx1
    rw [hids r2] at hx2
    obtain ⟨k1, hk1, rfl⟩ := List.mem_map.mp hx1
    obtain ⟨k2, hk2, heq⟩ := List.mem_map.mp hx2
    have a1 := List.mem_range.mp hk1
    have a2 := List.mem_range.mp hk2
    have b1 := hcount r1
    have b2 := hcount r2
    apply hne
    omega

/-- Witness for C24: a world over the processes 0 and 1, then a world over
    process 1 alone, then a world over process 0 alone; the worlds rooted at
    process 0 have the ids 0 and 1. -/
theorem C24_rank_partitioned_world_ids_witness :
    ids_rooted_at 0
        (world_ids idbase_initial
          [{ root := { comm_world_rank := 0, uninitialised_id := 77 }
             others := [{ comm_world_rank := 1, uninitialised_id := 78 }] },
           { root := { comm_world_rank := 1, uninitialised_id := 79 }, others := [] },
           { root := { comm_world_rank := 0, uninitialised_id := 80 }, others := [] }])
        [{ root := { comm_world_rank := 0, uninitialised_id := 77 }
           others := [{ comm_world_rank := 1, uninitialised_id := 78 }] },
         { root := { comm_world_rank := 1, uninitialised_id := 79 }, others := [] },
         { root := { comm_world_rank := 0, uninitialised_id := 80 }, others := [] }] =
      [0, 1] :=
  ((C24_rank_partitioned_world_ids
    [{ root := { comm_world_rank := 0, uninitialised_id := 77 }
       others := [{ comm_world_rank := 1, uninitialised_id := 78 }] },
     { root := { comm_world_rank := 1, uninitialised_id := 79 }, others := [] },
     { root := { comm_world_rank := 0, uninitialised_id := 80 }, others := [] }]
    (by decide) (by decide)).1 0).trans (by decide)

/-- Counterexample to C24 as stated (the id of the `k`-th world is
    `10000*r + k` for every `k`): when process 0 constructs 2^64 + 1 worlds
    over itself alone, the world numbered `k = 2^64` receives the id 0, the
    counter being an `unsigned long`, and not `10000*0 + 2^64`. -/
theorem C24_counterexample :
    (world_ids idbase_initial (List.replicate (2 ^ 64 + 1)
        { root := { comm_world_rank := 0, uninitialised_id := 0 }, others := [] }))[2 ^ 64]? =
      some 0 ∧
    (0 : Nat) ≠ 10000 * 0 + 2 ^ 64 :=
  ⟨(world_ids_replicate_root0_get (2 ^ 64 + 1) (2 ^ 64) (by decide)).trans (by decide),
   by decide⟩

/-- C21 (the code, against the test `test_derived`). `read_and_set_derived_values`
    never derives `dconv`: in a parameter container in which `initialize` and
    `set_derived_value` on one key leave the values of the other keys, after
    the constructor and `read_and_set_derived_values` on an input block that
    does not set `dconv`, `dconv()` returns the default `3.e-4` whatever the
    block says about `econv`; that is `sqrt(econv()) * 0.1` only for an
    `econv` of `9.e-6`. -/
theorem C21_dconv_keeps_default {P E : Type} (B : QCCalculationParametersBase P E)
    (hf : B.frames) (hi : B.inits) (g_params_read : String → Except E GroundParameters)
    (inputfile tag : String) (p1 p3 : P)
    (hread : B.read inputfile tag (ResponseParameters.constructor B) = .ok p1)
    (hkeep : B.get_double "dconv" p1 = B.get_double "dconv" (ResponseParameters.constructor B))
    (hres : ResponseParameters.read_and_set_derived_values B g_params_read inputfile tag
      (ResponseParameters.constructor B) = .ok p3) :
    ResponseParameters.dconv B p3 = .ok { mantissa := 3, exponent := -4 } ∧
    (∀ e x : double, ResponseParameters.econv B p3 = .ok e →
      ResponseParameters.dconv B p3 = .ok x → (x.value * 10) ^ 2 = e.value →
      e.value = 9 / 1000000) := by
  obtain ⟨q1, a, g, p2, h1, _, _, h4, h5⟩ :=
    ResponseParameters.read_and_set_derived_values_ok hres
  rw [hread] at h1
  simp only [Except.ok.injEq] at h1
  subst h1
  have hobs : ∀ k v p q, k ≠ "dconv" → B.set_derived_value k v p = .ok q →
      B.get_double "dconv" q = B.get_double "dconv" p :=
    fun k v p q hk hset => (hf k "dconv" v p q hk hset).2.2.2
  have hd : ResponseParameters.dconv B p3 = .ok { mantissa := 3, exponent := -4 } := by
    unfold ResponseParameters.dconv
    rw [ResponseParameters.set_states_frame (B.get_double "dconv") "dconv" hobs (by decide) h5,
      ResponseParameters.set_ground_state_params_frame (B.get_double "dconv") "dconv" hobs
        (by decide) h4, hkeep]
    exact ResponseParameters.constructor_dconv hi
  refine ⟨hd, ?_⟩
  intro e x _ hx hsq
  rw [hd] at hx
  simp only [Except.ok.injEq] at hx
  subst hx
  rw [← hsq]
  norm_num [double.value]

/-- Witness for C21, the input of `test_derived`: `econv 1.e-4`, no `dconv`,
    `maxiter 12`.  In the container of the examples `econv()` returns `1.e-4`
    and `dconv()` returns `3.e-4`. -/
theorem C21_dconv_keeps_default_witness :
    (ResponseParameters.read_and_set_derived_values (parameter_list test_derived_files)
        (ground_example 2) "input1" "mp3"
        (ResponseParameters.constructor (parameter_list test_derived_files))).toOption.map
      (fun p => (ResponseParameters.econv (parameter_list test_derived_files) p,
                 ResponseParameters.dconv (parameter_list test_derived_files) p)) =
      some (.ok { mantissa := 1, exponent := -4 }, .ok { mantissa := 3, exponent := -4 }) ∧
    ResponseParameters.dconv (parameter_list test_derived_files)
        ([("xc", Value.string "hf"), ("k", Value.int 7),
          ("l", Value.double { mantissa := 20, exponent := 0 }),
          ("spinrestricted", Value.bool true), ("num_orbitals", Value.size_t 5),
          ("maxiter", Value.size_t 12),
          ("econv", Value.double { mantissa := 1, exponent := -4 })] ++
          ResponseParameters.constructor (parameter_list test_derived_files)) =
      .ok { mantissa := 3, exponent := -4 } :=
  ⟨rfl,
   (C21_dconv_keeps_default (parameter_list test_derived_files)
      (parameter_list_frames test_derived_files) (parameter_list_inits test_derived_files)
      (ground_example 2) "input1" "mp3"
      ([("maxiter", Value.size_t 12),
        ("econv", Value.double { mantissa := 1, exponent := -4 })] ++
        ResponseParameters.constructor (parameter_list test_derived_files))
      ([("xc", Value.string "hf"), ("k", Value.int 7),
        ("l", Value.double { mantissa := 20, exponent := 0 }),
        ("spinrestricted", Value.bool true), ("num_orbitals", Value.size_t 5),
        ("maxiter", Value.size_t 12),
        ("econv", Value.double { mantissa := 1, exponent := -4 })] ++
        ResponseParameters.constructor (parameter_list test_derived_files))
      rfl rfl rfl).1⟩

/-- C27 (the code, against the name and the comment of the parameter).
    `num_orbitals()` is `get<size_t>("states")`: on every parameter object it
    returns what `n_states()` returns.  In a parameter container in which
    `set_derived_value` stores a `size_t` and leaves the other keys, after
    `read_and_set_derived_values` the parameter "num_orbitals" holds the
    `n_orbitals()` of the ground state, while `num_orbitals()` returns the
    parameter "states". -/
theorem C27_num_orbitals_returns_states {P E : Type} (B : QCCalculationParametersBase P E)
    (hf : B.frames) (hs : B.stores) (g_params_read : String → Except E GroundParameters)
    (inputfile tag : String) (p p3 : P)
    (hres : ResponseParameters.read_and_set_derived_values B g_params_read inputfile tag p =
      .ok p3) :
    (∀ q, ResponseParameters.num_orbitals B q = ResponseParameters.n_states B q) ∧
    ResponseParameters.num_orbitals B p3 = B.get_size_t "states" p3 ∧
    ∃ p1 a g, B.read inputfile tag p = .ok p1 ∧ ResponseParameters.archive B p1 = .ok a ∧
      g_params_read a = .ok g ∧ B.get_size_t "num_orbitals" p3 = .ok g.n_orbitals := by
  refine ⟨fun _ => rfl, rfl, ?_⟩
  obtain ⟨p1, a, g, p2, h1, h2, h3, h4, h5⟩ :=
    ResponseParameters.read_and_set_derived_values_ok hres
  refine ⟨p1, a, g, h1, h2, h3, ?_⟩
  have hobs : ∀ k v p q, k ≠ "num_orbitals" → B.set_derived_value k v p = .ok q →
      B.get_size_t "num_orbitals" q = B.get_size_t "num_orbitals" p :=
    fun k v p q hk hset => (hf k "num_orbitals" v p q hk hset).2.1
  obtain ⟨q1, q2, q3, q4, s1, s2, s3, s4, s5⟩ :=
    ResponseParameters.set_ground_state_params_ok h4
  rw [ResponseParameters.set_states_frame (B.get_size_t "num_orbitals") "num_orbitals" hobs
      (by decide) h5,
    hobs _ _ _ _ (by decide) s5, hobs _ _ _ _ (by decide) s4, hobs _ _ _ _ (by decide) s3,
    hobs _ _ _ _ (by decide) s2]
  exact hs _ _ _ _ s1

/-- Witness for C27: an input block that sets nothing and a ground state of 5
    orbitals; the parameter "num_orbitals" is 5 afterwards and
    `num_orbitals()` returns 1, the default number of states. -/
theorem C27_num_orbitals_returns_states_witness :
    (ResponseParameters.read_and_set_derived_values (parameter_list (files_with []))
        (ground_example 2) "input" "response"
        (ResponseParameters.constructor (parameter_list (files_with [])))).toOption.map
      (fun p => ((parameter_list (files_with [])).get_size_t "num_orbitals" p,
                 ResponseParameters.num_orbitals (parameter_list (files_with [])) p)) =
      some (.ok 5, .ok 1) ∧
    ResponseParameters.num_orbitals (parameter_list (files_with []))
        ([("xc", Value.string "hf"), ("k", Value.int 7),
          ("l", Value.double { mantissa := 20, exponent := 0 }),
          ("spinrestricted", Value.bool true), ("num_orbitals", Value.size_t 5)] ++
          ResponseParameters.constructor (parameter_list (files_with []))) =
      (parameter_list (files_with [])).get_size_t "states"
        ([("xc", Value.string "hf"), ("k", Value.int 7),
          ("l", Value.double { mantissa := 20, exponent := 0 }),
          ("spinrestricted", Value.bool true), ("num_orbitals", Value.size_t 5)] ++
          ResponseParameters.constructor (parameter_list (files_with []))) :=
  ⟨rfl,
   (C27_num_orbitals_returns_states (parameter_list (files_with []))
      (parameter_list_frames (files_with [])) (parameter_list_stores (files_with []))
      (ground_example 2) "input" "response"
      (ResponseParameters.constructor (parameter_list (files_with [])))
      ([("xc", Value.string "hf"), ("k", Value.int 7),
        ("l", Value.double { mantissa := 20, exponent := 0 }),
        ("spinrestricted", Value.bool true), ("num_orbitals", Value.size_t 5)] ++
        ResponseParameters.constructor (parameter_list (files_with [])))
      rfl).2.1⟩

end madness
